import Mathlib

/-!
# Text-format decoder of protobuf-go (`encoding/prototext/decode.go`)

A shallow embedding of the descriptor-driven unmarshal state machine.

* The tokenizer (`internal/encoding/text`) is external: the decoder only sees the
  results of successive `Read`/`Peek` calls.  The input is therefore the list of
  the tokens that precede the end of the input, together with what the
  tokenizer does once they are used up: it yields the `EOF` token, at that call
  and at every later one (a complete top-level input), or it reports an error
  (the input ends inside an unclosed `{` or `[`, or is malformed there).
* The reflection interface is modelled by dynamic messages: a descriptor plus
  an association list from field numbers to values.
* Go functions that mutate a handle and return an `error` become functions
  returning the final state of the handle, the status and the remaining input.
* A Go `panic` is a status of its own; loops and recursion are driven by a
  fuel argument and `Status.outOfFuel` marks its exhaustion.
-/

namespace Prototext

abbrev Name := String
abbrev FullName := String
abbrev FieldNumber := Int
abbrev Bytes := List UInt8

/-! ## Tokens (`internal/encoding/text`, consumed) -/

namespace text

/-- Token kinds, `text.Kind`. -/
inductive Kind where
  | EOF | Name | Scalar | MessageOpen | MessageClose | ListOpen | ListClose
  deriving DecidableEq

/-- The label carried by a `Name` token together with its `text.NameKind`. -/
inductive NameKind where
  | IdentName (ident : Prototext.Name)
  | TypeName (typeName : Prototext.FullName)
  | FieldNumber (num : Int)
  deriving DecidableEq

/-- The typed accessors of a `Scalar` token: each one is a parse of the literal
that yields a value or rejects (`none`). Floats are carried as bit patterns. -/
structure Literal where
  Bool : Option Bool := none
  Int32 : Option Int := none
  Int64 : Option Int := none
  Uint32 : Option Nat := none
  Uint64 : Option Nat := none
  Float32 : Option Nat := none
  Float64 : Option Nat := none
  String : Option Bytes := none
  Enum : Option Prototext.Name := none
  deriving DecidableEq

inductive Body where
  | EOF
  | Name (name : NameKind) (hasSeparator : Bool)
  | Scalar (lit : Literal)
  | MessageOpen | MessageClose | ListOpen | ListClose
  deriving DecidableEq

/-- A token with its byte position and raw text. -/
structure Token where
  Pos : Nat
  RawString : String
  body : Body
  deriving DecidableEq

def Token.Kind (t : Token) : Kind :=
  match t.body with
  | .EOF => .EOF
  | .Name _ _ => .Name
  | .Scalar _ => .Scalar
  | .MessageOpen => .MessageOpen
  | .MessageClose => .MessageClose
  | .ListOpen => .ListOpen
  | .ListClose => .ListClose

def Token.lit (t : Token) : Literal :=
  match t.body with
  | .Scalar l => l
  | _ => {}

def Token.Enum (t : Token) : Option Prototext.Name := t.lit.Enum
def Token.String (t : Token) : Option Bytes := t.lit.String
def Token.Int32 (t : Token) : Option Int := t.lit.Int32
def Token.Int64 (t : Token) : Option Int := t.lit.Int64
def Token.Uint32 (t : Token) : Option Nat := t.lit.Uint32
def Token.Uint64 (t : Token) : Option Nat := t.lit.Uint64
def Token.Float32 (t : Token) : Option Nat := t.lit.Float32
def Token.Float64 (t : Token) : Option Nat := t.lit.Float64
def Token.Bool (t : Token) : Option Bool := t.lit.Bool

end text

/-! ## Descriptors and values (`reflect/protoreflect`, consumed) -/

namespace pref

/-- Field kinds, `protoreflect.Kind`. -/
inductive Kind where
  | BoolKind | EnumKind
  | Int32Kind | Sint32Kind | Uint32Kind
  | Int64Kind | Sint64Kind | Uint64Kind
  | Sfixed32Kind | Fixed32Kind | FloatKind
  | Sfixed64Kind | Fixed64Kind | DoubleKind
  | StringKind | BytesKind | MessageKind | GroupKind
  deriving DecidableEq

/-- A `protoreflect.Value`; `invalid` is the zero `Value{}`, for which `IsValid`
reports false. Strings and bytes are byte sequences, as in Go. -/
inductive Value where
  | invalid
  | bool (b : Bool)
  | int32 (n : Int)
  | int64 (n : Int)
  | uint32 (n : Nat)
  | uint64 (n : Nat)
  | float32 (bits : Nat)
  | float64 (bits : Nat)
  | string (s : Bytes)
  | bytes (b : Bytes)
  | enum (n : Int)
  | message (typ : FullName) (known : List (FieldNumber × Value))
  | list (elems : List Value)
  | map (entries : List (Value × Value))

def Value.IsValid : Value → Bool
  | .invalid => false
  | _ => true

structure OneofDescriptor where
  Index : Int
  FullName : Prototext.FullName
  deriving DecidableEq

structure EnumValueDescriptor where
  Name : Prototext.Name
  Number : Int
  deriving DecidableEq

/-- The queries the decoder makes of a `protoreflect.FieldDescriptor`.
`Message`, `MessageName` and `MessageIsPlaceholder` stand for
`fd.Message().FullName()`, `fd.Message().Name()` and
`fd.Message().IsPlaceholder()`; `ContainingMessage` for
`fd.ContainingMessage().FullName()`; `EnumValues` for `fd.Enum().Values()`.
The `MapKey*`/`MapValue*` fields describe the two fields of the entry message of
a map field. -/
structure FieldDescriptor where
  Name : Prototext.Name
  FullName : Prototext.FullName := ""
  Number : FieldNumber
  Kind : pref.Kind
  IsList : Bool := false
  IsMap : Bool := false
  IsWeak : Bool := false
  ContainingOneof : Option OneofDescriptor := none
  ContainingMessage : Prototext.FullName := ""
  EnumValues : List EnumValueDescriptor := []
  Message : Prototext.FullName := ""
  MessageName : Prototext.Name := ""
  MessageIsPlaceholder : Bool := false
  Default : Value := .invalid
  MapKeyKind : pref.Kind := .Int32Kind
  MapKeyDefault : Value := .invalid
  MapValueKind : pref.Kind := .Int32Kind
  MapValueDefault : Value := .invalid
  MapValueEnumValues : List EnumValueDescriptor := []
  MapValueMessage : Prototext.FullName := ""

/-- The key field (number 1) of the entry message of a map field, `fd.MapKey()`. -/
def FieldDescriptor.MapKey (fd : FieldDescriptor) : FieldDescriptor :=
  { Name := "key", Number := 1, Kind := fd.MapKeyKind, Default := fd.MapKeyDefault,
    ContainingMessage := fd.Message }

/-- The value field (number 2) of the entry message of a map field,
`fd.MapValue()`. -/
def FieldDescriptor.MapValue (fd : FieldDescriptor) : FieldDescriptor :=
  { Name := "value", Number := 2, Kind := fd.MapValueKind, Default := fd.MapValueDefault,
    EnumValues := fd.MapValueEnumValues, Message := fd.MapValueMessage,
    ContainingMessage := fd.Message }

/-- Lookup in `EnumValueDescriptors.ByName`. -/
def EnumValues.ByName (vs : List EnumValueDescriptor) (s : Name) : Option EnumValueDescriptor :=
  vs.find? (fun v => v.Name == s)

/-- The queries the decoder makes of a `protoreflect.MessageDescriptor`.
Extension ranges are half-open `[start, end)` pairs. -/
structure MessageDescriptor where
  FullName : Prototext.FullName
  Fields : List FieldDescriptor := []
  ReservedNames : List Prototext.Name := []
  ExtensionRanges : List (FieldNumber × FieldNumber) := []
  IsMessageSet : Bool := false

def Fields.ByName (fs : List FieldDescriptor) (s : Name) : Option FieldDescriptor :=
  fs.find? (fun f => f.Name == s)

def Fields.ByNumber (fs : List FieldDescriptor) (n : FieldNumber) : Option FieldDescriptor :=
  fs.find? (fun f => f.Number == n)

def ExtensionRanges.Has (rs : List (FieldNumber × FieldNumber)) (n : FieldNumber) : Bool :=
  rs.any (fun r => decide (r.1 ≤ n) && decide (n < r.2))

/-- Validity of a field number, `pref.FieldNumber.IsValid`: the numbers from 1 to
2^29 - 1 that lie outside the reserved range from 19000 to 19999. -/
def FieldNumber.IsValid (n : FieldNumber) : Bool :=
  (decide (1 ≤ n) && decide (n < 19000)) || (decide (19999 < n) && decide (n ≤ 536870911))

/-- A dynamic message: its descriptor and the fields that have been populated. -/
structure Message where
  Descriptor : MessageDescriptor
  known : List (FieldNumber × Value) := []

/-- Replace the entry of `num`, or add one at the end. -/
def store (known : List (FieldNumber × Value)) (num : FieldNumber) (v : Value) :
    List (FieldNumber × Value) :=
  match known with
  | [] => [(num, v)]
  | (n, w) :: rest => if n = num then (num, v) :: rest else (n, w) :: store rest num v

def lookup (known : List (FieldNumber × Value)) (num : FieldNumber) : Option Value :=
  match known with
  | [] => none
  | (n, w) :: rest => if n = num then some w else lookup rest num

/-- Assignment of a field, `m.Set(fd, v)`. -/
def Message.Set (m : Message) (fd : FieldDescriptor) (v : Value) : Message :=
  { m with known := store m.known fd.Number v }

/-- The elements of the list that `m.Mutable(fd).List()` hands out: those already
stored, or none for a field that is not populated. -/
def Message.MutableList (m : Message) (fd : FieldDescriptor) : List Value :=
  match lookup m.known fd.Number with
  | some (.list vs) => vs
  | _ => []

/-- The entries of the map that `m.Mutable(fd).Map()` hands out. -/
def Message.MutableMap (m : Message) (fd : FieldDescriptor) : List (Value × Value) :=
  match lookup m.known fd.Number with
  | some (.map es) => es
  | _ => []

def Message.toValue (m : Message) : Value := .message m.Descriptor.FullName m.known

/-- Equality of map keys; keys are scalars. -/
def mapKeyEq : Value → Value → Bool
  | .bool a, .bool b => a == b
  | .int32 a, .int32 b => a == b
  | .int64 a, .int64 b => a == b
  | .uint32 a, .uint32 b => a == b
  | .uint64 a, .uint64 b => a == b
  | .string a, .string b => a == b
  | .invalid, .invalid => true
  | _, _ => false

/-- Assignment of a map entry, `mmap.Set(k, v)`. -/
def mapSet (es : List (Value × Value)) (k v : Value) : List (Value × Value) :=
  match es with
  | [] => [(k, v)]
  | (k0, v0) :: rest => if mapKeyEq k0 k then (k, v) :: rest else (k0, v0) :: mapSet rest k v

end pref

/-- Compact set of small integers, `set.Ints`. -/
abbrev Ints := List Nat

def Ints.Has (s : Ints) (n : Nat) : Bool := s.contains n

def Ints.Set (s : Ints) (n : Nat) : Ints := n :: s

/-- The Go conversion `uint64(n)` of a signed integer. -/
def uint64 (n : Int) : Nat := (n % 18446744073709551616).toNat

/-- The bytes of a Go string given by its text (UTF-8). -/
def stringBytes (s : String) : Bytes := s.data.flatMap String.utf8EncodeChar

/-- Lower-casing of an identifier, `strings.ToLower`. -/
def ToLower (s : String) : String := String.mk (s.data.map Char.toLower)

/-! ## UTF-8 validity (`unicode/utf8`) -/

/-- Continuation byte `10xxxxxx`. -/
def isCont (b : UInt8) : Bool := decide (128 ≤ b.toNat) && decide (b.toNat ≤ 191)

/-- The check of `utf8.ValidString`: well-formed sequences only, no overlong
forms, no surrogates, nothing above U+10FFFF. -/
def ValidString : Bytes → Bool
  | [] => true
  | b0 :: rest =>
    if b0.toNat < 128 then ValidString rest
    else if 194 ≤ b0.toNat ∧ b0.toNat ≤ 223 then
      match rest with
      | b1 :: rest1 => isCont b1 && ValidString rest1
      | _ => false
    else if 224 ≤ b0.toNat ∧ b0.toNat ≤ 239 then
      match rest with
      | b1 :: b2 :: rest2 =>
        decide ((if b0.toNat = 224 then 160 else 128) ≤ b1.toNat) &&
        decide (b1.toNat ≤ (if b0.toNat = 237 then 159 else 191)) &&
        isCont b2 && ValidString rest2
      | _ => false
    else if 240 ≤ b0.toNat ∧ b0.toNat ≤ 244 then
      match rest with
      | b1 :: b2 :: b3 :: rest3 =>
        decide ((if b0.toNat = 240 then 144 else 128) ≤ b1.toNat) &&
        decide (b1.toNat ≤ (if b0.toNat = 244 then 143 else 191)) &&
        isCont b2 && isCont b3 && ValidString rest3
      | _ => false
    else false

/-! ## Errors, statuses and the decoder -/

/-- Errors of the type registry; `NotFound` is `protoregistry.NotFound`. -/
inductive ResolveError where
  | NotFound
  | other (msg : String)
  deriving DecidableEq

/-- The format strings of the errors built by `newError` and `syntaxError`,
with their arguments. -/
inductive Msg where
  | unexpectedToken (raw : String)
  | missingFieldSeparator
  | invalidFieldNumber (num : Int)
  | cannotBeExtended (message field : FullName)
  | unableToResolve (raw : String) (e : ResolveError)
  | unknownField (raw : String)
  | cannotSpecifyFieldByNumber (raw : String)
  | oneofAlreadySet (raw : String) (oneof : FullName)
  | nonRepeatedFieldRepeated (raw : String)
  | invalidUTF8
  | invalidValue (kind : pref.Kind) (raw : String)
  | unknownMapEntryField (raw : String)
  | mapKeyRepeated
  | mapValueRepeated
  | duplicateAnyTypeUrl
  | duplicateAnyValue
  | conflictWithField (typeURL : Bytes)
  | invalidAnyTypeUrl (raw : String)
  | invalidAnyValue (raw : String)
  | invalidAnyFieldName (raw : String)
  | moreThanOneType
  | conflictWithTypeUrl
  | unableToResolveMessage (typeURL : String) (e : ResolveError)
  | marshalingIntoAnyValue (e : String)
  deriving DecidableEq

/-- Error values the decoder returns. -/
inductive Err where
  /-- An error reported by the tokenizer through `Read` or `Peek`. -/
  | tokenizer
  /-- The sentinel `text.ErrUnexpectedEOF`. -/
  | ErrUnexpectedEOF
  /-- The literal `errors.New("no support for proto1 MessageSets")`. -/
  | noMessageSets
  /-- An error of `newError`: head `(line L:C): ` and message. -/
  | positioned (line column : Nat) (msg : Msg)
  /-- An error with head `syntax error (line L:C): `. -/
  | syntaxError (line column : Nat) (msg : Msg)
  /-- A missing required field reported by `proto.CheckInitialized`. -/
  | notInitialized
  deriving DecidableEq

/-- How a call ends: `ok` is a nil error, `panicked` a Go panic that unwinds the
whole call stack, `outOfFuel` the exhaustion of the fuel of the embedding. -/
inductive Status where
  | ok
  | error (e : Err)
  | panicked (v : String)
  | outOfFuel
  deriving DecidableEq

/-- The result of a call: the final state of the handle the call works on (or
the value it returns), its status and the input left in the tokenizer. -/
structure Ret (α : Type) where
  val : α
  status : Status
  rest : List text.Token

/-- The lookups of `UnmarshalOptions.Resolver`; an extension type is given by
its `TypeDescriptor()`, a message type by its descriptor. -/
structure Resolver where
  FindMessageByURL : String → Except ResolveError pref.MessageDescriptor
  FindExtensionByName : FullName → Except ResolveError pref.FieldDescriptor
  FindExtensionByNumber : FullName → FieldNumber → Except ResolveError pref.FieldDescriptor

structure UnmarshalOptions where
  AllowPartial : Bool := false
  DiscardUnknown : Bool := false
  Resolver : Prototext.Resolver

/-- The decoder: its options, the tokenizer's `Position`, and the collaborators
of the package that the decoder calls (`flags.ProtoLegacy`,
`messageset.FindMessageSetExtension`, the linked message descriptors behind
`fd.Message()`, `proto.Marshal` with `AllowPartial` and `Deterministic`, and
`proto.CheckInitialized`). The token stream is threaded through the calls. -/
structure decoder where
  opts : UnmarshalOptions
  Position : Nat → Nat × Nat
  /-- The position of the `EOF` token that `Read` yields once the tokens are
  used up; `none` when the tokenizer reports an error there. -/
  EndOfInput : Option Nat := none
  ProtoLegacy : Bool := false
  FindMessageSetExtension : FullName → Except ResolveError pref.FieldDescriptor
  descriptorOf : FullName → pref.MessageDescriptor
  Marshal : pref.Message → Except String Bytes
  CheckInitialized : pref.Message → Status

open pref text

/-- The call `d.Read()`: the next token and the input after it; `none` is an
error of the tokenizer. `d.Peek()` is its first component. -/
def decoder.Read (d : decoder) (toks : List Token) : Option (Token × List Token) :=
  match toks with
  | tok :: rest => some (tok, rest)
  | [] =>
    match d.EndOfInput with
    | some pos => some (⟨pos, "", .EOF⟩, [])
    | none => none

/-- Lines 78-82: `newError` returns an error object with position info. -/
def decoder.newError (d : decoder) (pos : Nat) (f : Msg) : Status :=
  let lc := d.Position pos
  .error (.positioned lc.1 lc.2 f)

/-- Lines 90-95: `syntaxError` computes the position and then executes
`panic("")`; the two statements after the panic are never reached. -/
def decoder.syntaxError (d : decoder) (pos : Nat) (_f : Msg) : Status :=
  let _lc := d.Position pos
  .panicked ""

/-- Lines 85-87. -/
def decoder.unexpectedTokenError (d : decoder) (tok : Token) : Status :=
  d.syntaxError tok.Pos (.unexpectedToken tok.RawString)

/-- Lines 266-272: `findExtension`. -/
def decoder.findExtension (d : decoder) (xtName : FullName) :
    Except ResolveError FieldDescriptor :=
  match d.opts.Resolver.FindExtensionByName xtName with
  | .ok xt => .ok xt
  | .error _ => d.FindMessageSetExtension xtName

/-- A fresh empty message of the type of a message or group field:
`m.NewField(fd)` and `list.NewElement()`. -/
def decoder.NewField (d : decoder) (fd : FieldDescriptor) : Message :=
  { Descriptor := d.descriptorOf fd.Message }

/-- Lines 294-370: `unmarshalScalar`. -/
def decoder.unmarshalScalar (d : decoder) (fd : FieldDescriptor) (toks : List Token) :
    Ret Value :=
  match d.Read toks with
  | none => ⟨.invalid, .error .tokenizer, toks⟩
  | some (tok, rest) =>
    if tok.Kind ≠ text.Kind.Scalar then ⟨.invalid, d.unexpectedTokenError tok, rest⟩
    else
      let kind := fd.Kind
      let invalidValue : Ret Value :=
        ⟨.invalid, d.newError tok.Pos (.invalidValue kind tok.RawString), rest⟩
      match kind with
      | .BoolKind =>
        match tok.Bool with
        | some b => ⟨.bool b, .ok, rest⟩
        | none => invalidValue
      | .Int32Kind | .Sint32Kind | .Sfixed32Kind =>
        match tok.Int32 with
        | some n => ⟨.int32 n, .ok, rest⟩
        | none => invalidValue
      | .Int64Kind | .Sint64Kind | .Sfixed64Kind =>
        match tok.Int64 with
        | some n => ⟨.int64 n, .ok, rest⟩
        | none => invalidValue
      | .Uint32Kind | .Fixed32Kind =>
        match tok.Uint32 with
        | some n => ⟨.uint32 n, .ok, rest⟩
        | none => invalidValue
      | .Uint64Kind | .Fixed64Kind =>
        match tok.Uint64 with
        | some n => ⟨.uint64 n, .ok, rest⟩
        | none => invalidValue
      | .FloatKind =>
        match tok.Float32 with
        | some n => ⟨.float32 n, .ok, rest⟩
        | none => invalidValue
      | .DoubleKind =>
        match tok.Float64 with
        | some n => ⟨.float64 n, .ok, rest⟩
        | none => invalidValue
      | .StringKind =>
        match tok.String with
        | some s =>
          if ValidString s then ⟨.string s, .ok, rest⟩
          else ⟨.invalid, d.newError tok.Pos .invalidUTF8, rest⟩
        | none => invalidValue
      | .BytesKind =>
        match tok.String with
        | some b => ⟨.bytes b, .ok, rest⟩
        | none => invalidValue
      | .EnumKind =>
        match (tok.Enum).bind (fun lit => EnumValues.ByName fd.EnumValues lit) with
        | some enumVal => ⟨.enum enumVal.Number, .ok, rest⟩
        | none =>
          match tok.Int32 with
          | some num => ⟨.enum num, .ok, rest⟩
          | none => invalidValue
      | .MessageKind | .GroupKind => ⟨.invalid, .panicked "invalid scalar kind", rest⟩

/-- What the resolution of a field name yields: the identifier (empty unless
the name is an identifier), the field found, and whether the name was a number. -/
structure Resolved where
  name : Name
  fd : Option FieldDescriptor
  isFieldNumberName : Bool

/-- Lines 144-194 of `unmarshalMessage`: resolve the field descriptor of a name
token. `Except.error` is a `return` out of `unmarshalMessage`. -/
def decoder.resolveField (d : decoder) (messageDesc : MessageDescriptor) (tok : Token)
    (nk : NameKind) : Except Status Resolved :=
  let fieldDescs := messageDesc.Fields
  -- switch tok.NameKind(): the name, fd, the pair (xt, xtErr), isFieldNumberName
  let sw : Except Status
      (Name × Option FieldDescriptor × Option (Except ResolveError FieldDescriptor) × Bool) :=
    match nk with
    | .IdentName ident =>
      let name := ident
      match Fields.ByName fieldDescs name with
      | none =>
        match Fields.ByName fieldDescs (ToLower name) with
        | some gd =>
          if gd.Kind = .GroupKind ∧ gd.MessageName = name then .ok (name, some gd, none, false)
          else .ok (name, none, none, false)
        | none => .ok (name, none, none, false)
      | some fd =>
        if fd.Kind = .GroupKind ∧ fd.MessageName ≠ name then .ok (name, none, none, false)
        else .ok (name, some fd, none, false)
    | .TypeName typeName => .ok ("", none, some (d.findExtension typeName), false)
    | .FieldNumber num =>
      if !FieldNumber.IsValid num then .error (d.newError tok.Pos (.invalidFieldNumber num))
      else
        match Fields.ByNumber fieldDescs num with
        | some fd => .ok ("", some fd, none, true)
        | none =>
          .ok ("", none, some (d.opts.Resolver.FindExtensionByNumber messageDesc.FullName num),
            true)
  match sw with
  | .error st => .error st
  | .ok (name, fd0, x, isFieldNumberName) =>
    let ext : Except Status (Option FieldDescriptor) :=
      match x with
      | some (.ok xt) =>
        if !ExtensionRanges.Has messageDesc.ExtensionRanges xt.Number
            || xt.ContainingMessage ≠ messageDesc.FullName then
          .error (d.newError tok.Pos (.cannotBeExtended messageDesc.FullName xt.FullName))
        else .ok (some xt)
      | some (.error xtErr) =>
        if xtErr ≠ .NotFound then
          .error (d.newError tok.Pos (.unableToResolve tok.RawString xtErr))
        else .ok fd0
      | none => .ok fd0
    match ext with
    | .error st => .error st
    | .ok fd1 =>
      let fd2 :=
        if d.ProtoLegacy then
          match fd1 with
          | some fd => if fd.IsWeak && fd.MessageIsPlaceholder then none else some fd
          | none => none
        else fd1
      .ok ⟨name, fd2, isFieldNumberName⟩

/-- The state that the loop of `unmarshalAny` works on. -/
structure AnyState where
  typeURL : Bytes := []
  bValue : Bytes := []
  hasFields : List String := []

/-- Lines 703-710 of `unmarshalAny`: write the accumulated fields. A missing
field descriptor is a nil interface handed to `m.Set`. -/
def setAnyFields (m : Message) (st : AnyState) : Message × Status :=
  let fds := m.Descriptor.Fields
  let r1 : Message × Status :=
    if st.typeURL.length > 0 then
      match Fields.ByNumber fds 1 with
      | some fd => (m.Set fd (.string st.typeURL), .ok)
      | none => (m, .panicked "nil FieldDescriptor")
    else (m, .ok)
  match r1.2 with
  | .ok =>
    if st.bValue.length > 0 then
      match Fields.ByNumber fds 2 with
      | some fd => (r1.1.Set fd (.bytes st.bValue), .ok)
      | none => (r1.1, .panicked "nil FieldDescriptor")
    else (r1.1, .ok)
  | s => (r1.1, s)

/-- What one pass through the body of a `for` loop does: `return` out of the
function, or go round again with a new state. -/
inductive Iter (σ ρ : Type) where
  | ret (r : ρ)
  | next (s : σ)

/-- The state of the loop of `unmarshalMessage`: the message, the two sets of
the frame and the input left. -/
structure Frame where
  m : Message
  seenNums : Ints := []
  seenOneofs : Ints := []
  toks : List Token

/-- Lines 124-259: the body of the loop of `unmarshalMessage`. The calls that
the body makes (`skipValue`, `unmarshalList`, `unmarshalMap`,
`unmarshalSingular`) are handed in. -/
def decoder.unmarshalMessageIter (d : decoder) (checkDelims : Bool)
    (skipValue : List Token → Ret Unit)
    (unmarshalList : FieldDescriptor → List Value → List Token → Ret (List Value))
    (unmarshalMap : FieldDescriptor → List (Value × Value) → List Token →
      Ret (List (Value × Value)))
    (unmarshalSingular : FieldDescriptor → Message → List Token → Ret Message)
    (s : Frame) : Iter Frame (Ret Message) :=
  let m := s.m
  -- Read field name.
  match d.Read s.toks with
  | none => .ret ⟨m, .error .tokenizer, s.toks⟩
  | some (tok, rest) =>
    match tok.body with
    | .EOF =>
      if checkDelims then .ret ⟨m, .error .ErrUnexpectedEOF, rest⟩ else .ret ⟨m, .ok, rest⟩
    | .Name nk hasSeparator =>
      -- Resolve the field descriptor.
      match d.resolveField m.Descriptor tok nk with
      | .error st => .ret ⟨m, st, rest⟩
      | .ok r =>
        match r.fd with
        | none =>
          -- Handle unknown fields.
          if d.opts.DiscardUnknown || m.Descriptor.ReservedNames.contains r.name then
            -- the error that skipValue returns is dropped
            let sk := skipValue rest
            match sk.status with
            | .outOfFuel => .ret ⟨m, .outOfFuel, sk.rest⟩
            | .panicked v => .ret ⟨m, .panicked v, sk.rest⟩
            | _ => .next { s with toks := sk.rest }
          else .ret ⟨m, d.newError tok.Pos (.unknownField tok.RawString), rest⟩
        | some fd =>
          -- Handle fields identified by field number.
          if r.isFieldNumberName then
            .ret ⟨m, d.newError tok.Pos (.cannotSpecifyFieldByNumber tok.RawString), rest⟩
          else if fd.IsList then
            let kind := fd.Kind
            if kind ≠ .MessageKind ∧ kind ≠ .GroupKind ∧ !hasSeparator then
              .ret ⟨m, d.syntaxError tok.Pos .missingFieldSeparator, rest⟩
            else
              let l := unmarshalList fd (m.MutableList fd) rest
              let m1 := m.Set fd (.list l.val)
              match l.status with
              | .ok => .next { s with m := m1, toks := l.rest }
              | st => .ret ⟨m1, st, l.rest⟩
          else if fd.IsMap then
            let p := unmarshalMap fd (m.MutableMap fd) rest
            let m1 := m.Set fd (.map p.val)
            match p.status with
            | .ok => .next { s with m := m1, toks := p.rest }
            | st => .ret ⟨m1, st, p.rest⟩
          else
            let kind := fd.Kind
            if kind ≠ .MessageKind ∧ kind ≠ .GroupKind ∧ !hasSeparator then
              .ret ⟨m, d.syntaxError tok.Pos .missingFieldSeparator, rest⟩
            else
              -- If field is a oneof, check if it has already been set.
              let oneofs : Except Status Ints :=
                match fd.ContainingOneof with
                | some od =>
                  let idx := uint64 od.Index
                  if s.seenOneofs.Has idx then
                    .error (d.newError tok.Pos (.oneofAlreadySet tok.RawString od.FullName))
                  else .ok (s.seenOneofs.Set idx)
                | none => .ok s.seenOneofs
              match oneofs with
              | .error st => .ret ⟨m, st, rest⟩
              | .ok seenOneofs1 =>
                let num := uint64 fd.Number
                if s.seenNums.Has num then
                  .ret ⟨m, d.newError tok.Pos (.nonRepeatedFieldRepeated tok.RawString), rest⟩
                else
                  let u := unmarshalSingular fd m rest
                  match u.status with
                  | .ok => .next ⟨u.val, s.seenNums.Set num, seenOneofs1, u.rest⟩
                  | st => .ret ⟨u.val, st, u.rest⟩
    | .MessageClose =>
      if checkDelims then .ret ⟨m, .ok, rest⟩ else .ret ⟨m, d.unexpectedTokenError tok, rest⟩
    | _ => .ret ⟨m, d.unexpectedTokenError tok, rest⟩

mutual

/-- Lines 98-121 and 262: `unmarshalMessage` around its loop. -/
def decoder.unmarshalMessage (d : decoder) (fuel : Nat) (m : Message) (checkDelims : Bool)
    (toks : List Token) : Ret Message :=
  match fuel with
  | 0 => ⟨m, .outOfFuel, toks⟩
  | fuel + 1 =>
    let messageDesc := m.Descriptor
    if !d.ProtoLegacy && messageDesc.IsMessageSet then ⟨m, .error .noMessageSets, toks⟩
    else if messageDesc.FullName = "google.protobuf.Any" then
      d.unmarshalAny fuel m checkDelims toks
    else if checkDelims then
      match d.Read toks with
      | none => ⟨m, .error .tokenizer, toks⟩
      | some (tok, rest) =>
        if tok.Kind ≠ text.Kind.MessageOpen then ⟨m, d.unexpectedTokenError tok, rest⟩
        else d.unmarshalMessageLoop fuel checkDelims ⟨m, [], [], rest⟩
    else d.unmarshalMessageLoop fuel checkDelims ⟨m, [], [], toks⟩

/-- Lines 123-260: the loop of `unmarshalMessage`, one call per iteration. -/
def decoder.unmarshalMessageLoop (d : decoder) (fuel : Nat) (checkDelims : Bool) (s : Frame) :
    Ret Message :=
  match fuel with
  | 0 => ⟨s.m, .outOfFuel, s.toks⟩
  | fuel + 1 =>
    match d.unmarshalMessageIter checkDelims (d.skipValue fuel) (d.unmarshalList fuel)
        (d.unmarshalMap fuel) (d.unmarshalSingular fuel) s with
    | .ret r => r
    | .next s1 => d.unmarshalMessageLoop fuel checkDelims s1

/-- Lines 276-290: `unmarshalSingular`. -/
def decoder.unmarshalSingular (d : decoder) (fuel : Nat) (fd : FieldDescriptor) (m : Message)
    (toks : List Token) : Ret Message :=
  match fuel with
  | 0 => ⟨m, .outOfFuel, toks⟩
  | fuel + 1 =>
    if fd.Kind = .MessageKind ∨ fd.Kind = .GroupKind then
      let val := d.NewField fd
      let r := d.unmarshalMessage fuel val true toks
      match r.status with
      | .ok => ⟨m.Set fd r.val.toValue, .ok, r.rest⟩
      | st => ⟨m, st, r.rest⟩
    else
      let r := d.unmarshalScalar fd toks
      match r.status with
      | .ok => ⟨m.Set fd r.val, .ok, r.rest⟩
      | st => ⟨m, st, r.rest⟩

/-- Lines 374-451: `unmarshalList`; `Peek` looks at the next token and leaves
it in the input. -/
def decoder.unmarshalList (d : decoder) (fuel : Nat) (fd : FieldDescriptor) (list : List Value)
    (toks : List Token) : Ret (List Value) :=
  match fuel with
  | 0 => ⟨list, .outOfFuel, toks⟩
  | fuel + 1 =>
    match d.Read toks with
    | none => ⟨list, .error .tokenizer, toks⟩
    | some (tok, rest) =>
      if fd.Kind = .MessageKind ∨ fd.Kind = .GroupKind then
        match tok.Kind with
        | .ListOpen => d.unmarshalListMessages fuel fd list rest
        | .MessageOpen =>
          let pval := d.NewField fd
          let r := d.unmarshalMessage fuel pval true toks
          match r.status with
          | .ok => ⟨list ++ [r.val.toValue], .ok, r.rest⟩
          | st => ⟨list, st, r.rest⟩
        | _ => ⟨list, d.unexpectedTokenError tok, toks⟩
      else
        match tok.Kind with
        | .ListOpen => d.unmarshalListScalars fuel fd list rest
        | .Scalar =>
          let r := d.unmarshalScalar fd toks
          match r.status with
          | .ok => ⟨list ++ [r.val], .ok, r.rest⟩
          | st => ⟨list, st, r.rest⟩
        | _ => ⟨list, d.unexpectedTokenError tok, toks⟩

/-- Lines 385-404: the loop of `unmarshalList` over bracketed messages. -/
def decoder.unmarshalListMessages (d : decoder) (fuel : Nat) (fd : FieldDescriptor)
    (list : List Value) (toks : List Token) : Ret (List Value) :=
  match fuel with
  | 0 => ⟨list, .outOfFuel, toks⟩
  | fuel + 1 =>
    match d.Read toks with
    | none => ⟨list, .error .tokenizer, toks⟩
    | some (tok, rest) =>
      match tok.Kind with
      | .ListClose => ⟨list, .ok, rest⟩
      | .MessageOpen =>
        let pval := d.NewField fd
        let r := d.unmarshalMessage fuel pval true toks
        match r.status with
        | .ok => d.unmarshalListMessages fuel fd (list ++ [r.val.toValue]) r.rest
        | st => ⟨list, st, r.rest⟩
      | _ => ⟨list, d.unexpectedTokenError tok, toks⟩

/-- Lines 419-438: the loop of `unmarshalList` over bracketed scalars. -/
def decoder.unmarshalListScalars (d : decoder) (fuel : Nat) (fd : FieldDescriptor)
    (list : List Value) (toks : List Token) : Ret (List Value) :=
  match fuel with
  | 0 => ⟨list, .outOfFuel, toks⟩
  | fuel + 1 =>
    match d.Read toks with
    | none => ⟨list, .error .tokenizer, toks⟩
    | some (tok, rest) =>
      match tok.Kind with
      | .ListClose => ⟨list, .ok, rest⟩
      | .Scalar =>
        let r := d.unmarshalScalar fd toks
        match r.status with
        | .ok => d.unmarshalListScalars fuel fd (list ++ [r.val]) r.rest
        | st => ⟨list, st, r.rest⟩
      | _ => ⟨list, d.unexpectedTokenError tok, toks⟩

/-- Lines 459-473: the closure `unmarshalMapValue` that `unmarshalMap` builds. -/
def decoder.unmarshalMapValue (d : decoder) (fuel : Nat) (fd : FieldDescriptor)
    (toks : List Token) : Ret Value :=
  match fuel with
  | 0 => ⟨.invalid, .outOfFuel, toks⟩
  | fuel + 1 =>
    if fd.MapValue.Kind = .MessageKind ∨ fd.MapValue.Kind = .GroupKind then
      let pval := d.NewField fd.MapValue
      let r := d.unmarshalMessage fuel pval true toks
      match r.status with
      | .ok => ⟨r.val.toValue, .ok, r.rest⟩
      | st => ⟨.invalid, st, r.rest⟩
    else d.unmarshalScalar fd.MapValue toks

/-- Lines 455-504: `unmarshalMap`. -/
def decoder.unmarshalMap (d : decoder) (fuel : Nat) (fd : FieldDescriptor)
    (mmap : List (Value × Value)) (toks : List Token) : Ret (List (Value × Value)) :=
  match fuel with
  | 0 => ⟨mmap, .outOfFuel, toks⟩
  | fuel + 1 =>
    match d.Read toks with
    | none => ⟨mmap, .error .tokenizer, toks⟩
    | some (tok, rest) =>
      match tok.Kind with
      | .MessageOpen => d.unmarshalMapEntry fuel fd mmap rest
      | .ListOpen => d.unmarshalMapEntries fuel fd mmap rest
      | _ => ⟨mmap, d.unexpectedTokenError tok, rest⟩

/-- Lines 484-499: the loop of `unmarshalMap` over bracketed entries. -/
def decoder.unmarshalMapEntries (d : decoder) (fuel : Nat) (fd : FieldDescriptor)
    (mmap : List (Value × Value)) (toks : List Token) : Ret (List (Value × Value)) :=
  match fuel with
  | 0 => ⟨mmap, .outOfFuel, toks⟩
  | fuel + 1 =>
    match d.Read toks with
    | none => ⟨mmap, .error .tokenizer, toks⟩
    | some (tok, rest) =>
      match tok.Kind with
      | .ListClose => ⟨mmap, .ok, rest⟩
      | .MessageOpen =>
        let r := d.unmarshalMapEntry fuel fd mmap rest
        match r.status with
        | .ok => d.unmarshalMapEntries fuel fd r.val r.rest
        | st => ⟨r.val, st, r.rest⟩
      | _ => ⟨mmap, d.unexpectedTokenError tok, rest⟩

/-- Lines 508-510 and 571-585: `unmarshalMapEntry` around its loop. -/
def decoder.unmarshalMapEntry (d : decoder) (fuel : Nat) (fd : FieldDescriptor)
    (mmap : List (Value × Value)) (toks : List Token) : Ret (List (Value × Value)) :=
  match fuel with
  | 0 => ⟨mmap, .outOfFuel, toks⟩
  | fuel + 1 =>
    let r := d.unmarshalMapEntryLoop fuel fd .invalid .invalid toks
    match r.status with
    | .ok =>
      let key := if !r.val.1.IsValid then fd.MapKey.Default else r.val.1
      let pval :=
        if !r.val.2.IsValid then
          if fd.MapValue.Kind = .MessageKind ∨ fd.MapValue.Kind = .GroupKind then
            -- If value field is not set for message/group types, construct an
            -- empty one as default.
            (d.NewField fd.MapValue).toValue
          else fd.MapValue.Default
        else r.val.2
      ⟨mapSet mmap key pval, .ok, r.rest⟩
    | st => ⟨mmap, st, r.rest⟩

/-- Lines 511-569: the loop of `unmarshalMapEntry` over `key` and `pval`; status
`ok` is `break Loop`. -/
def decoder.unmarshalMapEntryLoop (d : decoder) (fuel : Nat) (fd : FieldDescriptor)
    (key pval : Value) (toks : List Token) : Ret (Value × Value) :=
  match fuel with
  | 0 => ⟨(key, pval), .outOfFuel, toks⟩
  | fuel + 1 =>
    -- Read field name.
    match d.Read toks with
    | none => ⟨(key, pval), .error .tokenizer, toks⟩
    | some (tok, rest) =>
      match tok.body with
      | .Name (.IdentName name) hasSeparator =>
        if name = "key" then
          if !hasSeparator then
            ⟨(key, pval), d.syntaxError tok.Pos .missingFieldSeparator, rest⟩
          else if key.IsValid then ⟨(key, pval), d.newError tok.Pos .mapKeyRepeated, rest⟩
          else
            let r := d.unmarshalScalar fd.MapKey rest
            match r.status with
            | .ok => d.unmarshalMapEntryLoop fuel fd r.val pval r.rest
            | st => ⟨(key, pval), st, r.rest⟩
        else if name = "value" then
          if (fd.MapValue.Kind ≠ .MessageKind ∧ fd.MapValue.Kind ≠ .GroupKind)
              ∧ !hasSeparator then
            ⟨(key, pval), d.syntaxError tok.Pos .missingFieldSeparator, rest⟩
          else if pval.IsValid then ⟨(key, pval), d.newError tok.Pos .mapValueRepeated, rest⟩
          else
            let r := d.unmarshalMapValue fuel fd rest
            match r.status with
            | .ok => d.unmarshalMapEntryLoop fuel fd key r.val r.rest
            | st => ⟨(key, r.val), st, r.rest⟩
        else if !d.opts.DiscardUnknown then
          ⟨(key, pval), d.newError tok.Pos (.unknownMapEntryField name), rest⟩
        else
          -- the error that skipValue returns is dropped
          let sk := d.skipValue fuel rest
          match sk.status with
          | .outOfFuel => ⟨(key, pval), .outOfFuel, sk.rest⟩
          | .panicked v => ⟨(key, pval), .panicked v, sk.rest⟩
          | _ => d.unmarshalMapEntryLoop fuel fd key pval sk.rest
      | .Name _ _ =>
        if !d.opts.DiscardUnknown then
          ⟨(key, pval), d.newError tok.Pos (.unknownMapEntryField tok.RawString), rest⟩
        else
          let sk := d.skipValue fuel rest
          match sk.status with
          | .outOfFuel => ⟨(key, pval), .outOfFuel, sk.rest⟩
          | .panicked v => ⟨(key, pval), .panicked v, sk.rest⟩
          | _ => d.unmarshalMapEntryLoop fuel fd key pval sk.rest
      | .MessageClose => ⟨(key, pval), .ok, rest⟩
      | _ => ⟨(key, pval), d.unexpectedTokenError tok, rest⟩

/-- Lines 590-610 and 703-710: `unmarshalAny` around its loop. -/
def decoder.unmarshalAny (d : decoder) (fuel : Nat) (m : Message) (checkDelims : Bool)
    (toks : List Token) : Ret Message :=
  match fuel with
  | 0 => ⟨m, .outOfFuel, toks⟩
  | fuel + 1 =>
    let run (ts : List Token) : Ret Message :=
      let r := d.unmarshalAnyLoop fuel checkDelims {} ts
      match r.status with
      | .ok =>
        let w := setAnyFields m r.val
        ⟨w.1, w.2, r.rest⟩
      | st => ⟨m, st, r.rest⟩
    if checkDelims then
      match d.Read toks with
      | none => ⟨m, .error .tokenizer, toks⟩
      | some (tok, rest) =>
        if tok.Kind ≠ text.Kind.MessageOpen then ⟨m, d.unexpectedTokenError tok, rest⟩
        else run rest
    else run toks

/-- Lines 612-701: the loop of `unmarshalAny` over `typeURL`, `bValue` and
`hasFields`; status `ok` is `break Loop`. -/
def decoder.unmarshalAnyLoop (d : decoder) (fuel : Nat) (checkDelims : Bool) (st : AnyState)
    (toks : List Token) : Ret AnyState :=
  match fuel with
  | 0 => ⟨st, .outOfFuel, toks⟩
  | fuel + 1 =>
    match d.Read toks with
    | none => ⟨st, .error .tokenizer, toks⟩
    | some (tok, rest) =>
      match tok.body with
      | .Name (.IdentName ident) hasSeparator =>
        -- Both type_url and value fields require field separator :.
        if !hasSeparator then ⟨st, d.syntaxError tok.Pos .missingFieldSeparator, rest⟩
        else if ident = "type_url" then
          if st.hasFields.contains "type_url" then
            ⟨st, d.newError tok.Pos .duplicateAnyTypeUrl, rest⟩
          else if st.hasFields.contains "expanded" then
            ⟨st, d.newError tok.Pos (.conflictWithField st.typeURL), rest⟩
          else
            match d.Read rest with
            | none => ⟨st, .error .tokenizer, rest⟩
            | some (tok1, rest1) =>
              match tok1.String with
              | some str =>
                d.unmarshalAnyLoop fuel checkDelims
                  { st with typeURL := str, hasFields := "type_url" :: st.hasFields } rest1
              | none =>
                -- the assignment `typeURL, ok = tok.String()` has stored the empty string
                ⟨{ st with typeURL := [] },
                  d.newError tok1.Pos (.invalidAnyTypeUrl tok1.RawString), rest1⟩
        else if ident = "value" then
          if st.hasFields.contains "value" then
            ⟨st, d.newError tok.Pos .duplicateAnyValue, rest⟩
          else if st.hasFields.contains "expanded" then
            ⟨st, d.newError tok.Pos (.conflictWithField st.typeURL), rest⟩
          else
            match d.Read rest with
            | none => ⟨st, .error .tokenizer, rest⟩
            | some (tok1, rest1) =>
              match tok1.String with
              | some str =>
                d.unmarshalAnyLoop fuel checkDelims
                  { st with bValue := str, hasFields := "value" :: st.hasFields } rest1
              | none => ⟨st, d.newError tok1.Pos (.invalidAnyValue tok1.RawString), rest1⟩
        else if !d.opts.DiscardUnknown then
          ⟨st, d.newError tok.Pos (.invalidAnyFieldName tok.RawString), rest⟩
        else d.unmarshalAnyLoop fuel checkDelims st rest
      | .Name (.TypeName typeName) _ =>
        if st.hasFields.contains "expanded" then
          ⟨st, d.newError tok.Pos .moreThanOneType, rest⟩
        else if st.hasFields.contains "type_url" then
          ⟨st, d.newError tok.Pos .conflictWithTypeUrl, rest⟩
        else
          let typeURL := stringBytes typeName
          let r := d.unmarshalExpandedAny fuel typeName tok.Pos rest
          match r.status with
          | .ok =>
            d.unmarshalAnyLoop fuel checkDelims
              { typeURL := typeURL, bValue := r.val, hasFields := "expanded" :: st.hasFields }
              r.rest
          | e => ⟨{ st with typeURL := typeURL, bValue := r.val }, e, r.rest⟩
      | .Name (.FieldNumber _) _ =>
        if !d.opts.DiscardUnknown then
          ⟨st, d.newError tok.Pos (.invalidAnyFieldName tok.RawString), rest⟩
        else d.unmarshalAnyLoop fuel checkDelims st rest
      | .MessageClose =>
        if checkDelims then ⟨st, .ok, rest⟩ else ⟨st, d.unexpectedTokenError tok, rest⟩
      | .EOF =>
        if checkDelims then ⟨st, d.unexpectedTokenError tok, rest⟩ else ⟨st, .ok, rest⟩
      | _ => ⟨st, d.unexpectedTokenError tok, rest⟩

/-- Lines 713-733: `unmarshalExpandedAny`. -/
def decoder.unmarshalExpandedAny (d : decoder) (fuel : Nat) (typeURL : String) (pos : Nat)
    (toks : List Token) : Ret Bytes :=
  match fuel with
  | 0 => ⟨[], .outOfFuel, toks⟩
  | fuel + 1 =>
    match d.opts.Resolver.FindMessageByURL typeURL with
    | .error err => ⟨[], d.newError pos (.unableToResolveMessage typeURL err), toks⟩
    | .ok mt =>
      -- Create new message for the embedded message type and unmarshal the value
      -- field into it.
      let m : Message := { Descriptor := mt }
      let r := d.unmarshalMessage fuel m true toks
      match r.status with
      | .ok =>
        -- Serialize the embedded message and return the resulting bytes.
        match d.Marshal r.val with
        | .ok b => ⟨b, .ok, r.rest⟩
        | .error err => ⟨[], d.newError pos (.marshalingIntoAnyValue err), r.rest⟩
      | st => ⟨[], st, r.rest⟩

/-- Lines 738-770: `skipValue` around its loop. -/
def decoder.skipValue (d : decoder) (fuel : Nat) (toks : List Token) : Ret Unit :=
  match fuel with
  | 0 => ⟨(), .outOfFuel, toks⟩
  | fuel + 1 =>
    match d.Read toks with
    | none => ⟨(), .error .tokenizer, toks⟩
    | some (tok, rest) =>
      -- Only need to continue reading for messages and lists.
      match tok.Kind with
      | .MessageOpen => d.skipMessageValue fuel rest
      | .ListOpen => d.skipValueList fuel rest
      | _ => ⟨(), .ok, rest⟩

/-- Lines 749-767: the loop of `skipValue` inside a list. -/
def decoder.skipValueList (d : decoder) (fuel : Nat) (toks : List Token) : Ret Unit :=
  match fuel with
  | 0 => ⟨(), .outOfFuel, toks⟩
  | fuel + 1 =>
    match d.Read toks with
    | none => ⟨(), .error .tokenizer, toks⟩
    | some (tok, rest) =>
      match tok.Kind with
      | .ListClose => ⟨(), .ok, rest⟩
      | .MessageOpen => d.skipMessageValue fuel rest
      | _ =>
        -- Skip items.
        let sk := d.skipValue fuel rest
        match sk.status with
        | .ok => d.skipValueList fuel sk.rest
        | st => ⟨(), st, sk.rest⟩

/-- Lines 774-789: `skipMessageValue`, one call per iteration of its loop. -/
def decoder.skipMessageValue (d : decoder) (fuel : Nat) (toks : List Token) : Ret Unit :=
  match fuel with
  | 0 => ⟨(), .outOfFuel, toks⟩
  | fuel + 1 =>
    match d.Read toks with
    | none => ⟨(), .error .tokenizer, toks⟩
    | some (tok, rest) =>
      match tok.Kind with
      | .MessageClose => ⟨(), .ok, rest⟩
      | .Name =>
        let sk := d.skipValue fuel rest
        match sk.status with
        | .ok => d.skipMessageValue fuel sk.rest
        | st => ⟨(), st, sk.rest⟩
      | _ => d.skipMessageValue fuel rest

end

/-- Lines 55-70: `UnmarshalOptions.Unmarshal`, on the tokens of the input and
with the decoder that `text.NewDecoder` and the options make up. -/
def Unmarshal (d : decoder) (fuel : Nat) (toks : List Token) (m : Message) : Ret Message :=
  -- proto.Reset(m)
  let m0 : Message := { m with known := [] }
  let r := d.unmarshalMessage fuel m0 false toks
  match r.status with
  | .ok => if d.opts.AllowPartial then r else ⟨r.val, d.CheckInitialized r.val, r.rest⟩
  | _ => r

/-! ## The coercion table of the specification -/

/-- The typed query of a scalar token that section 4.4 of the specification binds
to a kind (enum, message and group kinds have none): `Bool`; `Int32` for
int32/sint32/sfixed32; `Int64` for int64/sint64/sfixed64; `Uint32` for
uint32/fixed32; `Uint64` for uint64/fixed64; `Float32`; `Float64`; `String` for
string and for bytes. -/
def tokenQuery (k : pref.Kind) (t : Token) : Option Value :=
  match k with
  | .BoolKind => t.Bool.map Value.bool
  | .Int32Kind | .Sint32Kind | .Sfixed32Kind => t.Int32.map Value.int32
  | .Int64Kind | .Sint64Kind | .Sfixed64Kind => t.Int64.map Value.int64
  | .Uint32Kind | .Fixed32Kind => t.Uint32.map Value.uint32
  | .Uint64Kind | .Fixed64Kind => t.Uint64.map Value.uint64
  | .FloatKind => t.Float32.map Value.float32
  | .DoubleKind => t.Float64.map Value.float64
  | .StringKind => t.String.map Value.string
  | .BytesKind => t.String.map Value.bytes
  | .EnumKind | .MessageKind | .GroupKind => none

/-- The acceptor of the table: the typed query, and for the string kind the
requirement that the literal is valid UTF-8. -/
def acceptor (k : pref.Kind) (t : Token) : Option Value :=
  match k with
  | .StringKind =>
    match t.String with
    | some s => if ValidString s then some (.string s) else none
    | none => none
  | _ => tokenQuery k t

/-! ## Concrete inputs -/

/-- A resolver that knows one message type, `foo.Bar`, and no extension. -/
def exResolver : Resolver where
  FindMessageByURL := fun url =>
    if url = "type.googleapis.com/foo.Bar" then
      .ok { FullName := "foo.Bar", Fields := [{ Name := "n", Number := 1, Kind := .Int32Kind }] }
    else .error .NotFound
  FindExtensionByName := fun _ => .error .NotFound
  FindExtensionByNumber := fun _ _ => .error .NotFound

/-- A stand-in for the binary serializer on messages whose populated fields are
small non-negative int32 values: tag byte and one-byte varint per field. -/
def exMarshal (m : Message) : Except String Bytes :=
  .ok (m.known.flatMap (fun e =>
    match e.2 with
    | .int32 k => [UInt8.ofNat (8 * e.1.toNat), UInt8.ofNat k.toNat]
    | _ => []))

/-- A decoder over a complete input (the tokenizer yields `EOF` at the end) with
the default options and `DiscardUnknown` as given. -/
def exDecoder (discardUnknown : Bool) : decoder where
  opts := { DiscardUnknown := discardUnknown, Resolver := exResolver }
  Position := fun pos => (1, pos + 1)
  EndOfInput := some 100
  FindMessageSetExtension := fun _ => .error .NotFound
  descriptorOf := fun n => { FullName := n }
  Marshal := exMarshal
  CheckInitialized := fun _ => .ok

/-- The name token of an identifier at a byte position, with or without `:`. -/
def tokIdent (pos : Nat) (s : String) (sep : Bool) : Token := ⟨pos, s, .Name (.IdentName s) sep⟩

/-- The name token `[typeName]`. -/
def tokType (pos : Nat) (s : String) : Token := ⟨pos, s, .Name (.TypeName s) false⟩

/-- The name token of a field number. -/
def tokNumber (pos : Nat) (raw : String) (n : Int) (sep : Bool) : Token :=
  ⟨pos, raw, .Name (.FieldNumber n) sep⟩

/-- The scalar token of a small decimal literal. -/
def tokInt (pos : Nat) (raw : String) (n : Nat) : Token :=
  ⟨pos, raw, .Scalar { Int32 := some n, Int64 := some n, Uint32 := some n, Uint64 := some n }⟩

/-- The scalar token of a quoted literal with the given bytes. -/
def tokStr (pos : Nat) (raw : String) (b : Bytes) : Token := ⟨pos, raw, .Scalar { String := some b }⟩

/-- The scalar token of a bare identifier such as an enum value name. -/
def tokLit (pos : Nat) (s : String) : Token := ⟨pos, s, .Scalar { Enum := some s }⟩

def tokOpen (pos : Nat) : Token := ⟨pos, "\x7b", .MessageOpen⟩
def tokClose (pos : Nat) : Token := ⟨pos, "\x7d", .MessageClose⟩
def tokListOpen (pos : Nat) : Token := ⟨pos, "[", .ListOpen⟩
def tokListClose (pos : Nat) : Token := ⟨pos, "]", .ListClose⟩

/-- A message with the oneof `o` of the int32 fields `a` and `b`, the int32
field `x` outside any oneof, the repeated int32 field `r`, the repeated
message field `ms` and the map field `mp` from int32 to int32. -/
def exDesc : MessageDescriptor where
  FullName := "ex.M"
  Fields :=
    [ { Name := "a", Number := 1, Kind := .Int32Kind, ContainingOneof := some ⟨0, "ex.M.o"⟩ },
      { Name := "b", Number := 2, Kind := .Int32Kind, ContainingOneof := some ⟨0, "ex.M.o"⟩ },
      { Name := "x", Number := 3, Kind := .Int32Kind },
      { Name := "r", Number := 4, Kind := .Int32Kind, IsList := true },
      { Name := "ms", Number := 5, Kind := .MessageKind, IsList := true, Message := "ex.Sub",
        MessageName := "Sub" },
      { Name := "mp", Number := 6, Kind := .MessageKind, IsMap := true, Message := "ex.M.MpEntry",
        MessageName := "MpEntry", MapKeyKind := .Int32Kind, MapKeyDefault := .int32 0,
        MapValueKind := .Int32Kind, MapValueDefault := .int32 0 } ]

/-- The descriptor of `google.protobuf.Any`. -/
def anyDesc : MessageDescriptor where
  FullName := "google.protobuf.Any"
  Fields :=
    [ { Name := "type_url", Number := 1, Kind := .StringKind, Default := .string [] },
      { Name := "value", Number := 2, Kind := .BytesKind, Default := .bytes [] } ]

/-- The read `m.Get(fd)`: the value stored for the field, or the default of the
field when it is not populated. -/
def pref.Message.Get (m : Message) (fd : FieldDescriptor) : Value :=
  match lookup m.known fd.Number with
  | some v => v
  | none => fd.Default

/-! ## Runs of the loop of `unmarshalMessage` -/

/-- One pass through the body of the loop of `unmarshalMessage`, as the loop
makes it with `fuel + 1` units of fuel. -/
def decoder.iter (d : decoder) (fuel : Nat) (checkDelims : Bool) (s : Frame) :
    Iter Frame (Ret Message) :=
  d.unmarshalMessageIter checkDelims (d.skipValue fuel) (d.unmarshalList fuel)
    (d.unmarshalMap fuel) (d.unmarshalSingular fuel) s

/-- The loop, entered with `fuel` units in frame `s`, is after some number of
passes (none, or more) about to make a pass with `fuel2` units in frame `s2`. -/
inductive decoder.Reaches (d : decoder) (checkDelims : Bool) :
    Nat → Frame → Nat → Frame → Prop where
  | here (fuel : Nat) (s : Frame) : decoder.Reaches d checkDelims fuel s fuel s
  | pass {fuel : Nat} {s s1 : Frame} {fuel2 : Nat} {s2 : Frame} :
      d.iter fuel checkDelims s = .next s1 →
      decoder.Reaches d checkDelims fuel s1 fuel2 s2 →
      decoder.Reaches d checkDelims (fuel + 1) s fuel2 s2

/-- The next token of the frame is a name token, read as `tok`, that lines
144-194 resolve to the field `fd`, and the name is not a field number. -/
def decoder.NamesField (d : decoder) (s : Frame) (tok : Token) (rest : List Token)
    (hasSeparator : Bool) (fd : FieldDescriptor) : Prop :=
  ∃ nk name, d.Read s.toks = some (tok, rest) ∧ tok.body = .Name nk hasSeparator ∧
    d.resolveField s.m.Descriptor tok nk = .ok ⟨name, some fd, false⟩

/-- The separator rule of lines 236-239: a field of message or group kind needs
no `:` after its name, every other field does. -/
def separatorOk (fd : FieldDescriptor) (hasSeparator : Bool) : Prop :=
  fd.Kind = .MessageKind ∨ fd.Kind = .GroupKind ∨ hasSeparator = true

/-! ## Further concrete inputs -/

/-- A resolver that knows the extension `ex.bad`, number 100, declared to extend
the message `other.M`. -/
def exResolverExt : Resolver where
  FindMessageByURL := fun _ => .error .NotFound
  FindExtensionByName := fun name =>
    if name = "ex.bad" then
      .ok { Name := "bad", FullName := "ex.bad", Number := 100, Kind := .Int32Kind,
            ContainingMessage := "other.M" }
    else .error .NotFound
  FindExtensionByNumber := fun _ _ => .error .NotFound

/-- A decoder over a complete input with the default options and the resolver
`exResolverExt`. -/
def extDecoder : decoder where
  opts := { Resolver := exResolverExt }
  Position := fun pos => (1, pos + 1)
  EndOfInput := some 100
  FindMessageSetExtension := fun _ => .error .NotFound
  descriptorOf := fun n => { FullName := n }
  Marshal := exMarshal
  CheckInitialized := fun _ => .ok

/-- The message `exDesc` with the reserved name `old`. -/
def exDescReserved : MessageDescriptor :=
  { exDesc with ReservedNames := ["old"] }

/-- A message with the group field `grp` whose group message is declared as
`Grp`. -/
def exDescGroup : MessageDescriptor where
  FullName := "ex.G"
  Fields :=
    [ { Name := "grp", Number := 1, Kind := .GroupKind, Message := "ex.G.Grp",
        MessageName := "Grp" } ]

/-! ## Runs of the loop of `unmarshalMapEntry` -/

/-- The loop of `unmarshalMapEntry`, entered with `fuel` units, is after some
number of passes (none, or more) about to make a pass with `fuel2` units. The
two options record what the passes so far have parsed: `some k` once a `key`
field has been read and `unmarshalScalar` has returned `k` for it, `some v`
once a `value` field has been read and `unmarshalMapValue` has returned `v`;
the variables `key` and `pval` of the loop hold these values, and the invalid
value while the option is `none`. A pass goes round again in three ways: it
reads `key` with a `:` while no key is recorded and parses the scalar (lines
536-547), it reads `value`, with a `:` unless the value kind is message or
group, while no value is recorded and parses the value (lines 549-562), or it
reads another name with `DiscardUnknown` set and skips the value (lines
519-526 and 564-568). -/
inductive decoder.EntryReaches (d : decoder) (fd : FieldDescriptor) :
    Nat → Option Value → Option Value → List Token →
    Nat → Option Value → Option Value → List Token → Prop where
  | here (fuel : Nat) (pk pv : Option Value) (toks : List Token) :
      decoder.EntryReaches d fd fuel pk pv toks fuel pk pv toks
  | key {fuel : Nat} {pv : Option Value} {toks : List Token} {tok : Token} {rest : List Token}
      {fuel2 : Nat} {pk2 pv2 : Option Value} {toks2 : List Token} :
      d.Read toks = some (tok, rest) →
      tok.body = .Name (.IdentName "key") true →
      (d.unmarshalScalar fd.MapKey rest).status = .ok →
      decoder.EntryReaches d fd fuel (some (d.unmarshalScalar fd.MapKey rest).val) pv
        (d.unmarshalScalar fd.MapKey rest).rest fuel2 pk2 pv2 toks2 →
      decoder.EntryReaches d fd (fuel + 1) none pv toks fuel2 pk2 pv2 toks2
  | value {fuel : Nat} {pk : Option Value} {toks : List Token} {tok : Token}
      {rest : List Token} {sep : Bool}
      {fuel2 : Nat} {pk2 pv2 : Option Value} {toks2 : List Token} :
      d.Read toks = some (tok, rest) →
      tok.body = .Name (.IdentName "value") sep →
      (fd.MapValue.Kind = .MessageKind ∨ fd.MapValue.Kind = .GroupKind ∨ sep = true) →
      (d.unmarshalMapValue fuel fd rest).status = .ok →
      decoder.EntryReaches d fd fuel pk (some (d.unmarshalMapValue fuel fd rest).val)
        (d.unmarshalMapValue fuel fd rest).rest fuel2 pk2 pv2 toks2 →
      decoder.EntryReaches d fd (fuel + 1) pk none toks fuel2 pk2 pv2 toks2
  | skip {fuel : Nat} {pk pv : Option Value} {toks : List Token} {tok : Token}
      {rest : List Token} {nk : NameKind} {sep : Bool}
      {fuel2 : Nat} {pk2 pv2 : Option Value} {toks2 : List Token} :
      d.Read toks = some (tok, rest) →
      tok.body = .Name nk sep →
      nk ≠ .IdentName "key" → nk ≠ .IdentName "value" →
      d.opts.DiscardUnknown = true →
      (d.skipValue fuel rest).status ≠ .outOfFuel →
      (∀ v, (d.skipValue fuel rest).status ≠ .panicked v) →
      decoder.EntryReaches d fd fuel pk pv (d.skipValue fuel rest).rest fuel2 pk2 pv2 toks2 →
      decoder.EntryReaches d fd (fuel + 1) pk pv toks fuel2 pk2 pv2 toks2

/-! ## The reflection-based enum coders of `internal/impl/codec_reflect.go` -/

/-- The functions of package `internal/encoding/wire` that the coders call. The
package is outside the files embedded here: the coders take it as a parameter.
A `uint64` is a natural number below `2^64`; an `int` is an integer, and the
sums of sizes are taken without wrap-around (a byte slice of Go holds fewer
than `2^63` bytes). `ConsumeVarint` and `ConsumeBytes` return a negative count
for an input they reject. -/
structure wire where
  SizeVarint : Nat → Int
  AppendVarint : Bytes → Nat → Bytes
  ConsumeVarint : Bytes → Nat × Int
  SizeBytes : Int → Int
  ConsumeBytes : Bytes → Bytes × Int

/-- The wire types `wire.Type`. -/
inductive wireType where
  | VarintType | Fixed32Type | Fixed64Type | BytesType | StartGroupType | EndGroupType
  deriving DecidableEq

/-- The two fields of `coderFieldInfo` that the enum coders read. -/
structure coderFieldInfo where
  wiretag : Nat
  tagsize : Int

/-- The errors that the coders return: `errUnknown` and `wire.ParseError(n)`. -/
inductive coderError where
  | errUnknown
  | ParseError (n : Int)
  deriving DecidableEq

/-- The field `n` of `unmarshalOutput`. -/
structure unmarshalOutput where
  n : Int := 0
  deriving DecidableEq

/-- How a call of a coder ends: it returns, it panics, or the model has run out
of fuel. -/
inductive Outcome (α : Type) where
  | ret (a : α)
  | panicked (msg : String)
  | outOfFuel

/-- The conversion `int64(v)` of a `uint64`. -/
def int64 (v : Nat) : Int :=
  if v % 18446744073709551616 < 9223372036854775808 then (v % 18446744073709551616 : Nat)
  else ((v % 18446744073709551616 : Nat) : Int) - 18446744073709551616

/-- The conversion `int32(x)`, which `reflect.Value.SetInt` applies to the
`int64` it stores into a value of an enum type (kind `Int32`). -/
def int32 (x : Int) : Int := (x + 2147483648) % 4294967296 - 2147483648

/-- Lines 15-18: `sizeEnum`; `v` is `p.v.Elem().Int()`. -/
def impl.sizeEnum (w : wire) (v : Int) (f : coderFieldInfo) : Int :=
  f.tagsize + w.SizeVarint (uint64 v)

/-- Lines 20-25: `appendEnum`. -/
def impl.appendEnum (w : wire) (b : Bytes) (v : Int) (f : coderFieldInfo) :
    Bytes × Option coderError :=
  let b := w.AppendVarint b f.wiretag
  let b := w.AppendVarint b (uint64 v)
  (b, none)

/-- Lines 27-38: `consumeEnum`; the first component is the enum value that the
pointer holds after the call. -/
def impl.consumeEnum (w : wire) (b : Bytes) (p : Int) (wtyp : wireType) (_f : coderFieldInfo) :
    Int × unmarshalOutput × Option coderError :=
  if wtyp ≠ .VarintType then (p, {}, some .errUnknown)
  else
    let r := w.ConsumeVarint b
    if r.2 < 0 then (p, {}, some (.ParseError r.2))
    else (int32 (int64 r.1), { n := r.2 }, none)

/-- Lines 46-51: `sizeEnumNoZero`. -/
def impl.sizeEnumNoZero (w : wire) (v : Int) (f : coderFieldInfo) : Int :=
  if v = 0 then 0 else impl.sizeEnum w v f

/-- Lines 53-58: `appendEnumNoZero`. -/
def impl.appendEnumNoZero (w : wire) (b : Bytes) (v : Int) (f : coderFieldInfo) :
    Bytes × Option coderError :=
  if v = 0 then (b, none) else impl.appendEnum w b v f

/-- Lines 90-96: `sizeEnumSlice`; the loop runs over the elements in order. -/
def impl.sizeEnumSlice (w : wire) (s : List Int) (f : coderFieldInfo) : Int :=
  s.foldl (fun size e => size + (w.SizeVarint (uint64 e) + f.tagsize)) 0

/-- Lines 98-105: `appendEnumSlice`. -/
def impl.appendEnumSlice (w : wire) (b : Bytes) (s : List Int) (f : coderFieldInfo) :
    Bytes × Option coderError :=
  (s.foldl (fun b e => w.AppendVarint (w.AppendVarint b f.wiretag) (uint64 e)) b, none)

/-- Lines 114-123: the loop of `consumeEnumSlice` over the bytes of a packed
field, one call per iteration; the slice expression `b[n:]` panics when `n`
exceeds the length of `b`. -/
def impl.consumeEnumSliceLoop (w : wire) (fuel : Nat) (b : Bytes) (s : List Int) :
    Outcome (List Int × Option coderError) :=
  match fuel with
  | 0 => .outOfFuel
  | fuel + 1 =>
    if b.length > 0 then
      let r := w.ConsumeVarint b
      if r.2 < 0 then .ret (s, some (.ParseError r.2))
      else
        let s1 := s ++ [int32 (int64 r.1)]
        if r.2.toNat > b.length then .panicked "slice bounds out of range"
        else impl.consumeEnumSliceLoop w fuel (b.drop r.2.toNat) s1
    else .ret (s, none)

/-- Lines 107-139: `consumeEnumSlice`; the first component is the slice that the
pointer holds after the call. -/
def impl.consumeEnumSlice (w : wire) (fuel : Nat) (b : Bytes) (s : List Int) (wtyp : wireType)
    (_f : coderFieldInfo) : Outcome (List Int × unmarshalOutput × Option coderError) :=
  if wtyp = .BytesType then
    let r := w.ConsumeBytes b
    if r.2 < 0 then .ret (s, {}, some (.ParseError r.2))
    else
      match impl.consumeEnumSliceLoop w fuel r.1 s with
      | .ret (s1, some e) => .ret (s1, {}, some e)
      | .ret (s1, none) => .ret (s1, { n := r.2 }, none)
      | .panicked msg => .panicked msg
      | .outOfFuel => .outOfFuel
  else if wtyp ≠ .VarintType then .ret (s, {}, some .errUnknown)
  else
    let r := w.ConsumeVarint b
    if r.2 < 0 then .ret (s, {}, some (.ParseError r.2))
    else .ret (s ++ [int32 (int64 r.1)], { n := r.2 }, none)

/-- Lines 153-156 and 167-170: the loop that sums the sizes of the elements. -/
def impl.sizeVarints (w : wire) (s : List Int) : Int :=
  s.foldl (fun n e => n + w.SizeVarint (uint64 e)) 0

/-- Lines 147-158: `sizeEnumPackedSlice`. -/
def impl.sizeEnumPackedSlice (w : wire) (s : List Int) (f : coderFieldInfo) : Int :=
  let llen := s.length
  if llen = 0 then 0
  else
    let n := impl.sizeVarints w s
    f.tagsize + w.SizeBytes n

/-- Lines 160-176: `appendEnumPackedSlice`. -/
def impl.appendEnumPackedSlice (w : wire) (b : Bytes) (s : List Int) (f : coderFieldInfo) :
    Bytes × Option coderError :=
  let llen := s.length
  if llen = 0 then (b, none)
  else
    let b := w.AppendVarint b f.wiretag
    let n := impl.sizeVarints w s
    let b := w.AppendVarint b (uint64 n)
    (s.foldl (fun b e => w.AppendVarint b (uint64 e)) b, none)

/-- What the enum coders rely on of `AppendVarint`, `SizeVarint` and
`SizeBytes`: `AppendVarint` appends to the buffer an encoding that depends on
the value only, `SizeVarint` is the length of that encoding, and `SizeBytes(n)`
is the size of the varint `n` plus `n`. -/
structure wire.AppendLaws (w : wire) : Prop where
  append_eq : ∀ (b : Bytes) (v : Nat), v < 18446744073709551616 →
    w.AppendVarint b v = b ++ w.AppendVarint [] v
  size_eq : ∀ v : Nat, v < 18446744073709551616 →
    ((w.AppendVarint [] v).length : Int) = w.SizeVarint v
  sizeBytes_eq : ∀ n : Int, w.SizeBytes n = w.SizeVarint (uint64 n) + n

/-- What `consumeEnumSlice` relies on of `ConsumeVarint` and `ConsumeBytes`:
`ConsumeVarint` reads back a varint that `AppendVarint` has written, whatever
follows it, and reports its size; `ConsumeBytes` reads a length varint and
returns that many of the bytes after it, and reports the size of both. -/
structure wire.ConsumeLaws (w : wire) : Prop where
  consumeVarint_eq : ∀ (v : Nat) (rest : Bytes), v < 18446744073709551616 →
    w.ConsumeVarint (w.AppendVarint [] v ++ rest) = (v, w.SizeVarint v)
  consumeBytes_eq : ∀ (p rest : Bytes), p.length < 9223372036854775808 →
    w.ConsumeBytes (w.AppendVarint [] p.length ++ (p ++ rest)) =
      (p, w.SizeVarint p.length + p.length)

/-- Base-128 groups of `v`, the least significant first and each but the last
with the top bit set; `fuel` bounds the number of groups. -/
def exVarint : Nat → Nat → Bytes
  | 0, _ => []
  | fuel + 1, v =>
    if v < 128 then [UInt8.ofNat v]
    else UInt8.ofNat (v % 128 + 128) :: exVarint fuel (v / 128)

/-- The reader of base-128 groups: the value and the number of bytes read, or
the count -1 when the input ends inside a varint. -/
def exConsumeVarint : Bytes → Nat × Int
  | [] => (0, -1)
  | b :: bs =>
    if b.toNat < 128 then (b.toNat, 1)
    else
      let r := exConsumeVarint bs
      if r.2 < 0 then (0, r.2) else (b.toNat - 128 + 128 * r.1, r.2 + 1)

/-- An implementation of the wire functions for the examples: varints of at most
ten base-128 groups. -/
def exWire : wire where
  SizeVarint := fun v => (exVarint 10 v).length
  AppendVarint := fun b v => b ++ exVarint 10 v
  ConsumeVarint := exConsumeVarint
  SizeBytes := fun n => ((exVarint 10 (uint64 n)).length : Int) + n
  ConsumeBytes := fun b =>
    let r := exConsumeVarint b
    if r.2 < 0 then ([], r.2)
    else if r.1 > (b.drop r.2.toNat).length then ([], -1)
    else ((b.drop r.2.toNat).take r.1, r.2 + r.1)

/-- The decoder `exDecoder false` of a build with the flag `flags.ProtoLegacy`. -/
def legacyDecoder : decoder :=
  { exDecoder false with ProtoLegacy := true }

/-- A message with the weak field `w`, number 7, whose message `ex.Gone` is not
linked in: its descriptor is a placeholder. -/
def exDescWeak : MessageDescriptor where
  FullName := "ex.W"
  Fields :=
    [ { Name := "w", Number := 7, Kind := .MessageKind, IsWeak := true, Message := "ex.Gone",
        MessageName := "Gone", MessageIsPlaceholder := true } ]

/-! ## Scalars: C6, C7, C8 -/

theorem Read_cons (d : decoder) (tok : Token) (rest : List Token) :
    d.Read (tok :: rest) = some (tok, rest) := rfl

theorem kind_of_String {tok : Token} {s : Bytes} (h : tok.String = some s) :
    tok.Kind = text.Kind.Scalar := by
  obtain ⟨pos, raw, body⟩ := tok
  cases body <;> simp_all [Token.String, Token.lit, Token.Kind]

/-- C6. A scalar token whose string literal `s` the `String` accessor accepts
but which is not valid UTF-8 makes `unmarshalScalar` fail with the
"contains invalid UTF-8" error for a field of string kind, and succeed with
exactly the bytes `s` for a field of bytes kind. -/
theorem C6_utf8_law (d : decoder) (fd : FieldDescriptor) (tok : Token) (rest : List Token)
    (s : Bytes) (hs : tok.String = some s) (hu : ValidString s = false) :
    (fd.Kind = .StringKind →
      d.unmarshalScalar fd (tok :: rest) = ⟨.invalid, d.newError tok.Pos .invalidUTF8, rest⟩) ∧
    (fd.Kind = .BytesKind → d.unmarshalScalar fd (tok :: rest) = ⟨.bytes s, .ok, rest⟩) := by
  have hk := kind_of_String hs
  constructor
  · intro hkind
    simp [decoder.unmarshalScalar, Read_cons, hk, hkind, hs, hu]
  · intro hkind
    simp [decoder.unmarshalScalar, Read_cons, hk, hkind, hs]

/-- The literal `"\\xff"`, the single byte 255: rejected for a string field,
stored as it is for a bytes field. -/
theorem C6_utf8_law_witness :
    ((exDecoder false).unmarshalScalar { Name := "s", Number := 1, Kind := .StringKind }
        [tokStr 3 "\"\\xff\"" [255]]).status = .error (.positioned 1 4 .invalidUTF8) ∧
    (exDecoder false).unmarshalScalar { Name := "b", Number := 1, Kind := .BytesKind }
        [tokStr 3 "\"\\xff\"" [255]] = ⟨.bytes [255], .ok, []⟩ :=
  ⟨congrArg Ret.status
      ((C6_utf8_law (exDecoder false) { Name := "s", Number := 1, Kind := .StringKind }
        (tokStr 3 "\"\\xff\"" [255]) [] [255] rfl (by decide)).1 rfl),
    (C6_utf8_law (exDecoder false) { Name := "b", Number := 1, Kind := .BytesKind }
        (tokStr 3 "\"\\xff\"" [255]) [] [255] rfl (by decide)).2 rfl⟩

/-- C7. For a field of a scalar kind other than enum and for a scalar token,
`unmarshalScalar` succeeds exactly when the acceptor that the table binds to
the kind accepts the token, and then returns the value of the acceptor; when
the typed query of the kind rejects the token the call fails with the error
"invalid value for <kind> type". -/
theorem C7_scalar_coercion (d : decoder) (fd : FieldDescriptor) (tok : Token)
    (rest : List Token) (hk : tok.Kind = text.Kind.Scalar)
    (hfd : fd.Kind ≠ .EnumKind ∧ fd.Kind ≠ .MessageKind ∧ fd.Kind ≠ .GroupKind) :
    (∀ v, acceptor fd.Kind tok = some v → d.unmarshalScalar fd (tok :: rest) = ⟨v, .ok, rest⟩) ∧
    (acceptor fd.Kind tok = none → (d.unmarshalScalar fd (tok :: rest)).status ≠ .ok) ∧
    (tokenQuery fd.Kind tok = none →
      d.unmarshalScalar fd (tok :: rest) =
        ⟨.invalid, d.newError tok.Pos (.invalidValue fd.Kind tok.RawString), rest⟩) := by
  obtain ⟨h1, h2, h3⟩ := hfd
  unfold decoder.unmarshalScalar
  simp only [Read_cons, hk, ne_eq, not_true_eq_false, ite_false]
  cases hkind : fd.Kind <;> simp only [hkind] at h1 h2 h3 ⊢ <;>
    first
    | contradiction
    | (simp only [acceptor, tokenQuery]
       refine ⟨?_, ?_, ?_⟩
       · intro v hv
         repeat' split
         all_goals simp_all
       · intro hv
         repeat' split
         all_goals simp_all [decoder.newError]
       · intro hv
         repeat' split
         all_goals simp_all)

/-- An int32 field accepts the literal `7` and rejects the quoted literal `"7"`. -/
theorem C7_scalar_coercion_witness :
    (exDecoder false).unmarshalScalar { Name := "x", Number := 3, Kind := .Int32Kind }
        [tokInt 3 "7" 7] = ⟨.int32 7, .ok, []⟩ ∧
    (exDecoder false).unmarshalScalar { Name := "x", Number := 3, Kind := .Int32Kind }
        [tokStr 3 "\"7\"" [55]] =
      ⟨.invalid, .error (.positioned 1 4 (.invalidValue .Int32Kind "\"7\"")), []⟩ :=
  ⟨(C7_scalar_coercion (exDecoder false) { Name := "x", Number := 3, Kind := .Int32Kind }
      (tokInt 3 "7" 7) [] rfl (by decide)).1 _ rfl,
    (C7_scalar_coercion (exDecoder false) { Name := "x", Number := 3, Kind := .Int32Kind }
      (tokStr 3 "\"7\"" [55]) [] rfl (by decide)).2.2 rfl⟩

/-- C8. For a field of enum kind and a scalar token, `unmarshalScalar` returns
the number that the descriptor declares for the identifier of the token when
the identifier names a declared value; when the lookup of the identifier yields
nothing it returns the int32 value of the token as the enum number, declared or
not; and when the lookup yields nothing and the token is no int32 it fails with
the "invalid value" error. The integer is consulted only in the last two cases. -/
theorem C8_enum_coercion (d : decoder) (fd : FieldDescriptor) (tok : Token)
    (rest : List Token) (hk : tok.Kind = text.Kind.Scalar) (hfd : fd.Kind = .EnumKind) :
    (∀ lit ev, tok.Enum = some lit → EnumValues.ByName fd.EnumValues lit = some ev →
      d.unmarshalScalar fd (tok :: rest) = ⟨.enum ev.Number, .ok, rest⟩) ∧
    ((∀ lit, tok.Enum = some lit → EnumValues.ByName fd.EnumValues lit = none) →
      ∀ n, tok.Int32 = some n → d.unmarshalScalar fd (tok :: rest) = ⟨.enum n, .ok, rest⟩) ∧
    ((∀ lit, tok.Enum = some lit → EnumValues.ByName fd.EnumValues lit = none) →
      tok.Int32 = none →
      d.unmarshalScalar fd (tok :: rest) =
        ⟨.invalid, d.newError tok.Pos (.invalidValue .EnumKind tok.RawString), rest⟩) := by
  unfold decoder.unmarshalScalar
  simp only [Read_cons, hk, ne_eq, not_true_eq_false, ite_false, hfd]
  refine ⟨?_, ?_, ?_⟩
  · intro lit ev hlit hev
    simp [hlit, hev]
  · intro hnone n hn
    have hb : (tok.Enum).bind (fun lit => EnumValues.ByName fd.EnumValues lit) = none := by
      cases hE : tok.Enum with
      | none => rfl
      | some lit => simpa using hnone lit hE
    simp [hb, hn]
  · intro hnone hn
    have hb : (tok.Enum).bind (fun lit => EnumValues.ByName fd.EnumValues lit) = none := by
      cases hE : tok.Enum with
      | none => rfl
      | some lit => simpa using hnone lit hE
    simp [hb, hn]

/-- An enum field with the value `RED = 1`: `RED` gives 1, `42` gives 42, `BLUE`
is an invalid value. -/
theorem C8_enum_coercion_witness :
    (exDecoder false).unmarshalScalar
        { Name := "color", Number := 5, Kind := .EnumKind, EnumValues := [⟨"RED", 1⟩] }
        [tokLit 7 "RED"] = ⟨.enum 1, .ok, []⟩ ∧
    (exDecoder false).unmarshalScalar
        { Name := "color", Number := 5, Kind := .EnumKind, EnumValues := [⟨"RED", 1⟩] }
        [tokInt 7 "42" 42] = ⟨.enum 42, .ok, []⟩ ∧
    (exDecoder false).unmarshalScalar
        { Name := "color", Number := 5, Kind := .EnumKind, EnumValues := [⟨"RED", 1⟩] }
        [tokLit 7 "BLUE"] =
      ⟨.invalid, .error (.positioned 1 8 (.invalidValue .EnumKind "BLUE")), []⟩ :=
  ⟨(C8_enum_coercion (exDecoder false)
      { Name := "color", Number := 5, Kind := .EnumKind, EnumValues := [⟨"RED", 1⟩] }
      (tokLit 7 "RED") [] rfl rfl).1 "RED" ⟨"RED", 1⟩ rfl rfl,
    (C8_enum_coercion (exDecoder false)
      { Name := "color", Number := 5, Kind := .EnumKind, EnumValues := [⟨"RED", 1⟩] }
      (tokInt 7 "42" 42) [] rfl rfl).2.1 (by intro lit h; cases h) 42 rfl,
    (C8_enum_coercion (exDecoder false)
      { Name := "color", Number := 5, Kind := .EnumKind, EnumValues := [⟨"RED", 1⟩] }
      (tokLit 7 "BLUE") [] rfl rfl).2.2
        (by intro lit h; cases h; decide) rfl⟩

/-! ## The frame of a message: C1, C2, C9, C10 -/

theorem loop_succ (d : decoder) (fuel : Nat) (cd : Bool) (s : Frame) :
    d.unmarshalMessageLoop (fuel + 1) cd s =
      match d.iter fuel cd s with
      | .ret r => r
      | .next s1 => d.unmarshalMessageLoop fuel cd s1 := rfl

theorem loop_of_ret {d : decoder} {fuel : Nat} {cd : Bool} {s : Frame} {r : Ret Message}
    (h : d.iter fuel cd s = .ret r) : d.unmarshalMessageLoop (fuel + 1) cd s = r := by
  rw [loop_succ, h]

theorem loop_of_reaches {d : decoder} {cd : Bool} {fuel : Nat} {s : Frame} {fuel2 : Nat}
    {s2 : Frame} (h : d.Reaches cd fuel s fuel2 s2) :
    d.unmarshalMessageLoop fuel cd s = d.unmarshalMessageLoop fuel2 cd s2 := by
  induction h with
  | here => rfl
  | pass hn _ ih => rw [loop_succ, hn]; exact ih

theorem Has_Set_self (s : Ints) (n : Nat) : (s.Set n).Has n = true := by
  simp [Ints.Has, Ints.Set]

theorem Has_Set_of_Has {s : Ints} {k : Nat} (n : Nat) (h : s.Has k = true) :
    (s.Set n).Has k = true := by
  simp only [Ints.Has, Ints.Set] at h ⊢
  simp only [List.contains_cons, h, Bool.or_true]

/-- A pass that goes round again leaves every number in the two sets. -/
theorem iter_next_mono {d : decoder} {fuel : Nat} {cd : Bool} {s s1 : Frame}
    (h : d.iter fuel cd s = .next s1) :
    (∀ k, s.seenNums.Has k = true → s1.seenNums.Has k = true) ∧
    (∀ k, s.seenOneofs.Has k = true → s1.seenOneofs.Has k = true) := by
  simp only [decoder.iter, decoder.unmarshalMessageIter] at h
  repeat' split at h
  all_goals cases h
  all_goals first
    | exact ⟨fun _ hk => hk, fun _ hk => hk⟩
    | (refine ⟨fun k hk => Has_Set_of_Has _ hk, fun k hk => ?_⟩
       rename_i hone _ _ _
       repeat' split at hone
       all_goals
         cases hone <;> first
           | exact hk
           | exact Has_Set_of_Has _ hk)

/-- Along a run of the loop the two sets only grow. -/
theorem reaches_mono {d : decoder} {cd : Bool} {fuel : Nat} {s : Frame} {fuel2 : Nat}
    {s2 : Frame} (h : d.Reaches cd fuel s fuel2 s2) :
    (∀ k, s.seenNums.Has k = true → s2.seenNums.Has k = true) ∧
    (∀ k, s.seenOneofs.Has k = true → s2.seenOneofs.Has k = true) := by
  induction h with
  | here => exact ⟨fun _ hk => hk, fun _ hk => hk⟩
  | pass hn _ ih =>
    have hm := iter_next_mono hn
    exact ⟨fun k hk => ih.1 k (hm.1 k hk), fun k hk => ih.2 k (hm.2 k hk)⟩

/-- What a pass does with a name that resolves, not by number, to a singular
field and that obeys the separator rule. -/
theorem iter_singular {d : decoder} {fuel : Nat} {cd : Bool} {s : Frame} {tok : Token}
    {rest : List Token} {sep : Bool} {fd : FieldDescriptor}
    (hn : d.NamesField s tok rest sep fd) (hl : fd.IsList = false) (hm : fd.IsMap = false)
    (hs : separatorOk fd sep) :
    d.iter fuel cd s =
      match fd.ContainingOneof with
      | some od =>
        if s.seenOneofs.Has (uint64 od.Index) then
          .ret ⟨s.m, d.newError tok.Pos (.oneofAlreadySet tok.RawString od.FullName), rest⟩
        else if s.seenNums.Has (uint64 fd.Number) then
          .ret ⟨s.m, d.newError tok.Pos (.nonRepeatedFieldRepeated tok.RawString), rest⟩
        else
          match (d.unmarshalSingular fuel fd s.m rest).status with
          | .ok =>
            .next ⟨(d.unmarshalSingular fuel fd s.m rest).val,
              s.seenNums.Set (uint64 fd.Number), s.seenOneofs.Set (uint64 od.Index),
              (d.unmarshalSingular fuel fd s.m rest).rest⟩
          | st => .ret ⟨(d.unmarshalSingular fuel fd s.m rest).val, st,
              (d.unmarshalSingular fuel fd s.m rest).rest⟩
      | none =>
        if s.seenNums.Has (uint64 fd.Number) then
          .ret ⟨s.m, d.newError tok.Pos (.nonRepeatedFieldRepeated tok.RawString), rest⟩
        else
          match (d.unmarshalSingular fuel fd s.m rest).status with
          | .ok =>
            .next ⟨(d.unmarshalSingular fuel fd s.m rest).val,
              s.seenNums.Set (uint64 fd.Number), s.seenOneofs,
              (d.unmarshalSingular fuel fd s.m rest).rest⟩
          | st => .ret ⟨(d.unmarshalSingular fuel fd s.m rest).val, st,
              (d.unmarshalSingular fuel fd s.m rest).rest⟩ := by
  obtain ⟨nk, name, hr, hb, hres⟩ := hn
  have hsep : ¬(fd.Kind ≠ .MessageKind ∧ fd.Kind ≠ .GroupKind ∧ (!sep) = true) := by
    rcases hs with h | h | h <;> simp [h]
  simp only [decoder.iter, decoder.unmarshalMessageIter, hr, hb, hres, hl, hm, hsep]
  cases ho : fd.ContainingOneof with
  | none => simp
  | some od =>
    by_cases h1 : s.seenOneofs.Has (uint64 od.Index) = true
    · simp [h1]
    · simp [h1]

/-- A name that resolves to a singular field of primitive or enum kind and has
no `:` ends the pass in `syntaxError`. -/
theorem iter_singular_no_separator {d : decoder} {fuel : Nat} {cd : Bool} {s : Frame}
    {tok : Token} {rest : List Token} {sep : Bool} {fd : FieldDescriptor}
    (hn : d.NamesField s tok rest sep fd) (hl : fd.IsList = false) (hm : fd.IsMap = false)
    (hs : ¬separatorOk fd sep) :
    d.iter fuel cd s = .ret ⟨s.m, d.syntaxError tok.Pos .missingFieldSeparator, rest⟩ := by
  obtain ⟨nk, name, hr, hb, hres⟩ := hn
  have hsep : fd.Kind ≠ .MessageKind ∧ fd.Kind ≠ .GroupKind ∧ (!sep) = true := by
    unfold separatorOk at hs
    cases sep <;> simp_all
  simp only [decoder.iter, decoder.unmarshalMessageIter, hr, hb, hres, hl, hm]
  simp [hsep]

/-- After a pass that has parsed a singular field and goes round again, the
number of the field and the index of its oneof are in the sets of the frame. -/
theorem iter_singular_next {d : decoder} {fuel : Nat} {cd : Bool} {s s1 : Frame} {tok : Token}
    {rest : List Token} {sep : Bool} {fd : FieldDescriptor}
    (hn : d.NamesField s tok rest sep fd) (hl : fd.IsList = false) (hm : fd.IsMap = false)
    (hp : d.iter fuel cd s = .next s1) :
    s1.seenNums.Has (uint64 fd.Number) = true ∧
    ∀ od, fd.ContainingOneof = some od → s1.seenOneofs.Has (uint64 od.Index) = true := by
  by_cases hs : separatorOk fd sep
  · rw [iter_singular hn hl hm hs] at hp
    cases ho : fd.ContainingOneof with
    | none =>
      simp only [ho] at hp
      repeat' split at hp
      all_goals cases hp
      exact ⟨Has_Set_self _ _, fun od h => by cases h⟩
    | some od =>
      simp only [ho] at hp
      repeat' split at hp
      all_goals cases hp
      refine ⟨Has_Set_self _ _, fun od1 h => ?_⟩
      cases h
      exact Has_Set_self _ _
  · rw [iter_singular_no_separator hn hl hm hs] at hp
    cases hp

/-- The error that the second name of a singular field meets. -/
theorem iter_singular_seen {d : decoder} {fuel : Nat} {cd : Bool} {s : Frame} {tok : Token}
    {rest : List Token} {sep : Bool} {fd : FieldDescriptor}
    (hn : d.NamesField s tok rest sep fd) (hl : fd.IsList = false) (hm : fd.IsMap = false)
    (hs : separatorOk fd sep) (hnum : s.seenNums.Has (uint64 fd.Number) = true)
    (hone : ∀ od, fd.ContainingOneof = some od → s.seenOneofs.Has (uint64 od.Index) = true) :
    d.iter fuel cd s =
      .ret ⟨s.m, d.newError tok.Pos
        (match fd.ContainingOneof with
          | some od => .oneofAlreadySet tok.RawString od.FullName
          | none => .nonRepeatedFieldRepeated tok.RawString), rest⟩ := by
  rw [iter_singular hn hl hm hs]
  cases ho : fd.ContainingOneof with
  | none => simp [hnum]
  | some od => simp [hone od ho]

theorem loop_of_next {d : decoder} {fuel : Nat} {cd : Bool} {s s1 : Frame}
    (h : d.iter fuel cd s = .next s1) :
    d.unmarshalMessageLoop (fuel + 1) cd s = d.unmarshalMessageLoop fuel cd s1 := by
  rw [loop_succ, h]

/-- For a message that is neither a MessageSet (without the legacy flag) nor an
`Any`, `unmarshalMessage` runs its loop in the frame of the message with both
sets empty, after the opening brace when it checks delimiters. -/
theorem unmarshalMessage_loop (d : decoder) (fuel : Nat) (m : Message) (toks : List Token)
    (hms : (!d.ProtoLegacy && m.Descriptor.IsMessageSet) = false)
    (hany : m.Descriptor.FullName ≠ "google.protobuf.Any") :
    d.unmarshalMessage (fuel + 1) m false toks =
      d.unmarshalMessageLoop fuel false ⟨m, [], [], toks⟩ ∧
    ∀ tok rest, d.Read toks = some (tok, rest) → tok.Kind = text.Kind.MessageOpen →
      d.unmarshalMessage (fuel + 1) m true toks =
        d.unmarshalMessageLoop fuel true ⟨m, [], [], rest⟩ := by
  constructor
  · rw [decoder.unmarshalMessage]
    simp [hms, hany]
  · intro tok rest hr hk
    rw [decoder.unmarshalMessage]
    simp [hms, hany, hr, hk]

/-- C1, the claim as stated, fails, for `a` and `b` the members of one oneof.
In `a: 1 2: 5`, where 2 is the number of `b`, the error at the second member is
"cannot specify field by number". In `a: 1 b 2`, where the second name has no
`:`, the separator check of lines 236-239 comes before the oneof check and
ends in the panic of `syntaxError`. Neither call returns the error
"oneof ... is already set". -/
theorem C1_counterexample :
    (exDecoder false).unmarshalMessage 10 { Descriptor := exDesc } false
        [tokIdent 0 "a" true, tokInt 3 "1" 1, tokNumber 5 "2" 2 true, tokInt 8 "5" 5] =
      ⟨{ Descriptor := exDesc, known := [(1, .int32 1)] },
        .error (.positioned 1 6 (.cannotSpecifyFieldByNumber "2")), [tokInt 8 "5" 5]⟩ ∧
    (exDecoder false).unmarshalMessage 10 { Descriptor := exDesc } false
        [tokIdent 0 "a" true, tokInt 3 "1" 1, tokIdent 5 "b" false, tokInt 7 "2" 2] =
      ⟨{ Descriptor := exDesc, known := [(1, .int32 1)] }, .panicked "", [tokInt 7 "2" 2]⟩ ∧
    ∀ line column raw oneof,
      ((exDecoder false).unmarshalMessage 10 { Descriptor := exDesc } false
        [tokIdent 0 "a" true, tokInt 3 "1" 1, tokNumber 5 "2" 2 true, tokInt 8 "5" 5]).status ≠
          .error (.positioned line column (.oneofAlreadySet raw oneof)) ∧
      ((exDecoder false).unmarshalMessage 10 { Descriptor := exDesc } false
        [tokIdent 0 "a" true, tokInt 3 "1" 1, tokIdent 5 "b" false, tokInt 7 "2" 2]).status ≠
          .error (.positioned line column (.oneofAlreadySet raw oneof)) := by
  have h1 : (exDecoder false).unmarshalMessage 10 { Descriptor := exDesc } false
        [tokIdent 0 "a" true, tokInt 3 "1" 1, tokNumber 5 "2" 2 true, tokInt 8 "5" 5] =
      ⟨{ Descriptor := exDesc, known := [(1, .int32 1)] },
        .error (.positioned 1 6 (.cannotSpecifyFieldByNumber "2")), [tokInt 8 "5" 5]⟩ := rfl
  have h2 : (exDecoder false).unmarshalMessage 10 { Descriptor := exDesc } false
        [tokIdent 0 "a" true, tokInt 3 "1" 1, tokIdent 5 "b" false, tokInt 7 "2" 2] =
      ⟨{ Descriptor := exDesc, known := [(1, .int32 1)] }, .panicked "", [tokInt 7 "2" 2]⟩ := rfl
  refine ⟨h1, h2, fun line column raw oneof => ⟨fun he => ?_, fun he => ?_⟩⟩
  · rw [h1] at he
    cases he
  · rw [h2] at he
    cases he

/-- C1 (amended). In the frame of a message, let a name token resolve (not by
number) to a singular field `fd1` of the oneof `od`, let that pass of the loop
parse the field and go round again, and let the loop later read a name token
that resolves (not by number) to a singular field `fd3` of the same oneof and
obeys the separator rule. Then the loop returns the error
"oneof ... is already set" at that second name, with the message as it stood
when the name was read (the second field is not assigned) and the value of the
field not read. -/
theorem C1_oneof_exclusivity (d : decoder) (cd : Bool) {f0 f1 f3 : Nat} {s0 s1 s2 s3 : Frame}
    {tok1 tok3 : Token} {rest1 rest3 : List Token} {sep1 sep3 : Bool}
    {fd1 fd3 : FieldDescriptor} {od : OneofDescriptor}
    (h01 : d.Reaches cd f0 s0 (f1 + 1) s1)
    (hn1 : d.NamesField s1 tok1 rest1 sep1 fd1)
    (hl1 : fd1.IsList = false) (hm1 : fd1.IsMap = false) (ho1 : fd1.ContainingOneof = some od)
    (hp1 : d.iter f1 cd s1 = .next s2)
    (h23 : d.Reaches cd f1 s2 (f3 + 1) s3)
    (hn3 : d.NamesField s3 tok3 rest3 sep3 fd3)
    (hl3 : fd3.IsList = false) (hm3 : fd3.IsMap = false) (ho3 : fd3.ContainingOneof = some od)
    (hs3 : separatorOk fd3 sep3) :
    d.unmarshalMessageLoop f0 cd s0 =
      ⟨s3.m, d.newError tok3.Pos (.oneofAlreadySet tok3.RawString od.FullName), rest3⟩ := by
  have hseen2 := (iter_singular_next hn1 hl1 hm1 hp1).2 od ho1
  have hseen3 := (reaches_mono h23).2 _ hseen2
  have hit : d.iter f3 cd s3 =
      .ret ⟨s3.m, d.newError tok3.Pos (.oneofAlreadySet tok3.RawString od.FullName), rest3⟩ := by
    rw [iter_singular hn3 hl3 hm3 hs3]
    simp [ho3, hseen3]
  rw [loop_of_reaches h01, loop_of_next hp1, loop_of_reaches h23]
  exact loop_of_ret hit

/-- The run `a: 1 x: 3 b: 2`, where `a` and `b` are the members of the oneof
`o`: the error is raised at `b`, after `a` and `x` have been assigned. -/
theorem C1_oneof_exclusivity_witness :
    (exDecoder false).unmarshalMessageLoop 10 false
        ⟨{ Descriptor := exDesc }, [], [],
          [tokIdent 0 "a" true, tokInt 3 "1" 1, tokIdent 5 "x" true, tokInt 8 "3" 3,
            tokIdent 10 "b" true, tokInt 13 "2" 2]⟩ =
      ⟨{ Descriptor := exDesc, known := [(1, .int32 1), (3, .int32 3)] },
        .error (.positioned 1 11 (.oneofAlreadySet "b" "ex.M.o")), [tokInt 13 "2" 2]⟩ :=
  @C1_oneof_exclusivity (exDecoder false) false 10 9 7 _
    ⟨{ Descriptor := exDesc }, [], [],
      [tokIdent 0 "a" true, tokInt 3 "1" 1, tokIdent 5 "x" true, tokInt 8 "3" 3,
        tokIdent 10 "b" true, tokInt 13 "2" 2]⟩
    ⟨{ Descriptor := exDesc, known := [(1, .int32 1)] }, [1], [0],
      [tokIdent 5 "x" true, tokInt 8 "3" 3, tokIdent 10 "b" true, tokInt 13 "2" 2]⟩
    ⟨{ Descriptor := exDesc, known := [(1, .int32 1), (3, .int32 3)] }, [3, 1], [0],
      [tokIdent 10 "b" true, tokInt 13 "2" 2]⟩
    _ _ _ _ _ _
    { Name := "a", Number := 1, Kind := .Int32Kind, ContainingOneof := some ⟨0, "ex.M.o"⟩ }
    { Name := "b", Number := 2, Kind := .Int32Kind, ContainingOneof := some ⟨0, "ex.M.o"⟩ }
    _
    (decoder.Reaches.here _ _)
    ⟨_, _, rfl, rfl, rfl⟩ rfl rfl rfl rfl
    (decoder.Reaches.pass rfl (decoder.Reaches.here _ _))
    ⟨_, _, rfl, rfl, rfl⟩ rfl rfl rfl (Or.inr (Or.inr rfl))

/-- C2, the claim as stated, fails. In `a: 1 a: 2`, where the singular field `a`
is a member of a oneof, the error at the second `a` is "oneof ... is already
set". In `x: 1 3: 2`, where 3 is the number of the singular field `x`, it is
"cannot specify field by number". In `x: 1 x 2`, where the second name has no
`:`, the separator check of lines 236-239 ends in the panic of `syntaxError`.
None of the three calls returns "non-repeated field ... is repeated". -/
theorem C2_counterexample :
    (exDecoder false).unmarshalMessage 10 { Descriptor := exDesc } false
        [tokIdent 0 "a" true, tokInt 3 "1" 1, tokIdent 5 "a" true, tokInt 8 "2" 2] =
      ⟨{ Descriptor := exDesc, known := [(1, .int32 1)] },
        .error (.positioned 1 6 (.oneofAlreadySet "a" "ex.M.o")), [tokInt 8 "2" 2]⟩ ∧
    (exDecoder false).unmarshalMessage 10 { Descriptor := exDesc } false
        [tokIdent 0 "x" true, tokInt 3 "1" 1, tokNumber 5 "3" 3 true, tokInt 8 "2" 2] =
      ⟨{ Descriptor := exDesc, known := [(3, .int32 1)] },
        .error (.positioned 1 6 (.cannotSpecifyFieldByNumber "3")), [tokInt 8 "2" 2]⟩ ∧
    (exDecoder false).unmarshalMessage 10 { Descriptor := exDesc } false
        [tokIdent 0 "x" true, tokInt 3 "1" 1, tokIdent 5 "x" false, tokInt 7 "2" 2] =
      ⟨{ Descriptor := exDesc, known := [(3, .int32 1)] }, .panicked "", [tokInt 7 "2" 2]⟩ ∧
    ∀ line column raw,
      ((exDecoder false).unmarshalMessage 10 { Descriptor := exDesc } false
        [tokIdent 0 "a" true, tokInt 3 "1" 1, tokIdent 5 "a" true, tokInt 8 "2" 2]).status ≠
          .error (.positioned line column (.nonRepeatedFieldRepeated raw)) ∧
      ((exDecoder false).unmarshalMessage 10 { Descriptor := exDesc } false
        [tokIdent 0 "x" true, tokInt 3 "1" 1, tokNumber 5 "3" 3 true, tokInt 8 "2" 2]).status ≠
          .error (.positioned line column (.nonRepeatedFieldRepeated raw)) ∧
      ((exDecoder false).unmarshalMessage 10 { Descriptor := exDesc } false
        [tokIdent 0 "x" true, tokInt 3 "1" 1, tokIdent 5 "x" false, tokInt 7 "2" 2]).status ≠
          .error (.positioned line column (.nonRepeatedFieldRepeated raw)) := by
  have h1 : (exDecoder false).unmarshalMessage 10 { Descriptor := exDesc } false
        [tokIdent 0 "a" true, tokInt 3 "1" 1, tokIdent 5 "a" true, tokInt 8 "2" 2] =
      ⟨{ Descriptor := exDesc, known := [(1, .int32 1)] },
        .error (.positioned 1 6 (.oneofAlreadySet "a" "ex.M.o")), [tokInt 8 "2" 2]⟩ := rfl
  have h2 : (exDecoder false).unmarshalMessage 10 { Descriptor := exDesc } false
        [tokIdent 0 "x" true, tokInt 3 "1" 1, tokNumber 5 "3" 3 true, tokInt 8 "2" 2] =
      ⟨{ Descriptor := exDesc, known := [(3, .int32 1)] },
        .error (.positioned 1 6 (.cannotSpecifyFieldByNumber "3")), [tokInt 8 "2" 2]⟩ := rfl
  have h3 : (exDecoder false).unmarshalMessage 10 { Descriptor := exDesc } false
        [tokIdent 0 "x" true, tokInt 3 "1" 1, tokIdent 5 "x" false, tokInt 7 "2" 2] =
      ⟨{ Descriptor := exDesc, known := [(3, .int32 1)] }, .panicked "", [tokInt 7 "2" 2]⟩ := rfl
  refine ⟨h1, h2, h3, fun line column raw => ⟨fun he => ?_, fun he => ?_, fun he => ?_⟩⟩
  · rw [h1] at he
    cases he
  · rw [h2] at he
    cases he
  · rw [h3] at he
    cases he

/-- C2 (amended). In the frame of a message, let a name token resolve (not by
number) to a singular field `fd`, let that pass of the loop parse the field and
go round again, and let the loop later read a name token that resolves to `fd`
again and obeys the separator rule. Then the loop returns an error at that
second name, "oneof ... is already set" when `fd` is a member of a oneof and
"non-repeated field ... is repeated" when it is not, with the message as it
stood when the name was read: the value assigned by the first occurrence is not
overwritten, and no run in which the name of `fd` is read twice succeeds. -/
theorem C2_non_repeated_unique (d : decoder) (cd : Bool) {f0 f1 f3 : Nat}
    {s0 s1 s2 s3 : Frame} {tok1 tok3 : Token} {rest1 rest3 : List Token} {sep1 sep3 : Bool}
    {fd : FieldDescriptor}
    (h01 : d.Reaches cd f0 s0 (f1 + 1) s1)
    (hn1 : d.NamesField s1 tok1 rest1 sep1 fd)
    (hl : fd.IsList = false) (hm : fd.IsMap = false)
    (hp1 : d.iter f1 cd s1 = .next s2)
    (h23 : d.Reaches cd f1 s2 (f3 + 1) s3)
    (hn3 : d.NamesField s3 tok3 rest3 sep3 fd)
    (hs3 : separatorOk fd sep3) :
    d.unmarshalMessageLoop f0 cd s0 =
      ⟨s3.m, d.newError tok3.Pos
        (match fd.ContainingOneof with
          | some od => .oneofAlreadySet tok3.RawString od.FullName
          | none => .nonRepeatedFieldRepeated tok3.RawString), rest3⟩ ∧
    (d.unmarshalMessageLoop f0 cd s0).status ≠ .ok := by
  have hseen2 := iter_singular_next hn1 hl hm hp1
  have hmono := reaches_mono h23
  have hit := @iter_singular_seen d f3 cd _ _ _ _ _ hn3 hl hm hs3 (hmono.1 _ hseen2.1)
    (fun od ho => hmono.2 _ (hseen2.2 od ho))
  have heq : d.unmarshalMessageLoop f0 cd s0 =
      ⟨s3.m, d.newError tok3.Pos
        (match fd.ContainingOneof with
          | some od => .oneofAlreadySet tok3.RawString od.FullName
          | none => .nonRepeatedFieldRepeated tok3.RawString), rest3⟩ := by
    rw [loop_of_reaches h01, loop_of_next hp1, loop_of_reaches h23]
    exact loop_of_ret hit
  refine ⟨heq, ?_⟩
  rw [heq]
  simp [decoder.newError]

/-- The run `x: 1 a: 2 x: 3`, where `x` is in no oneof: the error is raised at
the second `x`, after `x` and `a` have been assigned, and `x` keeps the value 1. -/
theorem C2_non_repeated_unique_witness :
    (exDecoder false).unmarshalMessageLoop 10 false
        ⟨{ Descriptor := exDesc }, [], [],
          [tokIdent 0 "x" true, tokInt 3 "1" 1, tokIdent 5 "a" true, tokInt 8 "2" 2,
            tokIdent 10 "x" true, tokInt 13 "3" 3]⟩ =
      ⟨{ Descriptor := exDesc, known := [(3, .int32 1), (1, .int32 2)] },
        .error (.positioned 1 11 (.nonRepeatedFieldRepeated "x")), [tokInt 13 "3" 3]⟩ :=
  (@C2_non_repeated_unique (exDecoder false) false 10 9 7 _
    ⟨{ Descriptor := exDesc }, [], [],
      [tokIdent 0 "x" true, tokInt 3 "1" 1, tokIdent 5 "a" true, tokInt 8 "2" 2,
        tokIdent 10 "x" true, tokInt 13 "3" 3]⟩
    ⟨{ Descriptor := exDesc, known := [(3, .int32 1)] }, [3], [],
      [tokIdent 5 "a" true, tokInt 8 "2" 2, tokIdent 10 "x" true, tokInt 13 "3" 3]⟩
    ⟨{ Descriptor := exDesc, known := [(3, .int32 1), (1, .int32 2)] }, [1, 3], [0],
      [tokIdent 10 "x" true, tokInt 13 "3" 3]⟩
    _ _ _ _ _ _
    { Name := "x", Number := 3, Kind := .Int32Kind }
    (decoder.Reaches.here _ _)
    ⟨_, _, rfl, rfl, rfl⟩ rfl rfl rfl
    (decoder.Reaches.pass rfl (decoder.Reaches.here _ _))
    ⟨_, _, rfl, rfl, rfl⟩ (Or.inr (Or.inr rfl))).1

/-- The resolution of a valid field number that names a field of the message,
or an extension that the resolver finds and that legally extends the message. -/
theorem resolveField_number {d : decoder} {md : MessageDescriptor} {tok : Token} {n : Int}
    {fd : FieldDescriptor} (hv : FieldNumber.IsValid n = true)
    (hfd : Fields.ByNumber md.Fields n = some fd ∨
      (Fields.ByNumber md.Fields n = none ∧
        d.opts.Resolver.FindExtensionByNumber md.FullName n = .ok fd ∧
        ExtensionRanges.Has md.ExtensionRanges fd.Number = true ∧
        fd.ContainingMessage = md.FullName))
    (hlinked : d.ProtoLegacy = true → ¬(fd.IsWeak = true ∧ fd.MessageIsPlaceholder = true)) :
    d.resolveField md tok (.FieldNumber n) = .ok ⟨"", some fd, true⟩ := by
  have hleg : (if d.ProtoLegacy = true then
        (if (fd.IsWeak && fd.MessageIsPlaceholder) = true then none else some fd)
      else some fd) = some fd := by
    by_cases hL : d.ProtoLegacy = true
    · have := hlinked hL
      simp only [hL, if_true]
      cases h1 : fd.IsWeak <;> cases h2 : fd.MessageIsPlaceholder <;> simp_all
    · simp [hL]
  rcases hfd with h | ⟨h1, h2, h3, h4⟩
  · simp only [decoder.resolveField, hv, h]
    simpa using hleg
  · simp only [decoder.resolveField, hv, h1, h2]
    simp [h3, h4]
    simpa using hleg

/-- A name given as a field number always leaves `resolveField` with the mark
that the name is a number. -/
theorem resolveField_number_mark {d : decoder} {md : MessageDescriptor} {tok : Token} {n : Int}
    {r : Resolved} (h : d.resolveField md tok (.FieldNumber n) = .ok r) :
    r.isFieldNumberName = true ∧ r.name = "" := by
  simp only [decoder.resolveField] at h
  by_cases hv : FieldNumber.IsValid n = true
  · cases hbn : Fields.ByNumber md.Fields n with
    | some fd =>
      simp only [hv, hbn] at h
      repeat' split at h
      all_goals cases h
      all_goals simp_all
    | none =>
      simp only [hv, hbn] at h
      repeat' split at h
      all_goals cases h
      all_goals simp_all
  · simp [hv] at h

/-- An early return of `resolveField` is an error of `newError`. -/
theorem resolveField_error {d : decoder} {md : MessageDescriptor} {tok : Token} {nk : NameKind}
    {st : Status} (h : d.resolveField md tok nk = .error st) : ∃ e, st = .error e := by
  simp only [decoder.resolveField] at h
  repeat' split at h
  all_goals cases h
  all_goals
    rename_i hsw
    repeat' split at hsw
    all_goals cases hsw
  all_goals exact ⟨_, rfl⟩

/-- A number of the reserved range from 19000 to 19999 is refused by lines
173-175, also with `DiscardUnknown` set. -/
theorem unmarshal_reserved_number :
    Unmarshal (exDecoder true) 10 [tokNumber 0 "19000" 19000 true, tokInt 7 "1" 1]
        { Descriptor := exDesc } =
      ⟨{ Descriptor := exDesc }, .error (.positioned 1 1 (.invalidFieldNumber 19000)),
        [tokInt 7 "1" 1]⟩ :=
  rfl

/-- C9, the claim as stated, fails in a build with the flag `flags.ProtoLegacy`:
7 is a valid number and the number of the field `w` of the message, but `w`
is a weak field whose message is a placeholder, and lines 190-194 reset the
field that the number has resolved to. With `DiscardUnknown` off the input
`7: \x7b\x7d` fails with "unknown field", not with "cannot specify field by
number". -/
theorem C9_counterexample :
    FieldNumber.IsValid 7 = true ∧
    Fields.ByNumber exDescWeak.Fields 7 =
      some { Name := "w", Number := 7, Kind := .MessageKind, IsWeak := true,
             Message := "ex.Gone", MessageName := "Gone", MessageIsPlaceholder := true } ∧
    legacyDecoder.unmarshalMessage 10 { Descriptor := exDescWeak } false
        [tokNumber 0 "7" 7 true, tokOpen 3, tokClose 4] =
      ⟨{ Descriptor := exDescWeak }, .error (.positioned 1 1 (.unknownField "7")),
        [tokOpen 3, tokClose 4]⟩ :=
  ⟨rfl, rfl, rfl⟩

/-- C9, amended. When the loop of `unmarshalMessage` reads a name token that is a
valid field number, and the number names a field of the message, or names no
field and the resolver finds for it an extension whose number lies in the
extension ranges of the message and whose containing message is this message,
and, when the flag `flags.ProtoLegacy` is on, that field is not a weak field
whose message is a placeholder, the call fails with "cannot specify field by
number": the value is not read and the message is not touched. -/
theorem C9_field_by_number (d : decoder) (fuel : Nat) (cd : Bool) (s : Frame) (tok : Token)
    (rest : List Token) (n : Int) (sep : Bool) (fd : FieldDescriptor)
    (hr : d.Read s.toks = some (tok, rest)) (hb : tok.body = .Name (.FieldNumber n) sep)
    (hv : FieldNumber.IsValid n = true)
    (hfd : Fields.ByNumber s.m.Descriptor.Fields n = some fd ∨
      (Fields.ByNumber s.m.Descriptor.Fields n = none ∧
        d.opts.Resolver.FindExtensionByNumber s.m.Descriptor.FullName n = .ok fd ∧
        ExtensionRanges.Has s.m.Descriptor.ExtensionRanges fd.Number = true ∧
        fd.ContainingMessage = s.m.Descriptor.FullName))
    (hlinked : d.ProtoLegacy = true → ¬(fd.IsWeak = true ∧ fd.MessageIsPlaceholder = true)) :
    d.unmarshalMessageLoop (fuel + 1) cd s =
      ⟨s.m, d.newError tok.Pos (.cannotSpecifyFieldByNumber tok.RawString), rest⟩ := by
  apply loop_of_ret
  simp only [decoder.iter, decoder.unmarshalMessageIter, hr, hb,
    @resolveField_number d s.m.Descriptor tok n fd hv hfd hlinked]
  simp

/-- The input `3: 7`, where 3 is the number of the field `x`, with
`DiscardUnknown` set. -/
theorem C9_field_by_number_witness :
    (exDecoder true).unmarshalMessageLoop 10 false
        ⟨{ Descriptor := exDesc }, [], [], [tokNumber 0 "3" 3 true, tokInt 3 "7" 7]⟩ =
      ⟨{ Descriptor := exDesc },
        .error (.positioned 1 1 (.cannotSpecifyFieldByNumber "3")), [tokInt 3 "7" 7]⟩ :=
  C9_field_by_number (exDecoder true) 9 false
    ⟨{ Descriptor := exDesc }, [], [], [tokNumber 0 "3" 3 true, tokInt 3 "7" 7]⟩
    (tokNumber 0 "3" 3 true) [tokInt 3 "7" 7] 3 true { Name := "x", Number := 3, Kind := .Int32Kind }
    rfl rfl (by decide) (Or.inl rfl) (by intro h; cases h)

/-- C10, the claim as stated, fails: with `DiscardUnknown` set, the input `9: 1`
for a message that has no field and no extension numbered 9 is unmarshalled
without an error, the numeric name being skipped together with its value; and
so is `mp { 9: 1 }`, a numeric name inside an entry of the map field `mp`, which
leaves the entry at its defaults. -/
theorem C10_counterexample :
    Unmarshal (exDecoder true) 10 [tokNumber 0 "9" 9 true, tokInt 3 "1" 1]
        { Descriptor := exDesc } = ⟨{ Descriptor := exDesc }, .ok, []⟩ ∧
    Unmarshal (exDecoder true) 10
        [tokIdent 0 "mp" false, tokOpen 3, tokNumber 5 "9" 9 true, tokInt 8 "1" 1, tokClose 10]
        { Descriptor := exDesc } =
      ⟨{ Descriptor := exDesc, known := [(6, .map [(.int32 0, .int32 0)])] }, .ok, []⟩ ∧
    ¬ ∃ e, (Unmarshal (exDecoder true) 10 [tokNumber 0 "9" 9 true, tokInt 3 "1" 1]
        { Descriptor := exDesc }).status = .error e := by
  have h : Unmarshal (exDecoder true) 10 [tokNumber 0 "9" 9 true, tokInt 3 "1" 1]
        { Descriptor := exDesc } = ⟨{ Descriptor := exDesc }, .ok, []⟩ := rfl
  refine ⟨h, rfl, ?_⟩
  rintro ⟨e, he⟩
  rw [h] at he
  cases he

/-- C10 (amended). A name token that is a field number makes the call that reads
it return an error: in the frame of a message whenever `DiscardUnknown` is off
(and the empty name is not reserved), or the number is invalid, or the number
resolves to a field or extension; in a map entry and in the body of an `Any`
whenever `DiscardUnknown` is off. When the frame is the one of the top-level
message (not an `Any`, not a MessageSet), `Unmarshal` returns that error. -/
theorem C10_numeric_field_name (d : decoder) (fuel : Nat) (tok : Token) (rest : List Token)
    (n : Int) (sep : Bool) (hb : tok.body = .Name (.FieldNumber n) sep) :
    (∀ cd s, d.Read s.toks = some (tok, rest) →
      ((d.opts.DiscardUnknown = false ∧ s.m.Descriptor.ReservedNames.contains "" = false) ∨
        FieldNumber.IsValid n = false ∨
        ∃ r fd, d.resolveField s.m.Descriptor tok (.FieldNumber n) = .ok r ∧ r.fd = some fd) →
      ∃ e, d.unmarshalMessageLoop (fuel + 1) cd s = ⟨s.m, .error e, rest⟩) ∧
    (∀ (m : Message) toks f0 s,
      (!d.ProtoLegacy && m.Descriptor.IsMessageSet) = false →
      m.Descriptor.FullName ≠ "google.protobuf.Any" →
      d.Reaches false f0 ⟨{ m with known := [] }, [], [], toks⟩ (fuel + 1) s →
      d.Read s.toks = some (tok, rest) →
      ((d.opts.DiscardUnknown = false ∧ s.m.Descriptor.ReservedNames.contains "" = false) ∨
        FieldNumber.IsValid n = false ∨
        ∃ r fd, d.resolveField s.m.Descriptor tok (.FieldNumber n) = .ok r ∧ r.fd = some fd) →
      ∃ e, Unmarshal d (f0 + 1) toks m = ⟨s.m, .error e, rest⟩) ∧
    (d.opts.DiscardUnknown = false → ∀ fd key pval toks, d.Read toks = some (tok, rest) →
      d.unmarshalMapEntryLoop (fuel + 1) fd key pval toks =
        ⟨(key, pval), d.newError tok.Pos (.unknownMapEntryField tok.RawString), rest⟩) ∧
    (d.opts.DiscardUnknown = false → ∀ cd st toks, d.Read toks = some (tok, rest) →
      d.unmarshalAnyLoop (fuel + 1) cd st toks =
        ⟨st, d.newError tok.Pos (.invalidAnyFieldName tok.RawString), rest⟩) := by
  have hframe : ∀ cd s, d.Read s.toks = some (tok, rest) →
      ((d.opts.DiscardUnknown = false ∧ s.m.Descriptor.ReservedNames.contains "" = false) ∨
        FieldNumber.IsValid n = false ∨
        ∃ r fd, d.resolveField s.m.Descriptor tok (.FieldNumber n) = .ok r ∧ r.fd = some fd) →
      ∃ e, d.unmarshalMessageLoop (fuel + 1) cd s = ⟨s.m, .error e, rest⟩ := by
    intro cd s hr hc
    cases hres : d.resolveField s.m.Descriptor tok (.FieldNumber n) with
      | error st =>
        obtain ⟨e, he⟩ := resolveField_error hres
        refine ⟨e, loop_of_ret ?_⟩
        simp only [decoder.iter, decoder.unmarshalMessageIter, hr, hb, hres, he]
      | ok r =>
        have hmark := resolveField_number_mark hres
        cases hfd : r.fd with
        | some fd =>
          refine ⟨.positioned (d.Position tok.Pos).1 (d.Position tok.Pos).2
            (.cannotSpecifyFieldByNumber tok.RawString), loop_of_ret ?_⟩
          simp only [decoder.iter, decoder.unmarshalMessageIter, hr, hb, hres, hfd, hmark.1]
          simp [decoder.newError]
        | none =>
          rcases hc with ⟨hd, hn⟩ | hv | ⟨r1, fd, hr1, hfd1⟩
          · refine ⟨.positioned (d.Position tok.Pos).1 (d.Position tok.Pos).2
              (.unknownField tok.RawString), loop_of_ret ?_⟩
            simp only [decoder.iter, decoder.unmarshalMessageIter, hr, hb, hres, hfd, hmark.2, hd,
              hn]
            simp [decoder.newError]
          · simp [decoder.resolveField, hv] at hres
          · rw [hres] at hr1
            cases hr1
            rw [hfd] at hfd1
            cases hfd1
  refine ⟨hframe, ?_, ?_, ?_⟩
  · intro m toks f0 s hms hany hreach hr hc
    obtain ⟨e, he⟩ := hframe false s hr hc
    refine ⟨e, ?_⟩
    have hm : d.unmarshalMessage (f0 + 1) { m with known := [] } false toks =
        d.unmarshalMessageLoop f0 false ⟨{ m with known := [] }, [], [], toks⟩ := by
      rw [decoder.unmarshalMessage]
      simp [hms, hany]
    simp only [Unmarshal, hm, loop_of_reaches hreach, he]
  · intro hd fd key pval toks hr
    rw [decoder.unmarshalMapEntryLoop]
    simp [hr, hb, hd]
  · intro hd cd st toks hr
    rw [decoder.unmarshalAnyLoop]
    simp [hr, hb, hd]

/-- The input `9: 1` with `DiscardUnknown` off: `Unmarshal` returns an error. -/
theorem C10_numeric_field_name_witness :
    ∃ e, Unmarshal (exDecoder false) 10 [tokNumber 0 "9" 9 true, tokInt 3 "1" 1]
        { Descriptor := exDesc } = ⟨{ Descriptor := exDesc }, .error e, [tokInt 3 "1" 1]⟩ :=
  (C10_numeric_field_name (exDecoder false) 8 (tokNumber 0 "9" 9 true) [tokInt 3 "1" 1] 9 true
    rfl).2.1 { Descriptor := exDesc } [tokNumber 0 "9" 9 true, tokInt 3 "1" 1] 9
    ⟨{ Descriptor := exDesc }, [], [], [tokNumber 0 "9" 9 true, tokInt 3 "1" 1]⟩
    rfl (by decide) (decoder.Reaches.here _ _) rfl (Or.inl ⟨rfl, rfl⟩)

/-! ## The `Any` handler: C3, C4 -/

theorem ByNumber_number {fs : List FieldDescriptor} {n : FieldNumber} {fd : FieldDescriptor}
    (h : Fields.ByNumber fs n = some fd) : fd.Number = n := by
  have := List.find?_some h
  simpa using this

/-- What `unmarshalAny` leaves in a fresh message: the two fields read back. -/
theorem setAnyFields_fresh {m : Message} {st : AnyState} {fdU fdV : FieldDescriptor}
    (hfresh : m.known = [])
    (hU : Fields.ByNumber m.Descriptor.Fields 1 = some fdU) (hUd : fdU.Default = .string [])
    (hV : Fields.ByNumber m.Descriptor.Fields 2 = some fdV) (hVd : fdV.Default = .bytes []) :
    (setAnyFields m st).2 = .ok ∧
    (setAnyFields m st).1.Get fdU = .string st.typeURL ∧
    (setAnyFields m st).1.Get fdV = .bytes st.bValue := by
  have h1 := ByNumber_number hU
  have h2 := ByNumber_number hV
  obtain ⟨desc, known⟩ := m
  simp only at hfresh hU hV
  subst hfresh
  cases hu : st.typeURL with
  | nil =>
    cases hb : st.bValue with
    | nil => simp [setAnyFields, hu, hb, Message.Get, lookup, h1, h2, hUd, hVd]
    | cons b0 bs =>
      simp [setAnyFields, hu, hb, hV, Message.Get, Message.Set, store, lookup, h1, h2, hUd]
  | cons u0 us =>
    cases hb : st.bValue with
    | nil => simp [setAnyFields, hu, hb, hU, Message.Get, Message.Set, store, lookup, h1, h2, hVd]
    | cons b0 bs =>
      simp [setAnyFields, hu, hb, hU, hV, Message.Get, Message.Set, store, lookup, h1, h2]

/-- C4. For the expanded form `[url] { body }` of an `Any` (with its opening
brace when the call checks delimiters, and followed by the closing brace, or by
the end of the input at top level): when the resolver maps `url` to the message
type `T`, the body parses through `unmarshalMessage` with delimiters to `mT`,
and the serializer returns `b` for `mT`, then `unmarshalAny` on a fresh `Any`
message succeeds, and the message then reads `type_url` equal to `url` and
`value` equal to `b`. -/
theorem C4_any_expansion (d : decoder) (f : Nat) (m : Message) (cd : Bool) (toks : List Token)
    (pos : Nat) (raw url : String) (sep : Bool) (T : MessageDescriptor)
    (body rest1 rest2 : List Token) (mT : Message) (b : Bytes) (closer : Token)
    (fdU fdV : FieldDescriptor)
    (hfresh : m.known = [])
    (hU : Fields.ByNumber m.Descriptor.Fields 1 = some fdU) (hUd : fdU.Default = .string [])
    (hV : Fields.ByNumber m.Descriptor.Fields 2 = some fdV) (hVd : fdV.Default = .bytes [])
    (htoks : if cd = true then
        ∃ o : Token, o.Kind = text.Kind.MessageOpen ∧
          toks = o :: ⟨pos, raw, .Name (.TypeName url) sep⟩ :: body
      else toks = ⟨pos, raw, .Name (.TypeName url) sep⟩ :: body)
    (hres : d.opts.Resolver.FindMessageByURL url = .ok T)
    (hbody : d.unmarshalMessage f { Descriptor := T } true body = ⟨mT, .ok, rest1⟩)
    (hmar : d.Marshal mT = .ok b)
    (hclose : d.Read rest1 = some (closer, rest2))
    (hcl : closer.body = if cd = true then .MessageClose else .EOF) :
    (d.unmarshalAny (f + 3) m cd toks).status = .ok ∧
    (d.unmarshalAny (f + 3) m cd toks).rest = rest2 ∧
    (d.unmarshalAny (f + 3) m cd toks).val.Get fdU = .string (stringBytes url) ∧
    (d.unmarshalAny (f + 3) m cd toks).val.Get fdV = .bytes b := by
  have hexp : d.unmarshalExpandedAny (f + 1) url pos body = ⟨b, .ok, rest1⟩ := by
    rw [decoder.unmarshalExpandedAny]
    simp [hres, hbody, hmar]
  have hend : d.unmarshalAnyLoop (f + 1) cd
      { typeURL := stringBytes url, bValue := b, hasFields := ["expanded"] } rest1 =
      ⟨{ typeURL := stringBytes url, bValue := b, hasFields := ["expanded"] }, .ok, rest2⟩ := by
    rw [decoder.unmarshalAnyLoop]
    cases cd <;> simp [hclose, hcl]
  have hloop : d.unmarshalAnyLoop (f + 2) cd {}
      (⟨pos, raw, .Name (.TypeName url) sep⟩ :: body) =
      ⟨{ typeURL := stringBytes url, bValue := b, hasFields := ["expanded"] }, .ok, rest2⟩ := by
    rw [decoder.unmarshalAnyLoop]
    simp [Read_cons, hexp, hend]
  have hset := @setAnyFields_fresh m
    { typeURL := stringBytes url, bValue := b, hasFields := ["expanded"] } fdU fdV
    hfresh hU hUd hV hVd
  have hany : d.unmarshalAny (f + 3) m cd toks =
      ⟨(setAnyFields m { typeURL := stringBytes url, bValue := b, hasFields := ["expanded"] }).1,
        .ok, rest2⟩ := by
    rw [decoder.unmarshalAny]
    cases cd with
    | false =>
      simp only [Bool.false_eq_true, if_false] at htoks
      subst htoks
      simp [hloop, hset.1]
    | true =>
      simp only [if_true] at htoks
      obtain ⟨o, ho, rfl⟩ := htoks
      simp [Read_cons, ho, hloop, hset.1]
  rw [hany]
  exact ⟨rfl, rfl, hset.2.1, hset.2.2⟩

/-- The input `[type.googleapis.com/foo.Bar] { n: 42 }` at top level. -/
theorem C4_any_expansion_witness :
    ((exDecoder false).unmarshalAny 9 { Descriptor := anyDesc } false
        [tokType 0 "type.googleapis.com/foo.Bar", tokOpen 30, tokIdent 32 "n" true,
          tokInt 35 "42" 42, tokClose 38]).status = .ok ∧
    ((exDecoder false).unmarshalAny 9 { Descriptor := anyDesc } false
        [tokType 0 "type.googleapis.com/foo.Bar", tokOpen 30, tokIdent 32 "n" true,
          tokInt 35 "42" 42, tokClose 38]).val.Get
        { Name := "value", Number := 2, Kind := .BytesKind, Default := .bytes [] } =
      .bytes [8, 42] :=
  have h := C4_any_expansion (exDecoder false) 6 { Descriptor := anyDesc } false
    [tokType 0 "type.googleapis.com/foo.Bar", tokOpen 30, tokIdent 32 "n" true,
      tokInt 35 "42" 42, tokClose 38]
    0 "type.googleapis.com/foo.Bar" "type.googleapis.com/foo.Bar" false
    { FullName := "foo.Bar", Fields := [{ Name := "n", Number := 1, Kind := .Int32Kind }] }
    [tokOpen 30, tokIdent 32 "n" true, tokInt 35 "42" 42, tokClose 38] [] []
    { Descriptor :=
        { FullName := "foo.Bar", Fields := [{ Name := "n", Number := 1, Kind := .Int32Kind }] },
      known := [(1, .int32 42)] }
    [8, 42] ⟨100, "", .EOF⟩
    { Name := "type_url", Number := 1, Kind := .StringKind, Default := .string [] }
    { Name := "value", Number := 2, Kind := .BytesKind, Default := .bytes [] }
    rfl rfl rfl rfl rfl rfl rfl rfl rfl rfl rfl
  ⟨h.1, h.2.2.2⟩

/-- The conflicts that the loop of `unmarshalAny` does flag, for a name that
carries its `:` where one is required: a second `type_url`, a second `value`,
either of them after the expanded form, a second expanded form, and the
expanded form after `type_url`. -/
theorem unmarshalAnyLoop_conflicts (d : decoder) (fuel : Nat) (cd : Bool) (st : AnyState)
    (toks : List Token) (tok : Token) (rest : List Token)
    (hr : d.Read toks = some (tok, rest)) :
    (tok.body = .Name (.IdentName "type_url") true → st.hasFields.contains "type_url" = true →
      d.unmarshalAnyLoop (fuel + 1) cd st toks =
        ⟨st, d.newError tok.Pos .duplicateAnyTypeUrl, rest⟩) ∧
    (tok.body = .Name (.IdentName "value") true → st.hasFields.contains "value" = true →
      d.unmarshalAnyLoop (fuel + 1) cd st toks =
        ⟨st, d.newError tok.Pos .duplicateAnyValue, rest⟩) ∧
    (tok.body = .Name (.IdentName "type_url") true → st.hasFields.contains "type_url" = false →
      st.hasFields.contains "expanded" = true →
      d.unmarshalAnyLoop (fuel + 1) cd st toks =
        ⟨st, d.newError tok.Pos (.conflictWithField st.typeURL), rest⟩) ∧
    (tok.body = .Name (.IdentName "value") true → st.hasFields.contains "value" = false →
      st.hasFields.contains "expanded" = true →
      d.unmarshalAnyLoop (fuel + 1) cd st toks =
        ⟨st, d.newError tok.Pos (.conflictWithField st.typeURL), rest⟩) ∧
    (∀ typeName sep, tok.body = .Name (.TypeName typeName) sep →
      st.hasFields.contains "expanded" = true →
      d.unmarshalAnyLoop (fuel + 1) cd st toks =
        ⟨st, d.newError tok.Pos .moreThanOneType, rest⟩) ∧
    (∀ typeName sep, tok.body = .Name (.TypeName typeName) sep →
      st.hasFields.contains "expanded" = false → st.hasFields.contains "type_url" = true →
      d.unmarshalAnyLoop (fuel + 1) cd st toks =
        ⟨st, d.newError tok.Pos .conflictWithTypeUrl, rest⟩) := by
  refine ⟨?_, ?_, ?_, ?_, ?_, ?_⟩
  · intro hb h1
    rw [decoder.unmarshalAnyLoop]
    simp at h1
    simp [hr, hb, h1]
  · intro hb h1
    rw [decoder.unmarshalAnyLoop]
    simp at h1
    simp [hr, hb, h1]
  · intro hb h1 h2
    rw [decoder.unmarshalAnyLoop]
    simp at h1 h2
    simp [hr, hb, h1, h2]
  · intro hb h1 h2
    rw [decoder.unmarshalAnyLoop]
    simp at h1 h2
    simp [hr, hb, h1, h2]
  · intro typeName sep hb h1
    rw [decoder.unmarshalAnyLoop]
    simp at h1
    simp [hr, hb, h1]
  · intro typeName sep hb h1 h2
    rw [decoder.unmarshalAnyLoop]
    simp at h1 h2
    simp [hr, hb, h1, h2]

/-- C3, at the failing input `value: "x" [type.googleapis.com/foo.Bar] { n: 42 }`:
the expanded form after `value` is accepted, `Unmarshal` succeeds, and the bytes
of the expanded message replace the canonical value. The opposite order,
`[type.googleapis.com/foo.Bar] { n: 42 } value: "x"`, is rejected with the
"conflict with [...] field" error. -/
theorem C3_expanded_after_value :
    Unmarshal (exDecoder false) 12
        [tokIdent 0 "value" true, tokStr 7 "\"x\"" [120],
          tokType 11 "type.googleapis.com/foo.Bar", tokOpen 41, tokIdent 43 "n" true,
          tokInt 46 "42" 42, tokClose 49]
        { Descriptor := anyDesc } =
      ⟨{ Descriptor := anyDesc,
         known := [(1, .string (stringBytes "type.googleapis.com/foo.Bar")),
                   (2, .bytes [8, 42])] }, .ok, []⟩ ∧
    (Unmarshal (exDecoder false) 12
        [tokType 0 "type.googleapis.com/foo.Bar", tokOpen 30, tokIdent 32 "n" true,
          tokInt 35 "42" 42, tokClose 38, tokIdent 40 "value" true, tokStr 47 "\"x\"" [120]]
        { Descriptor := anyDesc }).status =
      .error (.positioned 1 41
        (.conflictWithField (stringBytes "type.googleapis.com/foo.Bar"))) :=
  ⟨rfl, rfl⟩

/-! ## Unknown fields: C5 -/

/-- C5, at the failing input `u: [1] ms: [{}]` with `DiscardUnknown` set, where
`u` is unknown and `ms` is a repeated message field of the message: skipping
the value of `u` swallows `ms: [{}]` as well, and `Unmarshal` succeeds with no
field set; with the unknown field removed, `ms: [{}]` appends one empty message
to `ms`. -/
theorem C5_skip_not_neutral :
    Unmarshal (exDecoder true) 12
        [tokIdent 0 "u" true, tokListOpen 3, tokInt 4 "1" 1, tokListClose 5,
          tokIdent 7 "ms" true, tokListOpen 11, tokOpen 12, tokClose 13, tokListClose 14]
        { Descriptor := exDesc } = ⟨{ Descriptor := exDesc, known := [] }, .ok, []⟩ ∧
    Unmarshal (exDecoder true) 12
        [tokIdent 7 "ms" true, tokListOpen 11, tokOpen 12, tokClose 13, tokListClose 14]
        { Descriptor := exDesc } =
      ⟨{ Descriptor := exDesc, known := [(5, .list [.message "ex.Sub" []])] }, .ok, []⟩ :=
  ⟨rfl, rfl⟩

/-! ## Diagnostics and the end of a frame: C20, C17, C12 -/

/-- C20, on the code: `syntaxError`, and with it `unexpectedTokenError`, never
returns an error value: for every position and every message the call ends in
the `panic("")` of line 92, which is reached on every call. At the input `x 1`,
where the name of the int32 field `x` has no `:`, the panic of `syntaxError`
unwinds `Unmarshal`; at the input `x: \x7b\x7d`, where a message stands for the
scalar, the panic of `unexpectedTokenError` does. -/
theorem C20_syntaxError_panics :
    (∀ (d : decoder) (pos : Nat) (f : Msg), d.syntaxError pos f = .panicked "") ∧
    (∀ (d : decoder) (pos : Nat) (f : Msg) (e : Err), d.syntaxError pos f ≠ .error e) ∧
    (∀ (d : decoder) (tok : Token), d.unexpectedTokenError tok = .panicked "") ∧
    Unmarshal (exDecoder false) 10 [tokIdent 0 "x" false, tokInt 2 "1" 1]
        { Descriptor := exDesc } =
      ⟨{ Descriptor := exDesc }, .panicked "", [tokInt 2 "1" 1]⟩ ∧
    Unmarshal (exDecoder false) 10 [tokIdent 0 "x" true, tokOpen 3, tokClose 4]
        { Descriptor := exDesc } =
      ⟨{ Descriptor := exDesc }, .panicked "", [tokClose 4]⟩ := by
  refine ⟨fun _ _ _ => rfl, fun d pos f e h => ?_, fun _ _ => rfl, rfl, rfl⟩
  cases h

/-- C17. When the token read at the start of a pass of the loop of
`unmarshalMessage` is `EOF`, the call returns success if it does not check
delimiters and the unexpected-EOF error if it does; when the token is the
closing brace and the call checks delimiters it returns success. In the three
cases the message is returned as it stood and the input after that token is
left unread. For the empty complete input, `unmarshalMessage` without
delimiters succeeds with the message untouched, and `Unmarshal` returns the
reset message (with the verdict of the required-field check unless
`AllowPartial` is set). -/
theorem C17_frame_termination (d : decoder) (fuel : Nat) :
    (∀ cd s tok rest, d.Read s.toks = some (tok, rest) → tok.body = .EOF →
      d.unmarshalMessageLoop (fuel + 1) cd s =
        ⟨s.m, if cd = true then .error .ErrUnexpectedEOF else .ok, rest⟩) ∧
    (∀ s tok rest, d.Read s.toks = some (tok, rest) → tok.body = .MessageClose →
      d.unmarshalMessageLoop (fuel + 1) true s = ⟨s.m, .ok, rest⟩) ∧
    (∀ (m : Message) pos, d.EndOfInput = some pos →
      (!d.ProtoLegacy && m.Descriptor.IsMessageSet) = false →
      m.Descriptor.FullName ≠ "google.protobuf.Any" →
      d.unmarshalMessage (fuel + 2) m false [] = ⟨m, .ok, []⟩ ∧
      Unmarshal d (fuel + 2) [] m =
        ⟨{ m with known := [] },
          if d.opts.AllowPartial = true then .ok else d.CheckInitialized { m with known := [] },
          []⟩) := by
  have hEOF : ∀ cd s tok rest, d.Read s.toks = some (tok, rest) → tok.body = .EOF →
      d.unmarshalMessageLoop (fuel + 1) cd s =
        ⟨s.m, if cd = true then .error .ErrUnexpectedEOF else .ok, rest⟩ := by
    intro cd s tok rest hr hb
    apply loop_of_ret
    simp only [decoder.iter, decoder.unmarshalMessageIter, hr, hb]
    cases cd <;> simp
  refine ⟨hEOF, ?_, ?_⟩
  · intro s tok rest hr hb
    apply loop_of_ret
    simp only [decoder.iter, decoder.unmarshalMessageIter, hr, hb]
    simp
  · intro m pos hpos hms hany
    have hread : d.Read [] = some (⟨pos, "", .EOF⟩, []) := by
      simp [decoder.Read, hpos]
    have h1 : ∀ m1 : Message, m1.Descriptor = m.Descriptor →
        d.unmarshalMessage (fuel + 2) m1 false [] = ⟨m1, .ok, []⟩ := by
      intro m1 hm1
      rw [(unmarshalMessage_loop d (fuel + 1) m1 [] (by rw [hm1]; exact hms)
        (by rw [hm1]; exact hany)).1]
      have := hEOF false ⟨m1, [], [], []⟩ ⟨pos, "", .EOF⟩ [] hread rfl
      simpa using this
    refine ⟨h1 m rfl, ?_⟩
    simp only [Unmarshal, h1 { m with known := [] } rfl]
    cases d.opts.AllowPartial <;> simp

/-- The closing brace of a nested message, the end of a complete top-level
input, and the empty input. -/
theorem C17_frame_termination_witness :
    (exDecoder false).unmarshalMessageLoop 5 true
        ⟨{ Descriptor := exDesc }, [], [], [tokClose 0, tokIdent 2 "x" true]⟩ =
      ⟨{ Descriptor := exDesc }, .ok, [tokIdent 2 "x" true]⟩ ∧
    (exDecoder false).unmarshalMessageLoop 5 false ⟨{ Descriptor := exDesc }, [], [], []⟩ =
      ⟨{ Descriptor := exDesc }, .ok, []⟩ ∧
    Unmarshal (exDecoder false) 5 [] { Descriptor := exDesc, known := [(3, .int32 1)] } =
      ⟨{ Descriptor := exDesc }, .ok, []⟩ :=
  ⟨(C17_frame_termination (exDecoder false) 4).2.1
      ⟨{ Descriptor := exDesc }, [], [], [tokClose 0, tokIdent 2 "x" true]⟩
      (tokClose 0) [tokIdent 2 "x" true] rfl rfl,
    (C17_frame_termination (exDecoder false) 4).1 false
      ⟨{ Descriptor := exDesc }, [], [], []⟩ ⟨100, "", .EOF⟩ [] rfl rfl,
    ((C17_frame_termination (exDecoder false) 3).2.2
      { Descriptor := exDesc, known := [(3, .int32 1)] } 100 rfl rfl (by decide)).2⟩

/-- C12, at the failing inputs `x 1` and `r 1`, where `x` is a singular and `r`
a repeated int32 field and the names carry no `:`. The separator guards of
lines 236-239 and 219-223 are met before the value is read and with the message
untouched, but they end in the panic of `syntaxError`: the call does not return
the syntax error "missing field separator :", nor any error. -/
theorem C12_missing_separator_panics :
    (exDecoder false).unmarshalMessage 10 { Descriptor := exDesc } false
        [tokIdent 0 "x" false, tokInt 2 "1" 1] =
      ⟨{ Descriptor := exDesc }, .panicked "", [tokInt 2 "1" 1]⟩ ∧
    (exDecoder false).unmarshalMessage 10 { Descriptor := exDesc } false
        [tokIdent 0 "r" false, tokInt 2 "1" 1] =
      ⟨{ Descriptor := exDesc }, .panicked "", [tokInt 2 "1" 1]⟩ ∧
    Unmarshal (exDecoder false) 10 [tokIdent 0 "x" false, tokInt 2 "1" 1]
        { Descriptor := exDesc } =
      ⟨{ Descriptor := exDesc }, .panicked "", [tokInt 2 "1" 1]⟩ :=
  ⟨rfl, rfl, rfl⟩

/-! ## Unknown names: C19, C13 -/

/-- C19, at the failing input: the body `foo: 1` of an `Any` with
`DiscardUnknown` set. The `default` branch of lines 696-700 goes round the loop
without skipping the value, so the scalar `1` is read where a name is expected
and the call ends in `unexpectedTokenError` (the panic of `syntaxError`); the
body with the field removed succeeds with no field set. Also after a `type_url`
the two results differ. With `DiscardUnknown` unset the input fails with the
"invalid field name" error. -/
theorem C19_any_unknown_not_skipped :
    (exDecoder true).unmarshalAny 10 { Descriptor := anyDesc } false
        [tokIdent 0 "foo" true, tokInt 5 "1" 1] =
      ⟨{ Descriptor := anyDesc }, .panicked "", []⟩ ∧
    (exDecoder true).unmarshalAny 10 { Descriptor := anyDesc } false [] =
      ⟨{ Descriptor := anyDesc }, .ok, []⟩ ∧
    ((exDecoder true).unmarshalAny 10 { Descriptor := anyDesc } false
        [tokIdent 0 "type_url" true,
          tokStr 10 "\"u\"" (stringBytes "u"), tokIdent 14 "foo" true, tokInt 19 "1" 1]).status =
      .panicked "" ∧
    (exDecoder true).unmarshalAny 10 { Descriptor := anyDesc } false
        [tokIdent 0 "type_url" true, tokStr 10 "\"u\"" (stringBytes "u")] =
      ⟨{ Descriptor := anyDesc, known := [(1, .string (stringBytes "u"))] }, .ok, []⟩ ∧
    (exDecoder false).unmarshalAny 10 { Descriptor := anyDesc } false
        [tokIdent 0 "foo" true, tokInt 5 "1" 1] =
      ⟨{ Descriptor := anyDesc }, .error (.positioned 1 1 (.invalidAnyFieldName "foo")),
        [tokInt 5 "1" 1]⟩ :=
  ⟨rfl, rfl, rfl, rfl, rfl⟩

/-- C13, at the failing input `old: [1] ms: [\x7b\x7d]` with `DiscardUnknown` unset,
where `old` is a reserved name of the message and `ms` a repeated message
field: the skip of the value of `old` swallows `ms: [\x7b\x7d]` as well and
`Unmarshal` succeeds with no field set, whereas the next field alone appends
one empty message to `ms`. For the unknown name `u`, not reserved, the call
fails with "unknown field". -/
theorem C13_reserved_skip_overruns :
    Unmarshal (exDecoder false) 12
        [tokIdent 0 "old" true, tokListOpen 5, tokInt 6 "1" 1, tokListClose 7,
          tokIdent 9 "ms" true, tokListOpen 13, tokOpen 14, tokClose 15, tokListClose 16]
        { Descriptor := exDescReserved } =
      ⟨{ Descriptor := exDescReserved, known := [] }, .ok, []⟩ ∧
    Unmarshal (exDecoder false) 12
        [tokIdent 9 "ms" true, tokListOpen 13, tokOpen 14, tokClose 15, tokListClose 16]
        { Descriptor := exDescReserved } =
      ⟨{ Descriptor := exDescReserved, known := [(5, .list [.message "ex.Sub" []])] }, .ok, []⟩ ∧
    Unmarshal (exDecoder false) 12 [tokIdent 0 "u" true, tokInt 3 "1" 1]
        { Descriptor := exDescReserved } =
      ⟨{ Descriptor := exDescReserved }, .error (.positioned 1 1 (.unknownField "u")),
        [tokInt 3 "1" 1]⟩ :=
  ⟨rfl, rfl, rfl⟩

/-! ## Extensions: C11 -/

/-- An extension that the lookup of lines 166-180 has found, but whose number is
outside the extension ranges of the message or whose containing message is
another one, is refused by lines 182-189. -/
theorem resolveField_cannotBeExtended {d : decoder} {md : MessageDescriptor} {tok : Token}
    {nk : NameKind} {xt : FieldDescriptor}
    (hx : (∃ typeName, nk = .TypeName typeName ∧ d.findExtension typeName = .ok xt) ∨
      (∃ num, nk = .FieldNumber num ∧ FieldNumber.IsValid num = true ∧
        Fields.ByNumber md.Fields num = none ∧
        d.opts.Resolver.FindExtensionByNumber md.FullName num = .ok xt))
    (hbad : ExtensionRanges.Has md.ExtensionRanges xt.Number = false ∨
      xt.ContainingMessage ≠ md.FullName) :
    d.resolveField md tok nk =
      .error (d.newError tok.Pos (.cannotBeExtended md.FullName xt.FullName)) := by
  have hc : (!ExtensionRanges.Has md.ExtensionRanges xt.Number
      || decide (xt.ContainingMessage ≠ md.FullName)) = true := by
    rcases hbad with h | h <;> simp [h]
  rcases hx with ⟨typeName, rfl, hf⟩ | ⟨num, rfl, hv, hn, hf⟩
  · simp only [decoder.resolveField, hf]
    rw [if_pos hc]
  · simp only [decoder.resolveField, hv, hn, hf]
    simp only [Bool.not_true, Bool.false_eq_true, if_false]
    rw [if_pos hc]

/-- C11, the claim as stated, fails at `x: 1 [ex.bad]: 2`, where the resolver
finds the extension `ex.bad` of another message: `Unmarshal` fails with "cannot
be extended", and the field `x`, which preceded the extension, stays set to 1
in the target message. -/
theorem C11_counterexample :
    Unmarshal extDecoder 10
        [tokIdent 0 "x" true, tokInt 3 "1" 1, tokType 5 "ex.bad", tokInt 15 "2" 2]
        { Descriptor := exDesc } =
      ⟨{ Descriptor := exDesc, known := [(3, .int32 1)] },
        .error (.positioned 1 6 (.cannotBeExtended "ex.M" "ex.bad")), [tokInt 15 "2" 2]⟩ :=
  rfl

/-- C11, amended. When the name read in a frame of `unmarshalMessage` is a
bracketed type name for which `findExtension` returns the extension `xt`, or a
valid number of no field of the message for which the resolver returns `xt`,
and the number of `xt` is outside the extension ranges of the message or the
containing message of `xt` is another one, the call returns the error "message
... cannot be extended by ..." at that name: the value is not read and the
message is returned as the frame held it. When the frame is the one of the
target message, reached by a run of the top-level loop, `Unmarshal` fails with
that error and returns the target with what the fields before the extension
have set, and nothing more; when the extension is the first field, the target
is returned reset. -/
theorem C11_extension_safety (d : decoder) (fuel : Nat) (cd : Bool) (s : Frame) (tok : Token)
    (rest : List Token) (nk : NameKind) (sep : Bool) (xt : FieldDescriptor)
    (hr : d.Read s.toks = some (tok, rest)) (hb : tok.body = .Name nk sep)
    (hx : (∃ typeName, nk = .TypeName typeName ∧ d.findExtension typeName = .ok xt) ∨
      (∃ num, nk = .FieldNumber num ∧ FieldNumber.IsValid num = true ∧
        Fields.ByNumber s.m.Descriptor.Fields num = none ∧
        d.opts.Resolver.FindExtensionByNumber s.m.Descriptor.FullName num = .ok xt))
    (hbad : ExtensionRanges.Has s.m.Descriptor.ExtensionRanges xt.Number = false ∨
      xt.ContainingMessage ≠ s.m.Descriptor.FullName) :
    d.unmarshalMessageLoop (fuel + 1) cd s =
      ⟨s.m, d.newError tok.Pos (.cannotBeExtended s.m.Descriptor.FullName xt.FullName), rest⟩ ∧
    (∀ (f0 : Nat) (m : Message) (toks : List Token),
      (!d.ProtoLegacy && m.Descriptor.IsMessageSet) = false →
      m.Descriptor.FullName ≠ "google.protobuf.Any" →
      d.Reaches false f0 ⟨{ m with known := [] }, [], [], toks⟩ (fuel + 1) s →
      Unmarshal d (f0 + 1) toks m =
        ⟨s.m, d.newError tok.Pos (.cannotBeExtended s.m.Descriptor.FullName xt.FullName),
          rest⟩) ∧
    (∀ (m : Message),
      (!d.ProtoLegacy && m.Descriptor.IsMessageSet) = false →
      m.Descriptor.FullName ≠ "google.protobuf.Any" →
      s = ⟨{ m with known := [] }, [], [], s.toks⟩ →
      Unmarshal d (fuel + 2) s.toks m =
        ⟨{ m with known := [] },
          d.newError tok.Pos (.cannotBeExtended m.Descriptor.FullName xt.FullName), rest⟩) := by
  have hloop : ∀ cd1, d.unmarshalMessageLoop (fuel + 1) cd1 s =
      ⟨s.m, d.newError tok.Pos (.cannotBeExtended s.m.Descriptor.FullName xt.FullName),
        rest⟩ := by
    intro cd1
    apply loop_of_ret
    simp only [decoder.iter, decoder.unmarshalMessageIter, hr, hb,
      resolveField_cannotBeExtended hx hbad]
  have htop : ∀ (f0 : Nat) (m : Message) (toks : List Token),
      (!d.ProtoLegacy && m.Descriptor.IsMessageSet) = false →
      m.Descriptor.FullName ≠ "google.protobuf.Any" →
      d.Reaches false f0 ⟨{ m with known := [] }, [], [], toks⟩ (fuel + 1) s →
      Unmarshal d (f0 + 1) toks m =
        ⟨s.m, d.newError tok.Pos (.cannotBeExtended s.m.Descriptor.FullName xt.FullName),
          rest⟩ := by
    intro f0 m toks hms hany hreach
    have h1 := (unmarshalMessage_loop d f0 { m with known := [] } toks hms hany).1
    rw [loop_of_reaches hreach, hloop false] at h1
    simp only [Unmarshal, h1, decoder.newError]
  refine ⟨hloop cd, htop, ?_⟩
  intro m hms hany hs
  have h3 : ∀ s1 : Frame, s = s1 → d.Reaches false (fuel + 1) s1 (fuel + 1) s :=
    fun s1 h => h ▸ decoder.Reaches.here (fuel + 1) s
  rw [htop (fuel + 1) m s.toks hms hany (h3 _ hs), hs]

/-- The extension `ex.bad` as the first field of the input, and after the field
`x`. -/
theorem C11_extension_safety_witness :
    Unmarshal extDecoder 6 [tokType 0 "ex.bad", tokInt 10 "2" 2]
        { Descriptor := exDesc, known := [(3, .int32 7)] } =
      ⟨{ Descriptor := exDesc },
        .error (.positioned 1 1 (.cannotBeExtended "ex.M" "ex.bad")), [tokInt 10 "2" 2]⟩ :=
  (C11_extension_safety extDecoder 4 false
    ⟨{ Descriptor := exDesc }, [], [], [tokType 0 "ex.bad", tokInt 10 "2" 2]⟩
    (tokType 0 "ex.bad") [tokInt 10 "2" 2] (.TypeName "ex.bad") false
    { Name := "bad", FullName := "ex.bad", Number := 100, Kind := .Int32Kind,
      ContainingMessage := "other.M" }
    rfl rfl (Or.inl ⟨"ex.bad", rfl, rfl⟩) (Or.inl rfl)).2.2
    { Descriptor := exDesc, known := [(3, .int32 7)] } rfl (by decide) rfl

/-! ## Group names: C18 -/

/-- C18. Let `g` be a group field of the message, found under its proto name,
whose proto name is the lowercase form of the declared name `N` of its group
message; let no other field of the message bear the name `N` (the names
declared in the scope of a message are distinct) and let `g` not be a weak
field. Then lines 151-164 resolve an identifier to `g` if and only if the
identifier is `N`. When the proto name differs from `N`, the identifier that
spells the proto name resolves to no field, and the pass of the loop that
reads it takes the unknown-field branch of lines 196-203: it skips the value
when `DiscardUnknown` is set or the name is reserved, and fails with "unknown
field" otherwise. -/
theorem C18_group_name_matching (d : decoder) (md : MessageDescriptor) (g : FieldDescriptor)
    (tok : Token)
    (hg : Fields.ByName md.Fields g.Name = some g) (hk : g.Kind = .GroupKind)
    (hlow : g.Name = ToLower g.MessageName)
    (hfree : g.MessageName ≠ g.Name → Fields.ByName md.Fields g.MessageName = none)
    (hweak : g.IsWeak = false) :
    (∀ ident, (∃ name b, d.resolveField md tok (.IdentName ident) = .ok ⟨name, some g, b⟩) ↔
      ident = g.MessageName) ∧
    d.resolveField md tok (.IdentName g.MessageName) = .ok ⟨g.MessageName, some g, false⟩ ∧
    (g.Name ≠ g.MessageName →
      d.resolveField md tok (.IdentName g.Name) = .ok ⟨g.Name, none, false⟩ ∧
      ∀ (fuel : Nat) (cd : Bool) (s : Frame) (rest : List Token) (sep : Bool),
        s.m.Descriptor = md → d.Read s.toks = some (tok, rest) →
        tok.body = .Name (.IdentName g.Name) sep →
        d.iter fuel cd s =
          if (d.opts.DiscardUnknown || md.ReservedNames.contains g.Name) = true then
            match (d.skipValue fuel rest).status with
            | .outOfFuel => .ret ⟨s.m, .outOfFuel, (d.skipValue fuel rest).rest⟩
            | .panicked v => .ret ⟨s.m, .panicked v, (d.skipValue fuel rest).rest⟩
            | _ => .next { s with toks := (d.skipValue fuel rest).rest }
          else .ret ⟨s.m, d.newError tok.Pos (.unknownField tok.RawString), rest⟩) := by
  have hN : d.resolveField md tok (.IdentName g.MessageName) =
      .ok ⟨g.MessageName, some g, false⟩ := by
    by_cases hN : g.MessageName = g.Name
    · have h0 : Fields.ByName md.Fields g.MessageName = some g := by rw [hN]; exact hg
      simp [decoder.resolveField, h0, hk, hweak]
    · have h0 := hfree hN
      have h1 : Fields.ByName md.Fields (ToLower g.MessageName) = some g := by
        rw [← hlow]; exact hg
      simp [decoder.resolveField, h0, h1, hk, hweak]
  refine ⟨fun ident => ⟨?_, fun h => ⟨_, _, h ▸ hN⟩⟩, hN, ?_⟩
  · rintro ⟨name, b, h⟩
    by_contra hid
    cases h0 : Fields.ByName md.Fields ident with
    | none =>
      cases h1 : Fields.ByName md.Fields (ToLower ident) with
      | none => simp [decoder.resolveField, h0, h1] at h
      | some gd =>
        by_cases hc : gd.Kind = .GroupKind ∧ gd.MessageName = ident
        · simp [decoder.resolveField, h0, h1, hc] at h
          have h2 := h.2.1
          have hgd : gd = g := by
            repeat' split at h2
            all_goals simp at h2
            all_goals exact h2
          rw [hgd] at hc
          exact hid hc.2.symm
        · simp [decoder.resolveField, h0, h1, hc] at h
    | some fd =>
      by_cases hc : fd.Kind = .GroupKind ∧ fd.MessageName ≠ ident
      · simp [decoder.resolveField, h0, hc] at h
      · simp [decoder.resolveField, h0, hc] at h
        have h2 := h.2.1
        have hfd : fd = g := by
          repeat' split at h2
          all_goals simp at h2
          all_goals exact h2
        rw [hfd] at hc
        exact hc ⟨hk, fun h3 => hid h3.symm⟩
  · intro hne
    have hres : d.resolveField md tok (.IdentName g.Name) = .ok ⟨g.Name, none, false⟩ := by
      have hne2 : ¬ g.MessageName = g.Name := fun h => hne h.symm
      simp [decoder.resolveField, hg, hk, hne2]
    refine ⟨hres, ?_⟩
    intro fuel cd s rest sep hmd hr hb
    subst hmd
    simp only [decoder.iter, decoder.unmarshalMessageIter, hr, hb, hres]

/-- The group field `grp` of `exDescGroup`, whose group message is declared as
`Grp`: the identifier `Grp` resolves to it, the identifier `grp` to no field. -/
theorem C18_group_name_matching_witness :
    (exDecoder false).resolveField exDescGroup (tokIdent 0 "grp" false) (.IdentName "Grp") =
      .ok ⟨"Grp",
        some { Name := "grp", Number := 1, Kind := .GroupKind, Message := "ex.G.Grp",
               MessageName := "Grp" }, false⟩ ∧
    (exDecoder false).resolveField exDescGroup (tokIdent 0 "grp" false) (.IdentName "grp") =
      .ok ⟨"grp", none, false⟩ :=
  have h := C18_group_name_matching (exDecoder false) exDescGroup
    { Name := "grp", Number := 1, Kind := .GroupKind, Message := "ex.G.Grp",
      MessageName := "Grp" }
    (tokIdent 0 "grp" false) rfl rfl (by decide) (fun _ => rfl) rfl
  ⟨h.2.1, (h.2.2 (by decide)).1⟩

/-! ## Lists of scalars: C16 -/

/-- The call `unmarshalScalar` reads one token: its value and its verdict depend
on the first token only, and the input after that token is what it leaves. -/
theorem unmarshalScalar_cons (d : decoder) (fd : FieldDescriptor) (tok : Token)
    (rest : List Token) :
    d.unmarshalScalar fd (tok :: rest) =
      ⟨(d.unmarshalScalar fd [tok]).val, (d.unmarshalScalar fd [tok]).status, rest⟩ := by
  simp only [decoder.unmarshalScalar, decoder.Read]
  repeat' split
  all_goals rfl

/-- A token that `unmarshalScalar` accepts is a scalar token. -/
theorem scalar_of_accepted {d : decoder} {fd : FieldDescriptor} {tok : Token}
    (h : (d.unmarshalScalar fd [tok]).status = .ok) : tok.Kind = text.Kind.Scalar := by
  by_contra hk
  simp [decoder.unmarshalScalar, decoder.Read, hk, decoder.unexpectedTokenError,
    decoder.syntaxError] at h

/-- The loop of `unmarshalList` over accepted scalars up to the closing bracket. -/
theorem unmarshalListScalars_run (d : decoder) (fd : FieldDescriptor) (fuel : Nat)
    (tclose : Token) (suffix : List Token) (hc : tclose.Kind = text.Kind.ListClose) :
    ∀ (ss : List Token) (L : List Value),
      (∀ s ∈ ss, (d.unmarshalScalar fd [s]).status = .ok) →
      d.unmarshalListScalars (fuel + ss.length + 1) fd L (ss ++ tclose :: suffix) =
        ⟨L ++ ss.map (fun s => (d.unmarshalScalar fd [s]).val), .ok, suffix⟩ := by
  intro ss
  induction ss with
  | nil =>
    intro L _
    rw [decoder.unmarshalListScalars]
    simp [decoder.Read, hc]
  | cons s ss ih =>
    intro L hacc
    have hs := hacc s (List.mem_cons_self s ss)
    have hfuel : fuel + (s :: ss).length + 1 = (fuel + ss.length + 1) + 1 := rfl
    rw [hfuel, decoder.unmarshalListScalars]
    simp only [List.cons_append, decoder.Read, scalar_of_accepted hs]
    rw [unmarshalScalar_cons]
    simp only [hs]
    rw [ih (L ++ [(d.unmarshalScalar fd [s]).val])
      (fun t ht => hacc t (List.mem_cons_of_mem s ht))]
    simp

/-- C16. For a list field of primitive or enum kind, any prior content `L` of the
list and an input that starts with `[`, the scalar tokens `ss`, each accepted
by `unmarshalScalar` for the field, and `]`: `unmarshalList` succeeds, leaves
the input after the `]`, and returns `L` followed by the values of the scalars
in input order; for `[]` it returns `L`. For an input that starts with one
accepted scalar, it reads that token alone and returns `L` followed by its
value. -/
theorem C16_scalar_list (d : decoder) (fd : FieldDescriptor) (fuel : Nat) (L : List Value)
    (topen tclose : Token) (ss suffix : List Token)
    (hkind : fd.Kind ≠ .MessageKind ∧ fd.Kind ≠ .GroupKind)
    (ho : topen.Kind = text.Kind.ListOpen) (hc : tclose.Kind = text.Kind.ListClose)
    (hacc : ∀ s ∈ ss, s.Kind = text.Kind.Scalar ∧ (d.unmarshalScalar fd [s]).status = .ok) :
    d.unmarshalList (fuel + ss.length + 2) fd L (topen :: (ss ++ tclose :: suffix)) =
      ⟨L ++ ss.map (fun s => (d.unmarshalScalar fd [s]).val), .ok, suffix⟩ ∧
    d.unmarshalList (fuel + 2) fd L (topen :: tclose :: suffix) = ⟨L, .ok, suffix⟩ ∧
    (∀ s ∈ ss, d.unmarshalList (fuel + 1) fd L (s :: suffix) =
      ⟨L ++ [(d.unmarshalScalar fd [s]).val], .ok, suffix⟩) := by
  have hk : ¬(fd.Kind = .MessageKind ∨ fd.Kind = .GroupKind) := by
    rintro (h | h)
    · exact hkind.1 h
    · exact hkind.2 h
  refine ⟨?_, ?_, ?_⟩
  · have hfuel : fuel + ss.length + 2 = (fuel + ss.length + 1) + 1 := rfl
    rw [hfuel, decoder.unmarshalList]
    simp only [decoder.Read, hk, if_false, ho]
    exact unmarshalListScalars_run d fd fuel tclose suffix hc ss L (fun s hs => (hacc s hs).2)
  · have hfuel : fuel + 2 = (fuel + 1) + 1 := rfl
    rw [hfuel, decoder.unmarshalList]
    simp only [decoder.Read, hk, if_false, ho]
    have h := unmarshalListScalars_run d fd fuel tclose suffix hc [] L (fun s hs => by cases hs)
    simpa using h
  · intro s hs
    rw [decoder.unmarshalList]
    simp only [decoder.Read, hk, if_false, (hacc s hs).1]
    rw [unmarshalScalar_cons]
    simp only [(hacc s hs).2]

/-- The input `[1 2] x` for the repeated int32 field `r` after the content 7. -/
theorem C16_scalar_list_witness :
    (exDecoder false).unmarshalList 4
        { Name := "r", Number := 4, Kind := .Int32Kind, IsList := true } [.int32 7]
        [tokListOpen 0, tokInt 1 "1" 1, tokInt 3 "2" 2, tokListClose 4, tokIdent 6 "x" true] =
      ⟨[.int32 7, .int32 1, .int32 2], .ok, [tokIdent 6 "x" true]⟩ :=
  (C16_scalar_list (exDecoder false)
    { Name := "r", Number := 4, Kind := .Int32Kind, IsList := true } 0 [.int32 7]
    (tokListOpen 0) (tokListClose 4) [tokInt 1 "1" 1, tokInt 3 "2" 2] [tokIdent 6 "x" true]
    (by decide) rfl rfl
    (by
      intro s hs
      simp only [List.mem_cons, List.mem_singleton, List.not_mem_nil, or_false] at hs
      rcases hs with rfl | rfl <;> exact ⟨rfl, rfl⟩)).1

/-! ## Map entries: C14, C15 -/

/-- A value that `unmarshalScalar` returns with success is a valid value. -/
theorem unmarshalScalar_valid {d : decoder} {fd : FieldDescriptor} {toks : List Token}
    (h : (d.unmarshalScalar fd toks).status = .ok) :
    (d.unmarshalScalar fd toks).val.IsValid = true := by
  simp only [decoder.unmarshalScalar] at h ⊢
  repeat' split at h
  all_goals
    simp_all [decoder.newError, decoder.unexpectedTokenError, decoder.syntaxError,
      Value.IsValid]

/-- A value that `unmarshalMapValue` returns with success is a valid value. -/
theorem unmarshalMapValue_valid {d : decoder} {fuel : Nat} {fd : FieldDescriptor}
    {toks : List Token} (h : (d.unmarshalMapValue fuel fd toks).status = .ok) :
    (d.unmarshalMapValue fuel fd toks).val.IsValid = true := by
  cases fuel with
  | zero => simp [decoder.unmarshalMapValue] at h
  | succ n =>
    rw [decoder.unmarshalMapValue] at h ⊢
    by_cases hk : fd.MapValue.Kind = .MessageKind ∨ fd.MapValue.Kind = .GroupKind
    · simp only [hk, if_true] at h ⊢
      split at h
      · rename_i hs
        simp only [hs]
        rfl
      · rename_i hs
        simp at h
        exact absurd h (hs)
    · simp only [hk, if_false] at h ⊢
      exact unmarshalScalar_valid h

/-- The pass of the loop of `unmarshalMapEntry` that reads the closing brace. -/
theorem entryLoop_close {d : decoder} {fd : FieldDescriptor} {fuel : Nat} {key pval : Value}
    {toks : List Token} {tok : Token} {rest : List Token}
    (hr : d.Read toks = some (tok, rest)) (hb : tok.body = .MessageClose) :
    d.unmarshalMapEntryLoop (fuel + 1) fd key pval toks = ⟨(key, pval), .ok, rest⟩ := by
  rw [decoder.unmarshalMapEntryLoop]
  simp only [hr, hb]

/-- Along a run of the loop of `unmarshalMapEntry` the call of the loop keeps
its result. -/
theorem entryLoop_of_reaches {d : decoder} {fd : FieldDescriptor} {fuel : Nat}
    {pk pv : Option Value} {toks : List Token} {fuel2 : Nat} {pk2 pv2 : Option Value}
    {toks2 : List Token} (h : d.EntryReaches fd fuel pk pv toks fuel2 pk2 pv2 toks2) :
    d.unmarshalMapEntryLoop fuel fd (pk.getD .invalid) (pv.getD .invalid) toks =
      d.unmarshalMapEntryLoop fuel2 fd (pk2.getD .invalid) (pv2.getD .invalid) toks2 := by
  induction h with
  | here => rfl
  | key hr hb hs _ ih =>
    rw [decoder.unmarshalMapEntryLoop]
    simp only [hr, hb, hs, Option.getD_none, Value.IsValid]
    simpa using ih
  | value hr hb hsep hs _ ih =>
    rw [decoder.unmarshalMapEntryLoop]
    have hc : ∀ b : Bool,
        (fd.MapValue.Kind = .MessageKind ∨ fd.MapValue.Kind = .GroupKind ∨ b = true) →
        ¬((¬fd.MapValue.Kind = .MessageKind ∧ ¬fd.MapValue.Kind = .GroupKind) ∧ b = false) := by
      intro b h1
      rcases h1 with h1 | h1 | h1 <;> simp [h1]
    simp only [hr, hb, hs, Option.getD_none, Value.IsValid]
    simp [hc _ hsep]
    simpa using ih
  | @skip fuel pk pv toks tok rest nk sep fuel2 pk2 pv2 toks2 hr hb hk hv hdu ho hp _ ih =>
    rw [decoder.unmarshalMapEntryLoop]
    simp only [hr, hb]
    cases nk with
    | IdentName name =>
      have h1 : ¬name = "key" := fun h => hk (by rw [h])
      have h2 : ¬name = "value" := fun h => hv (by rw [h])
      simp only [h1, h2, if_false, hdu]
      cases hst : (d.skipValue _ _).status with
      | outOfFuel => exact absurd hst ho
      | panicked v => exact absurd hst (hp v)
      | ok => simpa [hst] using ih
      | error e => simpa [hst] using ih
    | TypeName _ =>
      simp only [hdu]
      cases hst : (d.skipValue _ _).status with
      | outOfFuel => exact absurd hst ho
      | panicked v => exact absurd hst (hp v)
      | ok => simpa [hst] using ih
      | error e => simpa [hst] using ih
    | FieldNumber _ =>
      simp only [hdu]
      cases hst : (d.skipValue _ _).status with
      | outOfFuel => exact absurd hst ho
      | panicked v => exact absurd hst (hp v)
      | ok => simpa [hst] using ih
      | error e => simpa [hst] using ih

/-- The values that a run of the loop of `unmarshalMapEntry` records are valid. -/
theorem entryReaches_valid {d : decoder} {fd : FieldDescriptor} {fuel : Nat}
    {pk pv : Option Value} {toks : List Token} {fuel2 : Nat} {pk2 pv2 : Option Value}
    {toks2 : List Token} (h : d.EntryReaches fd fuel pk pv toks fuel2 pk2 pv2 toks2)
    (hk : ∀ k, pk = some k → k.IsValid = true) (hv : ∀ v, pv = some v → v.IsValid = true) :
    (∀ k, pk2 = some k → k.IsValid = true) ∧ (∀ v, pv2 = some v → v.IsValid = true) := by
  induction h with
  | here => exact ⟨hk, hv⟩
  | key _ _ hs _ ih =>
    exact ih (fun k h => by cases h; exact unmarshalScalar_valid hs) hv
  | value _ _ _ hs _ ih =>
    exact ih hk (fun v h => by cases h; exact unmarshalMapValue_valid hs)
  | skip _ _ _ _ _ _ _ _ ih => exact ih hk hv

/-- A call of the loop of `unmarshalMapEntry` that succeeds has made a run up
to a closing brace. -/
theorem entryReaches_of_ok (d : decoder) (fd : FieldDescriptor) :
    ∀ (fuel : Nat) (pk pv : Option Value) (toks : List Token),
      (∀ k, pk = some k → k.IsValid = true) → (∀ v, pv = some v → v.IsValid = true) →
      (d.unmarshalMapEntryLoop fuel fd (pk.getD .invalid) (pv.getD .invalid) toks).status = .ok →
      ∃ fuel2 pk2 pv2 toks2 tok rest,
        d.EntryReaches fd fuel pk pv toks (fuel2 + 1) pk2 pv2 toks2 ∧
        d.Read toks2 = some (tok, rest) ∧ tok.body = .MessageClose := by
  intro fuel
  induction fuel with
  | zero =>
    intro pk pv toks _ _ h
    simp [decoder.unmarshalMapEntryLoop] at h
  | succ n ih =>
    intro pk pv toks hk hv h
    rw [decoder.unmarshalMapEntryLoop] at h
    cases hr : d.Read toks with
    | none => simp [hr] at h
    | some p =>
      obtain ⟨tok, rest⟩ := p
      simp only [hr] at h
      have hskip : ∀ nk sep, tok.body = .Name nk sep → nk ≠ .IdentName "key" →
          nk ≠ .IdentName "value" → d.opts.DiscardUnknown = true →
          (d.skipValue n rest).status ≠ .outOfFuel →
          (∀ v, (d.skipValue n rest).status ≠ .panicked v) →
          (d.unmarshalMapEntryLoop n fd (pk.getD .invalid) (pv.getD .invalid)
            (d.skipValue n rest).rest).status = .ok →
          ∃ fuel2 pk2 pv2 toks2 tok rest,
            d.EntryReaches fd (n + 1) pk pv toks (fuel2 + 1) pk2 pv2 toks2 ∧
            d.Read toks2 = some (tok, rest) ∧ tok.body = .MessageClose := by
        intro nk sep hb h1 h2 hdu ho hp hrec
        obtain ⟨f2, pk2, pv2, t2, tk, rs, hrun, hr2, hb2⟩ := ih pk pv _ hk hv hrec
        exact ⟨f2, pk2, pv2, t2, tk, rs, .skip hr hb h1 h2 hdu ho hp hrun, hr2, hb2⟩
      cases hb : tok.body with
      | EOF => simp [hb, decoder.unexpectedTokenError, decoder.syntaxError] at h
      | Scalar _ => simp [hb, decoder.unexpectedTokenError, decoder.syntaxError] at h
      | MessageOpen => simp [hb, decoder.unexpectedTokenError, decoder.syntaxError] at h
      | ListOpen => simp [hb, decoder.unexpectedTokenError, decoder.syntaxError] at h
      | ListClose => simp [hb, decoder.unexpectedTokenError, decoder.syntaxError] at h
      | MessageClose => exact ⟨n, pk, pv, toks, tok, rest, .here _ _ _ _, hr, hb⟩
      | Name nk sep =>
        simp only [hb] at h
        cases nk with
        | IdentName name =>
          simp only at h
          by_cases hkey : name = "key"
          · subst hkey
            simp only [if_true] at h
            cases sep with
            | false => simp [decoder.syntaxError] at h
            | true =>
              cases pk with
              | some k => simp [hk k rfl, decoder.newError] at h
              | none =>
                simp only [Option.getD_none, Value.IsValid] at h
                cases hs : (d.unmarshalScalar fd.MapKey rest).status with
                | ok =>
                  simp [hs] at h
                  obtain ⟨f2, pk2, pv2, t2, tk, rs, hrun, hr2, hb2⟩ :=
                    ih (some (d.unmarshalScalar fd.MapKey rest).val) pv _
                      (fun k hk1 => by cases hk1; exact unmarshalScalar_valid hs) hv h
                  exact ⟨f2, pk2, pv2, t2, tk, rs, .key hr hb hs hrun, hr2, hb2⟩
                | error e => simp [hs] at h
                | panicked v => simp [hs] at h
                | outOfFuel => simp [hs] at h
          · by_cases hval : name = "value"
            · subst hval
              rw [if_neg (by decide), if_pos rfl] at h
              by_cases hc : (fd.MapValue.Kind ≠ .MessageKind ∧ fd.MapValue.Kind ≠ .GroupKind) ∧
                  (!sep) = true
              · simp [hc, decoder.syntaxError] at h
              · have hsep : fd.MapValue.Kind = .MessageKind ∨ fd.MapValue.Kind = .GroupKind ∨
                    sep = true := by
                  by_cases h1 : fd.MapValue.Kind = .MessageKind
                  · exact Or.inl h1
                  · by_cases h2 : fd.MapValue.Kind = .GroupKind
                    · exact Or.inr (Or.inl h2)
                    · cases sep with
                      | true => exact Or.inr (Or.inr rfl)
                      | false => exact absurd ⟨⟨h1, h2⟩, rfl⟩ hc
                rw [if_neg hc] at h
                cases pv with
                | some v => simp [hv v rfl, decoder.newError] at h
                | none =>
                  simp only [Option.getD_none, Value.IsValid] at h
                  cases hs : (d.unmarshalMapValue n fd rest).status with
                  | ok =>
                    simp [hs] at h
                    obtain ⟨f2, pk2, pv2, t2, tk, rs, hrun, hr2, hb2⟩ :=
                      ih pk (some (d.unmarshalMapValue n fd rest).val) _ hk
                        (fun v hv1 => by cases hv1; exact unmarshalMapValue_valid hs) h
                    exact ⟨f2, pk2, pv2, t2, tk, rs, .value hr hb hsep hs hrun, hr2, hb2⟩
                  | error e => simp [hs] at h
                  | panicked v => simp [hs] at h
                  | outOfFuel => simp [hs] at h
            · rw [if_neg hkey, if_neg hval] at h
              have hn1 : NameKind.IdentName name ≠ .IdentName "key" := by
                intro h1; cases h1; exact hkey rfl
              have hn2 : NameKind.IdentName name ≠ .IdentName "value" := by
                intro h1; cases h1; exact hval rfl
              cases hdu : d.opts.DiscardUnknown with
              | false => simp [hdu, decoder.newError] at h
              | true =>
                simp only [hdu, Bool.not_true, Bool.false_eq_true, if_false] at h
                cases hst : (d.skipValue n rest).status with
                | outOfFuel => simp [hst] at h
                | panicked v => simp [hst] at h
                | ok =>
                  simp only [hst] at h
                  exact hskip _ _ hb hn1 hn2 hdu (by simp [hst]) (by simp [hst]) h
                | error e =>
                  simp only [hst] at h
                  exact hskip _ _ hb hn1 hn2 hdu (by simp [hst]) (by simp [hst]) h
        | TypeName tn =>
          simp only at h
          cases hdu : d.opts.DiscardUnknown with
          | false => simp [hdu, decoder.newError] at h
          | true =>
            simp only [hdu, Bool.not_true, Bool.false_eq_true, if_false] at h
            cases hst : (d.skipValue n rest).status with
            | outOfFuel => simp [hst] at h
            | panicked v => simp [hst] at h
            | ok =>
              simp only [hst] at h
              exact hskip _ _ hb (by simp) (by simp) hdu (by simp [hst]) (by simp [hst]) h
            | error e =>
              simp only [hst] at h
              exact hskip _ _ hb (by simp) (by simp) hdu (by simp [hst]) (by simp [hst]) h
        | FieldNumber num =>
          simp only at h
          cases hdu : d.opts.DiscardUnknown with
          | false => simp [hdu, decoder.newError] at h
          | true =>
            simp only [hdu, Bool.not_true, Bool.false_eq_true, if_false] at h
            cases hst : (d.skipValue n rest).status with
            | outOfFuel => simp [hst] at h
            | panicked v => simp [hst] at h
            | ok =>
              simp only [hst] at h
              exact hskip _ _ hb (by simp) (by simp) hdu (by simp [hst]) (by simp [hst]) h
            | error e =>
              simp only [hst] at h
              exact hskip _ _ hb (by simp) (by simp) hdu (by simp [hst]) (by simp [hst]) h

/-- C14. Let the loop of `unmarshalMapEntry` make a run from the start of the
entry up to the closing brace, in which it has parsed the key `pk` (`none` when
no `key` field appeared) and the value `pv` (`none` when no `value` field
appeared). Then `unmarshalMapEntry` succeeds, leaves the input after the brace
and returns the map after the one `mmap.Set(k, v)`, where `k` is the parsed key
or else the default of the key field, and `v` is the parsed value or else, for
a value of message or group kind, a fresh empty message and, for the other
kinds, the default of the value field. Every call of `unmarshalMapEntry` that
succeeds has made such a run. -/
theorem C14_map_entry_defaults (d : decoder) (fd : FieldDescriptor)
    (mmap : List (Value × Value)) (fuel : Nat) (toks : List Token) :
    (∀ (fuel2 : Nat) (pk pv : Option Value) (toks2 : List Token) (tok : Token)
        (rest : List Token),
      d.EntryReaches fd fuel none none toks (fuel2 + 1) pk pv toks2 →
      d.Read toks2 = some (tok, rest) → tok.body = .MessageClose →
      d.unmarshalMapEntry (fuel + 1) fd mmap toks =
        ⟨mapSet mmap (pk.getD fd.MapKey.Default)
          (pv.getD
            (if fd.MapValue.Kind = .MessageKind ∨ fd.MapValue.Kind = .GroupKind then
              (d.NewField fd.MapValue).toValue
            else fd.MapValue.Default)), .ok, rest⟩) ∧
    ((d.unmarshalMapEntry (fuel + 1) fd mmap toks).status = .ok →
      ∃ (fuel2 : Nat) (pk pv : Option Value) (toks2 : List Token) (tok : Token)
          (rest : List Token),
        d.EntryReaches fd fuel none none toks (fuel2 + 1) pk pv toks2 ∧
        d.Read toks2 = some (tok, rest) ∧ tok.body = .MessageClose ∧
        d.unmarshalMapEntry (fuel + 1) fd mmap toks =
          ⟨mapSet mmap (pk.getD fd.MapKey.Default)
            (pv.getD
              (if fd.MapValue.Kind = .MessageKind ∨ fd.MapValue.Kind = .GroupKind then
                (d.NewField fd.MapValue).toValue
              else fd.MapValue.Default)), .ok, rest⟩) := by
  have h1 : ∀ (fuel2 : Nat) (pk pv : Option Value) (toks2 : List Token) (tok : Token)
        (rest : List Token),
      d.EntryReaches fd fuel none none toks (fuel2 + 1) pk pv toks2 →
      d.Read toks2 = some (tok, rest) → tok.body = .MessageClose →
      d.unmarshalMapEntry (fuel + 1) fd mmap toks =
        ⟨mapSet mmap (pk.getD fd.MapKey.Default)
          (pv.getD
            (if fd.MapValue.Kind = .MessageKind ∨ fd.MapValue.Kind = .GroupKind then
              (d.NewField fd.MapValue).toValue
            else fd.MapValue.Default)), .ok, rest⟩ := by
    intro fuel2 pk pv toks2 tok rest hrun hr hb
    have hloop := entryLoop_of_reaches hrun
    rw [@entryLoop_close d fd fuel2 _ _ toks2 tok rest hr hb] at hloop
    simp only [Option.getD_none] at hloop
    have hval := entryReaches_valid hrun (fun k h => by cases h) (fun v h => by cases h)
    rw [decoder.unmarshalMapEntry]
    simp only [hloop]
    have hi : Value.IsValid .invalid = false := rfl
    cases pk with
    | none =>
      cases pv with
      | none => simp [hi]
      | some v => simp [hi, hval.2 v rfl]
    | some k =>
      cases pv with
      | none => simp [hi, hval.1 k rfl]
      | some v => simp [hval.1 k rfl, hval.2 v rfl]
  refine ⟨h1, fun hok => ?_⟩
  have hl : (d.unmarshalMapEntryLoop fuel fd .invalid .invalid toks).status = .ok := by
    rw [decoder.unmarshalMapEntry] at hok
    cases hs : (d.unmarshalMapEntryLoop fuel fd .invalid .invalid toks).status with
    | ok => rfl
    | error e => simp [hs] at hok
    | panicked v => simp [hs] at hok
    | outOfFuel => simp [hs] at hok
  obtain ⟨f2, pk, pv, t2, tk, rs, hrun, hr, hb⟩ :=
    entryReaches_of_ok d fd fuel none none toks (fun k h => by cases h)
      (fun v h => by cases h) hl
  exact ⟨f2, pk, pv, t2, tk, rs, hrun, hr, hb, h1 f2 pk pv t2 tk rs hrun hr hb⟩

/-- The entry `value: 5 \x7d` of the map field `mp` from int32 to int32, with the
defaults 0: the key of the one `Set` is the default of the key field. -/
theorem C14_map_entry_defaults_witness :
    (exDecoder false).unmarshalMapEntry 4
        { Name := "mp", Number := 6, Kind := .MessageKind, IsMap := true,
          Message := "ex.M.MpEntry", MessageName := "MpEntry", MapKeyKind := .Int32Kind,
          MapKeyDefault := .int32 0, MapValueKind := .Int32Kind, MapValueDefault := .int32 0 }
        [] [tokIdent 1 "value" true, tokInt 8 "5" 5, tokClose 10] =
      ⟨[(.int32 0, .int32 5)], .ok, []⟩ :=
  (C14_map_entry_defaults (exDecoder false)
    { Name := "mp", Number := 6, Kind := .MessageKind, IsMap := true,
      Message := "ex.M.MpEntry", MessageName := "MpEntry", MapKeyKind := .Int32Kind,
      MapKeyDefault := .int32 0, MapValueKind := .Int32Kind, MapValueDefault := .int32 0 }
    [] 3 [tokIdent 1 "value" true, tokInt 8 "5" 5, tokClose 10]).1
    1 none (some (.int32 5)) [tokClose 10] (tokClose 10) []
    (.value rfl rfl (Or.inr (Or.inr rfl)) rfl (.here _ _ _ _)) rfl rfl

/-- C15, the claim as stated, fails at the entries `key: 1 key 2 \x7d` and
`value: 1 value 2 \x7d` of the map field `mp` from int32 to int32: the second
`key`, and the second `value`, has no `:`, and the separator checks of lines
537-539 and 550-554 come before the checks for a repeated field. The call ends
in the panic of `syntaxError` and does not return the error "cannot be
repeated". -/
theorem C15_counterexample :
    (exDecoder false).unmarshalMapEntry 6
        { Name := "mp", Number := 6, Kind := .MessageKind, IsMap := true,
          Message := "ex.M.MpEntry", MessageName := "MpEntry", MapKeyKind := .Int32Kind,
          MapKeyDefault := .int32 0, MapValueKind := .Int32Kind, MapValueDefault := .int32 0 }
        [] [tokIdent 1 "key" true, tokInt 6 "1" 1, tokIdent 8 "key" false, tokInt 12 "2" 2,
          tokClose 14] =
      ⟨[], .panicked "", [tokInt 12 "2" 2, tokClose 14]⟩ ∧
    (exDecoder false).unmarshalMapEntry 6
        { Name := "mp", Number := 6, Kind := .MessageKind, IsMap := true,
          Message := "ex.M.MpEntry", MessageName := "MpEntry", MapKeyKind := .Int32Kind,
          MapKeyDefault := .int32 0, MapValueKind := .Int32Kind, MapValueDefault := .int32 0 }
        [] [tokIdent 1 "value" true, tokInt 8 "1" 1, tokIdent 10 "value" false,
          tokInt 16 "2" 2, tokClose 18] =
      ⟨[], .panicked "", [tokInt 16 "2" 2, tokClose 18]⟩ :=
  ⟨rfl, rfl⟩

/-- C15, amended. Let the loop of `unmarshalMapEntry` make a run from the start
of the entry in which it has parsed a key, and let the next name be `key` with
a `:`; or let it have parsed a value, and let the next name be `value`, with a
`:` unless the value kind is message or group. Then `unmarshalMapEntry` returns
the error "map entry "key" cannot be repeated", or "map entry "value" cannot be
repeated", at that name, without reading what follows it, and returns the map
as it was passed: no `mmap.Set` is performed for the entry. -/
theorem C15_map_entry_duplicates (d : decoder) (fd : FieldDescriptor)
    (mmap : List (Value × Value)) (fuel : Nat) (toks : List Token)
    (fuel2 : Nat) (pk pv : Option Value) (toks2 : List Token) (tok : Token) (rest : List Token)
    (hrun : d.EntryReaches fd fuel none none toks (fuel2 + 1) pk pv toks2)
    (hr : d.Read toks2 = some (tok, rest)) :
    (pk ≠ none → tok.body = .Name (.IdentName "key") true →
      d.unmarshalMapEntry (fuel + 1) fd mmap toks =
        ⟨mmap, d.newError tok.Pos .mapKeyRepeated, rest⟩) ∧
    (∀ sep : Bool, pv ≠ none → tok.body = .Name (.IdentName "value") sep →
      (fd.MapValue.Kind = .MessageKind ∨ fd.MapValue.Kind = .GroupKind ∨ sep = true) →
      d.unmarshalMapEntry (fuel + 1) fd mmap toks =
        ⟨mmap, d.newError tok.Pos .mapValueRepeated, rest⟩) := by
  have hloop := entryLoop_of_reaches hrun
  have hval := entryReaches_valid hrun (fun k h => by cases h) (fun v h => by cases h)
  simp only [Option.getD_none] at hloop
  constructor
  · intro hpk hb
    cases pk with
    | none => exact absurd rfl hpk
    | some k =>
      have hk := hval.1 k rfl
      rw [decoder.unmarshalMapEntryLoop] at hloop
      simp only [hr, hb, Option.getD_some, hk] at hloop
      simp only [Bool.not_true, Bool.false_eq_true, if_false, if_true] at hloop
      rw [decoder.unmarshalMapEntry]
      simp only [hloop, decoder.newError]
  · intro sep hpv hb hsep
    cases pv with
    | none => exact absurd rfl hpv
    | some v =>
      have hv := hval.2 v rfl
      have hc : ¬((fd.MapValue.Kind ≠ .MessageKind ∧ fd.MapValue.Kind ≠ .GroupKind) ∧
          (!sep) = true) := by
        rcases hsep with h1 | h1 | h1 <;> simp [h1]
      rw [decoder.unmarshalMapEntryLoop] at hloop
      simp only [hr, hb, Option.getD_some, hv] at hloop
      simp only [if_true, hc, if_false] at hloop
      rw [if_neg (by decide)] at hloop
      rw [decoder.unmarshalMapEntry]
      simp only [hloop, decoder.newError]

/-- The entry `key: 1 key: 2 \x7d` of the map field `mp`. -/
theorem C15_map_entry_duplicates_witness :
    (exDecoder false).unmarshalMapEntry 6
        { Name := "mp", Number := 6, Kind := .MessageKind, IsMap := true,
          Message := "ex.M.MpEntry", MessageName := "MpEntry", MapKeyKind := .Int32Kind,
          MapKeyDefault := .int32 0, MapValueKind := .Int32Kind, MapValueDefault := .int32 0 }
        [(.int32 9, .int32 9)]
        [tokIdent 1 "key" true, tokInt 6 "1" 1, tokIdent 8 "key" true, tokInt 13 "2" 2,
          tokClose 15] =
      ⟨[(.int32 9, .int32 9)], .error (.positioned 1 9 .mapKeyRepeated),
        [tokInt 13 "2" 2, tokClose 15]⟩ :=
  (C15_map_entry_duplicates (exDecoder false)
    { Name := "mp", Number := 6, Kind := .MessageKind, IsMap := true,
      Message := "ex.M.MpEntry", MessageName := "MpEntry", MapKeyKind := .Int32Kind,
      MapKeyDefault := .int32 0, MapValueKind := .Int32Kind, MapValueDefault := .int32 0 }
    [(.int32 9, .int32 9)] 5
    [tokIdent 1 "key" true, tokInt 6 "1" 1, tokIdent 8 "key" true, tokInt 13 "2" 2, tokClose 15]
    3 (some (.int32 1)) none [tokIdent 8 "key" true, tokInt 13 "2" 2, tokClose 15]
    (tokIdent 8 "key" true) [tokInt 13 "2" 2, tokClose 15]
    (.key rfl rfl rfl (.here _ _ _ _)) rfl).1 (by simp) rfl

/-! ## The skip machine: C21, C22 -/

/-- C21, at the failing inputs. For `[\x7b\x7d 2] x` the loop of lines 749-767
returns at the end of the first nested message and leaves `2 ] x` unread. For
`[1] ms: [\x7b\x7d]` the call `skipValue` made for the item `1` reads the closing
bracket, and the loop runs on through the next field to the end of the input.
A single scalar, and a message of name and scalar pairs, are skipped exactly. -/
theorem C21_skip_list_diverges :
    (exDecoder true).skipValue 10
        [tokListOpen 0, tokOpen 1, tokClose 2, tokInt 4 "2" 2, tokListClose 5,
          tokIdent 7 "x" true] =
      ⟨(), .ok, [tokInt 4 "2" 2, tokListClose 5, tokIdent 7 "x" true]⟩ ∧
    (exDecoder true).skipValue 10
        [tokListOpen 0, tokInt 1 "1" 1, tokListClose 2,
          tokIdent 4 "ms" true, tokListOpen 8, tokOpen 9, tokClose 10, tokListClose 11] =
      ⟨(), .ok, []⟩ ∧
    (exDecoder true).skipValue 10 [tokInt 0 "1" 1, tokIdent 2 "x" true] =
      ⟨(), .ok, [tokIdent 2 "x" true]⟩ ∧
    (exDecoder true).skipValue 10
        [tokOpen 0, tokIdent 1 "a" true, tokInt 4 "1" 1, tokClose 5, tokIdent 7 "x" true] =
      ⟨(), .ok, [tokIdent 7 "x" true]⟩ :=
  ⟨rfl, rfl, rfl, rfl⟩

/-- At the end of a complete input the loop of `skipValue` inside a list reads
the `EOF` token as an item in every pass: no amount of fuel ends it. -/
theorem skipValueList_spins (d : decoder) (pos : Nat) (h : d.EndOfInput = some pos) :
    ∀ n, (d.skipValueList n []).status = .outOfFuel ∧ (d.skipValueList n []).rest = [] := by
  intro n
  induction n with
  | zero => exact ⟨rfl, rfl⟩
  | succ n ih =>
    rw [decoder.skipValueList]
    simp only [decoder.Read, h, Token.Kind]
    cases n with
    | zero => exact ⟨rfl, rfl⟩
    | succ m =>
      rw [decoder.skipValue]
      simp only [decoder.Read, h, Token.Kind]
      exact ih

/-- C22, at the failing input: the complete input `u: [1]` with `DiscardUnknown`
set, where `u` is unknown. The call `skipValue` made for the item `1` reads the
closing bracket, so the loop of lines 749-767 goes on at top level, where the
tokenizer answers every `Read` with the `EOF` token: each pass reads `EOF`
twice and consumes nothing, and the call of `Unmarshal` returns for no amount
of fuel. -/
theorem C22_skip_never_returns :
    ∀ fuel : Nat,
      (Unmarshal (exDecoder true) fuel
        [tokIdent 0 "u" true, tokListOpen 3, tokInt 4 "1" 1, tokListClose 5]
        { Descriptor := exDesc }).status = .outOfFuel := by
  intro fuel
  have hs := skipValueList_spins (exDecoder true) 100 rfl
  match fuel with
  | 0 => rfl
  | 1 => rfl
  | 2 => rfl
  | 3 => rfl
  | 4 => rfl
  | n + 5 =>
    have h1 : (exDecoder true).skipValue (n + 3)
        [tokListOpen 3, tokInt 4 "1" 1, tokListClose 5] =
        (exDecoder true).skipValueList (n + 1) [] := by
      rw [decoder.skipValue]
      simp only [decoder.Read, tokListOpen, Token.Kind]
      rw [decoder.skipValueList]
      simp only [decoder.Read, tokInt, Token.Kind]
      rw [decoder.skipValue]
      simp only [decoder.Read, tokListClose, Token.Kind]
    have hb : (tokIdent 0 "u" true).body = .Name (.IdentName "u") true := rfl
    have hres : (exDecoder true).resolveField exDesc (tokIdent 0 "u" true) (.IdentName "u") =
        .ok ⟨"u", none, false⟩ := rfl
    have hdu : (exDecoder true).opts.DiscardUnknown = true := rfl
    have hloop : (exDecoder true).unmarshalMessageLoop (n + 3 + 1) false
        ⟨{ Descriptor := exDesc }, [], [],
          [tokIdent 0 "u" true, tokListOpen 3, tokInt 4 "1" 1, tokListClose 5]⟩ =
        ⟨{ Descriptor := exDesc }, .outOfFuel, []⟩ := by
      apply loop_of_ret
      simp only [decoder.iter, decoder.unmarshalMessageIter, Read_cons, hb, hres, hdu,
        Bool.true_or, if_true, h1, (hs (n + 1)).1, (hs (n + 1)).2]
    have hm := (unmarshalMessage_loop (exDecoder true) (n + 4) { Descriptor := exDesc }
      [tokIdent 0 "u" true, tokListOpen 3, tokInt 4 "1" 1, tokListClose 5] rfl (by decide)).1
    simp only [Unmarshal]
    rw [hm, hloop]

/-! ## The enum coders: C23, C24 -/

theorem uint8_toNat_ofNat (n : Nat) (h : n < 256) : (UInt8.ofNat n).toNat = n := by
  simp [UInt8.toNat, UInt8.ofNat, Fin.ofNat, Nat.mod_eq_of_lt h]

/-- The reader of the examples reads back what `exVarint` writes, whatever
follows it. -/
theorem exConsumeVarint_exVarint :
    ∀ (fuel v : Nat) (rest : Bytes), v < 128 ^ (fuel + 1) →
      exConsumeVarint (exVarint (fuel + 1) v ++ rest) =
        (v, ((exVarint (fuel + 1) v).length : Int)) := by
  intro fuel
  induction fuel with
  | zero =>
    intro v rest h
    have hv : v < 128 := by simpa using h
    simp [exVarint, hv, exConsumeVarint, uint8_toNat_ofNat v (by omega)]
  | succ n ih =>
    intro v rest h
    by_cases hv : v < 128
    · simp [exVarint, hv, exConsumeVarint, uint8_toNat_ofNat v (by omega)]
    · have hlt : v % 128 + 128 < 256 := by omega
      have hdiv : v / 128 < 128 ^ (n + 1) := by
        rw [Nat.div_lt_iff_lt_mul (by decide)]
        rw [pow_succ] at h
        exact h
      have hrec := ih (v / 128) rest hdiv
      rw [exVarint]
      simp only [hv, if_false, List.cons_append, exConsumeVarint,
        uint8_toNat_ofNat _ hlt, hrec]
      have h1 : ¬(v % 128 + 128 < 128) := by omega
      have h2 : ¬(((exVarint (n + 1) (v / 128)).length : Int) < 0) := by omega
      simp only [h1, h2, if_false, List.length_cons]
      have h3 : v % 128 + 128 - 128 + 128 * (v / 128) = v := by omega
      rw [h3]
      simp

theorem exVarint_length_pos (fuel v : Nat) : 0 < (exVarint (fuel + 1) v).length := by
  simp only [exVarint]
  split <;> simp

theorem exWire_appendLaws : exWire.AppendLaws where
  append_eq := by intro b v _; simp [exWire]
  size_eq := by intro v _; simp [exWire]
  sizeBytes_eq := by intro n; simp [exWire]

theorem exWire_consumeLaws : exWire.ConsumeLaws where
  consumeVarint_eq := by
    intro v rest hv
    have h := exConsumeVarint_exVarint 9 v rest (by omega)
    simpa [exWire] using h
  consumeBytes_eq := by
    intro p rest hp
    have h := exConsumeVarint_exVarint 9 p.length (p ++ rest) (by omega)
    simp only [exWire, List.nil_append, h]
    have h2 : ¬(((exVarint 10 p.length).length : Int) < 0) := by omega
    simp [h2]

theorem uint64_lt (n : Int) : uint64 n < 18446744073709551616 := by
  unfold uint64
  omega

/-- The loop that appends the elements of a slice appends the encodings of the
elements, one after the other. -/
theorem foldl_appendVarint {w : wire} (hw : w.AppendLaws) :
    ∀ (s : List Int) (b : Bytes),
      s.foldl (fun b e => w.AppendVarint b (uint64 e)) b =
        b ++ s.flatMap (fun e => w.AppendVarint [] (uint64 e)) := by
  intro s
  induction s with
  | nil => intro b; simp
  | cons e s ih =>
    intro b
    simp only [List.foldl_cons, List.flatMap_cons]
    rw [ih, hw.append_eq b _ (uint64_lt e), List.append_assoc]

/-- The loop that sums the sizes of the elements yields the length of their
encodings. -/
theorem foldl_sizeVarint {w : wire} (hw : w.AppendLaws) :
    ∀ (s : List Int) (a : Int),
      s.foldl (fun n e => n + w.SizeVarint (uint64 e)) a =
        a + ((s.flatMap (fun e => w.AppendVarint [] (uint64 e))).length : Int) := by
  intro s
  induction s with
  | nil => intro a; simp
  | cons e s ih =>
    intro a
    simp only [List.foldl_cons, List.flatMap_cons, List.length_append]
    rw [ih, ← hw.size_eq _ (uint64_lt e)]
    push_cast
    omega

/-- The loop of `appendEnumSlice`: every element is written after a copy of the
tag. -/
theorem foldl_appendTagged {w : wire} (hw : w.AppendLaws) (f : coderFieldInfo)
    (hwt : f.wiretag < 18446744073709551616) :
    ∀ (s : List Int) (b : Bytes),
      s.foldl (fun b e => w.AppendVarint (w.AppendVarint b f.wiretag) (uint64 e)) b =
        b ++ s.flatMap
          (fun e => w.AppendVarint [] f.wiretag ++ w.AppendVarint [] (uint64 e)) := by
  intro s
  induction s with
  | nil => intro b; simp
  | cons e s ih =>
    intro b
    simp only [List.foldl_cons, List.flatMap_cons]
    rw [ih, hw.append_eq _ _ (uint64_lt e), hw.append_eq b _ hwt]
    simp only [List.append_assoc]

/-- The loop of `sizeEnumSlice` yields the length of what `appendEnumSlice`
writes. -/
theorem foldl_sizeTagged {w : wire} (hw : w.AppendLaws) (f : coderFieldInfo)
    (hf : f.tagsize = w.SizeVarint f.wiretag) (hwt : f.wiretag < 18446744073709551616) :
    ∀ (s : List Int) (a : Int),
      s.foldl (fun size e => size + (w.SizeVarint (uint64 e) + f.tagsize)) a =
        a + ((s.flatMap
          (fun e => w.AppendVarint [] f.wiretag ++ w.AppendVarint [] (uint64 e))).length : Int) := by
  intro s
  induction s with
  | nil => intro a; simp
  | cons e s ih =>
    intro a
    simp only [List.foldl_cons, List.flatMap_cons, List.length_append]
    rw [ih, hf, ← hw.size_eq _ (uint64_lt e), ← hw.size_eq _ hwt]
    push_cast
    omega

/-- C23. Let `AppendVarint` append to the buffer an encoding of the value,
`SizeVarint` be the length of that encoding and `SizeBytes(n)` be the size of
the varint `n` plus `n`, and let `f.tagsize` be `SizeVarint(f.wiretag)`. Then, for
every buffer `b`, each of `appendEnum`, `appendEnumNoZero`, `appendEnumSlice` and
`appendEnumPackedSlice` returns, without error, `b` followed by as many bytes
as the matching size function returns, for every enum value and every slice
of enum values. For the value zero `appendEnumNoZero`, and for the empty slice
`appendEnumPackedSlice`, returns `b` itself, and the size is 0. -/
theorem C23_enum_size_append (w : wire) (hw : w.AppendLaws) (f : coderFieldInfo)
    (hf : f.tagsize = w.SizeVarint f.wiretag) (hwt : f.wiretag < 18446744073709551616)
    (b : Bytes) :
    (∀ v : Int, ∃ out : Bytes, impl.appendEnum w b v f = (b ++ out, none) ∧
      (out.length : Int) = impl.sizeEnum w v f) ∧
    (∀ v : Int, ∃ out : Bytes, impl.appendEnumNoZero w b v f = (b ++ out, none) ∧
      (out.length : Int) = impl.sizeEnumNoZero w v f) ∧
    (∀ s : List Int, ∃ out : Bytes, impl.appendEnumSlice w b s f = (b ++ out, none) ∧
      (out.length : Int) = impl.sizeEnumSlice w s f) ∧
    (∀ s : List Int, ∃ out : Bytes, impl.appendEnumPackedSlice w b s f = (b ++ out, none) ∧
      (out.length : Int) = impl.sizeEnumPackedSlice w s f) ∧
    (impl.appendEnumNoZero w b 0 f = (b, none) ∧ impl.sizeEnumNoZero w 0 f = 0) ∧
    (impl.appendEnumPackedSlice w b [] f = (b, none) ∧
      impl.sizeEnumPackedSlice w [] f = 0) := by
  have h1 : ∀ v : Int, ∃ out : Bytes, impl.appendEnum w b v f = (b ++ out, none) ∧
      (out.length : Int) = impl.sizeEnum w v f := by
    intro v
    refine ⟨w.AppendVarint [] f.wiretag ++ w.AppendVarint [] (uint64 v), ?_, ?_⟩
    · simp only [impl.appendEnum]
      rw [hw.append_eq _ _ (uint64_lt v), hw.append_eq b _ hwt, List.append_assoc]
    · simp only [impl.sizeEnum, List.length_append, hf]
      rw [← hw.size_eq _ (uint64_lt v), ← hw.size_eq _ hwt]
      push_cast
      rfl
  refine ⟨h1, ?_, ?_, ?_, ⟨by simp [impl.appendEnumNoZero], by simp [impl.sizeEnumNoZero]⟩,
    ⟨by simp [impl.appendEnumPackedSlice], by simp [impl.sizeEnumPackedSlice]⟩⟩
  · intro v
    by_cases hv : v = 0
    · exact ⟨[], by simp [impl.appendEnumNoZero, hv], by simp [impl.sizeEnumNoZero, hv]⟩
    · obtain ⟨out, ha, hs⟩ := h1 v
      exact ⟨out, by simp [impl.appendEnumNoZero, hv, ha],
        by simp [impl.sizeEnumNoZero, hv, hs]⟩
  · intro s
    refine ⟨s.flatMap
      (fun e => w.AppendVarint [] f.wiretag ++ w.AppendVarint [] (uint64 e)), ?_, ?_⟩
    · simp only [impl.appendEnumSlice, foldl_appendTagged hw f hwt s b]
    · simp only [impl.sizeEnumSlice, foldl_sizeTagged hw f hf hwt s 0]
      simp
  · intro s
    by_cases hs : s.length = 0
    · exact ⟨[], by simp [impl.appendEnumPackedSlice, hs],
        by simp [impl.sizeEnumPackedSlice, hs]⟩
    · have hn : impl.sizeVarints w s =
          ((s.flatMap (fun e => w.AppendVarint [] (uint64 e))).length : Int) := by
        simp only [impl.sizeVarints, foldl_sizeVarint hw s 0]
        simp
      refine ⟨w.AppendVarint [] f.wiretag ++ (w.AppendVarint [] (uint64 (impl.sizeVarints w s))
        ++ s.flatMap (fun e => w.AppendVarint [] (uint64 e))), ?_, ?_⟩
      · simp only [impl.appendEnumPackedSlice, hs, if_false, foldl_appendVarint hw]
        rw [hw.append_eq _ _ (uint64_lt _), hw.append_eq b _ hwt]
        simp only [List.append_assoc]
      · simp only [impl.sizeEnumPackedSlice, hs, if_false, List.length_append, hf,
          hw.sizeBytes_eq]
        rw [← hw.size_eq _ (uint64_lt _), ← hw.size_eq _ hwt, hn]
        push_cast
        omega

/-- The bytes `[7]` as the buffer, the tag 8 of field 1 with wire type varint,
and the varints of the examples: the packed slice `1, 300, -1` takes 15 bytes. -/
theorem C23_enum_size_append_witness :
    impl.sizeEnumPackedSlice exWire [1, 300, -1] ⟨8, 1⟩ = 15 ∧
    ∃ out : Bytes,
      impl.appendEnumPackedSlice exWire [7] [1, 300, -1] ⟨8, 1⟩ = ([7] ++ out, none) ∧
      (out.length : Int) = impl.sizeEnumPackedSlice exWire [1, 300, -1] ⟨8, 1⟩ :=
  ⟨by decide,
    (C23_enum_size_append exWire exWire_appendLaws ⟨8, 1⟩ rfl (by decide) [7]).2.2.2.1
      [1, 300, -1]⟩

/-- An enum value survives the conversions on its way through the wire:
`uint64` when it is written, `int64` and `int32` when it is read. -/
theorem int32_int64_uint64 (e : Int) (h1 : -2147483648 ≤ e) (h2 : e < 2147483648) :
    int32 (int64 (uint64 e)) = e := by
  unfold int32 int64 uint64
  split <;> omega

/-- No varint is written as the empty sequence of bytes. -/
theorem appendVarint_ne_nil {w : wire} (hc : w.ConsumeLaws) (v : Nat)
    (hv : v < 18446744073709551616) : w.AppendVarint [] v ≠ [] := by
  intro h
  have key : ∀ v2 : Nat, v2 < 18446744073709551616 → v2 = v := by
    intro v2 hv2
    have h1 := hc.consumeVarint_eq v (w.AppendVarint [] v2) hv
    have h2 := hc.consumeVarint_eq v2 [] hv2
    rw [h, List.nil_append] at h1
    rw [List.append_nil, h1] at h2
    exact (congrArg Prod.fst h2).symm
  have h0 := key 0 (by decide)
  have h1 := key 1 (by decide)
  omega

/-- The loop of `consumeEnumSlice` over the encodings of the elements of a
slice appends the elements to the destination. -/
theorem consumeEnumSliceLoop_payload {w : wire} (ha : w.AppendLaws) (hc : w.ConsumeLaws)
    (fuel : Nat) :
    ∀ (s d : List Int), (∀ e ∈ s, -2147483648 ≤ e ∧ e < 2147483648) →
      impl.consumeEnumSliceLoop w (fuel + s.length + 1)
          (s.flatMap (fun e => w.AppendVarint [] (uint64 e))) d =
        .ret (d ++ s, none) := by
  intro s
  induction s with
  | nil =>
    intro d _
    simp [impl.consumeEnumSliceLoop]
  | cons e s ih =>
    intro d hr
    have he := hr e (List.mem_cons_self e s)
    have hne := appendVarint_ne_nil hc (uint64 e) (uint64_lt e)
    have hpos : 0 < (w.AppendVarint [] (uint64 e)).length := List.length_pos.mpr hne
    have hsz := ha.size_eq (uint64 e) (uint64_lt e)
    have hfuel : fuel + (e :: s).length + 1 = (fuel + s.length + 1) + 1 := rfl
    rw [hfuel, impl.consumeEnumSliceLoop]
    simp only [List.flatMap_cons, hc.consumeVarint_eq _ _ (uint64_lt e),
      int32_int64_uint64 e he.1 he.2, ← hsz, List.length_append]
    have h1 : (w.AppendVarint [] (uint64 e)).length +
        (s.flatMap (fun e => w.AppendVarint [] (uint64 e))).length > 0 := by omega
    have h2 : ¬(((w.AppendVarint [] (uint64 e)).length : Int) < 0) := by omega
    have h3 : ¬((((w.AppendVarint [] (uint64 e)).length : Int)).toNat >
        (w.AppendVarint [] (uint64 e)).length +
          (s.flatMap (fun e => w.AppendVarint [] (uint64 e))).length) := by omega
    simp only [h1, h2, h3, if_true, if_false, Int.toNat_ofNat, List.drop_left]
    rw [ih (d ++ [e]) (fun x hx => hr x (List.mem_cons_of_mem e hx))]
    simp

/-- C24. Let the wire functions obey their contract: `AppendVarint` appends an
encoding of the value whose length is `SizeVarint`, `ConsumeVarint` reads such
an encoding back, and `ConsumeBytes` reads a length varint and the bytes that
it counts. Let `s` be a non-empty slice of int32 enum values whose encodings
take fewer than `2^63` bytes together. Then `appendEnumPackedSlice` writes,
after the buffer and the varint of the tag, a body (the length varint and the
varints of the elements) such that `consumeEnumSlice` with wire type
`BytesType`, given the body followed by any trailing bytes and any destination
`d`, returns without error, leaves the destination equal to `d` followed by
the elements of `s` in order, and sets `out.n` to the length of the body. -/
theorem C24_packed_round_trip (w : wire) (ha : w.AppendLaws) (hc : w.ConsumeLaws)
    (f : coderFieldInfo) (hwt : f.wiretag < 18446744073709551616) (b : Bytes) (s : List Int)
    (hs : s ≠ []) (hrange : ∀ e ∈ s, -2147483648 ≤ e ∧ e < 2147483648)
    (hfit : impl.sizeVarints w s < 9223372036854775808) :
    ∃ body : Bytes,
      impl.appendEnumPackedSlice w b s f =
        (b ++ (w.AppendVarint [] f.wiretag ++ body), none) ∧
      ∀ (fuel : Nat) (trailing : Bytes) (d : List Int) (g : coderFieldInfo),
        impl.consumeEnumSlice w (fuel + s.length + 1) (body ++ trailing) d .BytesType g =
          .ret (d ++ s, { n := body.length }, none) := by
  have hn : impl.sizeVarints w s =
      ((s.flatMap (fun e => w.AppendVarint [] (uint64 e))).length : Int) := by
    simp only [impl.sizeVarints, foldl_sizeVarint ha s 0]
    simp
  have hlen : s.length ≠ 0 := fun h => hs (List.length_eq_zero.mp h)
  have hu : uint64 (impl.sizeVarints w s) =
      (s.flatMap (fun e => w.AppendVarint [] (uint64 e))).length := by
    rw [hn] at hfit ⊢
    generalize (s.flatMap (fun e => w.AppendVarint [] (uint64 e))).length = L at hfit ⊢
    unfold uint64
    omega
  have hp : (s.flatMap (fun e => w.AppendVarint [] (uint64 e))).length <
      9223372036854775808 := by
    rw [hn] at hfit
    omega
  refine ⟨w.AppendVarint [] (uint64 (impl.sizeVarints w s)) ++
    s.flatMap (fun e => w.AppendVarint [] (uint64 e)), ?_, ?_⟩
  · simp only [impl.appendEnumPackedSlice, hlen, if_false, foldl_appendVarint ha]
    rw [ha.append_eq _ _ (uint64_lt _), ha.append_eq b _ hwt]
    simp only [List.append_assoc]
  · intro fuel trailing d g
    have hcb := hc.consumeBytes_eq
      (s.flatMap (fun e => w.AppendVarint [] (uint64 e))) trailing hp
    have hsz := ha.size_eq _ (uint64_lt (impl.sizeVarints w s))
    rw [hu] at hsz
    simp only [impl.consumeEnumSlice, if_true, hu, List.append_assoc, hcb,
      consumeEnumSliceLoop_payload ha hc fuel s d hrange, ← hsz, List.length_append]
    have h2 : ¬(((w.AppendVarint []
        (s.flatMap (fun e => w.AppendVarint [] (uint64 e))).length).length : Int) +
        ((s.flatMap (fun e => w.AppendVarint [] (uint64 e))).length : Int) < 0) := by omega
    simp only [h2, if_false]
    push_cast
    rfl

/-- The packed slice `1, 300, -1` under the tag 8, written after the byte `7`
and read back, with the trailing byte `9`, after the destination `5`. -/
theorem C24_packed_round_trip_witness :
    impl.appendEnumPackedSlice exWire [7] [1, 300, -1] ⟨8, 1⟩ =
      ([7, 8, 13, 1, 172, 2, 255, 255, 255, 255, 255, 255, 255, 255, 255, 1], none) ∧
    ∃ body : Bytes,
      impl.appendEnumPackedSlice exWire [7] [1, 300, -1] ⟨8, 1⟩ =
        ([7] ++ (exWire.AppendVarint [] 8 ++ body), none) ∧
      ∀ (fuel : Nat) (trailing : Bytes) (d : List Int) (g : coderFieldInfo),
        impl.consumeEnumSlice exWire (fuel + 3 + 1) (body ++ trailing) d .BytesType g =
          .ret (d ++ [1, 300, -1], { n := body.length }, none) :=
  ⟨by decide,
    C24_packed_round_trip exWire exWire_appendLaws exWire_consumeLaws ⟨8, 1⟩ (by decide) [7]
      [1, 300, -1] (by decide) (by decide) (by decide)⟩

end Prototext
